import Mathlib

/-! The argument matching engine of `src/ccli.h`.

A shallow embedding of the option parser embedded in `patc` (`src/ccli.h`), and theorems
about it; then the parts of the client `src/patc.c` that read the patch file, substitute and
select the command.

Conventions of the embedding.

* A C string is a `List Char` (`Str`), one element for each `char` before the terminating
  NUL; a pointer that may be `NULL` is an `Option`.
* A descriptor table is the list of the descriptors that precede its terminating entry
  (`ccli_option_term`, `ccli_command_term`); the terminator is the end of the list. The kind
  `ccli_null` is the kind of the terminator only, so no listed descriptor carries it.
* The storage a descriptor points to (`data`) is kept in the descriptor itself.
* `exit` is an outcome: every fatal path returns the reason of the exit together with the
  descriptor table as it stood at that moment.
* `long` and `unsigned long` are 64 bits wide (LP64), as the header assumes.
* A read outside the object it indexes has no defined behaviour in C; it is the outcome
  `out_of_bounds_read`, and a write outside the object is the outcome `out_of_bounds_write`.
  The first such access ends the run.
* The text that is printed is not modelled: an exit keeps the arguments of its message only.
  Of `ccli_help` the embedding keeps what decides whether the text is printed at all: the
  reads of the command table, the size of each buffer and the writes to it, and the strings
  handed to `fprintf`.
-/

set_option autoImplicit false

/-- A NUL terminated C string, without its terminator. -/
abbrev Str := List Char

/-- The byte that terminates a C string. -/
def c_nul : Char := Char.ofNat 0

/-- Value of `CCLI_MAX_STR_LEN` (ccli.h:79-81). -/
def CCLI_MAX_STR_LEN : Nat := 1024

/-- Value of `LONG_MAX` for a 64 bit `long`. -/
def LONG_MAX : Int := 9223372036854775807

/-- Value of `LONG_MIN` for a 64 bit `long`. -/
def LONG_MIN : Int := -9223372036854775808

/-- Value of `UINT64_MAX`, which is also `SIZE_MAX`. -/
def UINT64_MAX : Nat := 18446744073709551615

/-- Compile time switches `CCLI_DISALLOW_HEX_NUMBERS` and `CCLI_DISALLOW_BIN_NUMBERS`. -/
structure ccli_config where
  disallow_hex : Bool
  disallow_bin : Bool
deriving DecidableEq, Repr

/-- The configuration `patc.c` is built with: neither switch is defined. -/
def ccli_default_config : ccli_config := ⟨false, false⟩

/-- The enumeration `ccli_option_kind` (ccli.h:162-168) without `ccli_null`, which only the
terminating entry of a table carries. -/
inductive ccli_option_kind where
  | ccli_boolean
  | ccli_string
  | ccli_number
  | ccli_unumber
deriving DecidableEq, Repr

/-- Contents of the caller owned storage behind `ccli_option.data`. -/
inductive ccli_value where
  | boolean (b : Bool)
  | string (s : Str)
  | number (n : Int)
  | unumber (n : Nat)
deriving DecidableEq, Repr

/-- The record `ccli_option` (ccli.h:170-181). -/
structure ccli_option where
  short_arg : Char
  long_arg : Option Str
  kind : ccli_option_kind
  required : Bool
  positional : Bool
  cmd_idx : Nat
  matched : Bool
  data : ccli_value
  desc : Option Str
  arg_desc : Option Str
deriving DecidableEq, Repr

/-- The record `ccli_command` (ccli.h:183-186); `command` is not `NULL` before the terminator. -/
structure ccli_command where
  command : Str
  desc : Option Str
deriving DecidableEq, Repr

/-- The enumeration `ccli_short_opt_kind` (ccli.h:188-192). -/
inductive ccli_short_opt_kind where
  | ccli_short_none
  | ccli_short_single
  | ccli_short_multiple
deriving DecidableEq, Repr

/-- Every way the engine ends the process, by the call that does it. -/
inductive ccli_exit where
  /-- ccli.h:908 -/
  | panic_argv_required
  /-- ccli.h:522 -/
  | panic_long_required (index : Nat)
  /-- ccli.h:525 -/
  | panic_arg_desc_required (long_arg : Option Str)
  /-- ccli.h:819-820, the only exit with status 0 -/
  | help_shown
  /-- ccli.h:739 -/
  | too_many_positionals (expected got : Nat)
  /-- ccli.h:789 -/
  | too_few_positionals (expected got : Nat)
  /-- ccli.h:758, 966, 1019 -/
  | string_too_long (long_arg : Option Str)
  /-- ccli.h:768, 777, 878, 889, 976, 985, 1029, 1038 -/
  | invalid_number (long_arg : Option Str) (token : Str)
  /-- ccli.h:807 -/
  | missing_required (long_arg : Option Str)
  /-- ccli.h:865 -/
  | boolean_with_value (long_arg : Option Str)
  /-- ccli.h:901, 1055 -/
  | unknown_argument (token : Str)
  /-- ccli.h:1053 -/
  | excess_positional (token : Str)
  /-- ccli.h:1009, 1014 -/
  | missing_argument (long_arg : Option Str)
  /-- ccli.h:1012 -/
  | invalid_unsigned (long_arg : Option Str) (token : Str)
  /-- ccli.h:1046 -/
  | multiple_short
  /-- a read outside the object it indexes: the C program has no defined behaviour -/
  | out_of_bounds_read
  /-- a write outside the object it indexes: the C program has no defined behaviour -/
  | out_of_bounds_write
deriving DecidableEq, Repr

/-- Equality of outcomes is decidable. -/
instance instDecidableEqExcept {ε α : Type} [DecidableEq ε] [DecidableEq α] :
    DecidableEq (Except ε α) := fun a b =>
  match a, b with
  | .ok x, .ok y => if h : x = y then isTrue (by rw [h]) else isFalse (fun h1 => h (Except.ok.inj h1))
  | .error x, .error y =>
    if h : x = y then isTrue (by rw [h]) else isFalse (fun h1 => h (Except.error.inj h1))
  | .ok _, .error _ => isFalse (fun h => Except.noConfusion h)
  | .error _, .ok _ => isFalse (fun h => Except.noConfusion h)

/-- Outcome of an engine function: a result, or the exit and the table at the exit. -/
abbrev ccli_result (α : Type) := Except (ccli_exit × List ccli_option) α

/-! ## String helpers (ccli.h:491-515) -/

/-- `ccli_streq` (ccli.h:491-496): pointer equality when either side is `NULL`, `strcmp`
otherwise. -/
def ccli_streq (s1 s2 : Option Str) : Bool :=
  match s1, s2 with
  | none, none => true
  | none, some _ => false
  | some _, none => false
  | some a, some b => a == b

/-- Loop of `ccli_stridx` (ccli.h:508-512), started at index `i`. -/
def ccli_stridx_from (c : Char) : Str → Nat → Int
  | [], _ => -1
  | x :: xs, i => if x == c then (i : Int) else ccli_stridx_from c xs (i + 1)

/-- `ccli_stridx` (ccli.h:502-515). -/
def ccli_stridx (s : Option Str) (c : Char) : Int :=
  match s with
  | none => -1
  | some l => ccli_stridx_from c l 0

/-- `ccli_strcontains` (ccli.h:498-500). -/
def ccli_strcontains (s : Option Str) (c : Char) : Bool :=
  decide (ccli_stridx s c ≥ 0)

/-! ## The C library function `strtol` -/

/-- `isspace` in the C locale. -/
def c_isspace (c : Char) : Bool :=
  c.toNat == 32 || (9 ≤ c.toNat && c.toNat ≤ 13)

/-- Value of a character as a digit of `strtol`, for bases up to 36. -/
def c_digit_value (c : Char) : Option Nat :=
  if 48 ≤ c.toNat ∧ c.toNat ≤ 57 then some (c.toNat - 48)
  else if 97 ≤ c.toNat ∧ c.toNat ≤ 122 then some (c.toNat - 87)
  else if 65 ≤ c.toNat ∧ c.toNat ≤ 90 then some (c.toNat - 55)
  else none

/-- Whether `c` is a digit of the base. -/
def c_is_digit (base : Nat) (c : Char) : Bool :=
  match c_digit_value c with
  | some d => decide (d < base)
  | none => false

/-- The longest run of digits of the base at the head of the string: its mathematical value
(accumulated in `acc`) and its length (accumulated in `cnt`). -/
def strtol_digits (base : Nat) : Str → Nat → Nat → Nat × Nat
  | [], acc, cnt => (acc, cnt)
  | c :: cs, acc, cnt =>
    match c_digit_value c with
    | some d => if d < base then strtol_digits base cs (acc * base + d) (cnt + 1) else (acc, cnt)
    | none => (acc, cnt)

/-- What a call of `strtol` leaves behind: the returned value, the offset of `*endptr` from
`nptr`, and whether `errno` was set to `ERANGE`. -/
structure strtol_result where
  value : Int
  end_ofs : Nat
  erange : Bool
deriving DecidableEq, Repr

/-- The sign of the subject sequence: whether it is negative, and how many characters it takes. -/
def strtol_sign : Str → Bool × Nat
  | c :: _ => if c == '-' then (true, 1) else if c == '+' then (false, 1) else (false, 0)
  | [] => (false, 0)

/-- Length of the `0x` or `0X` prefix `strtol` skips in base 16: two when a hexadecimal digit
follows it, zero otherwise. -/
def strtol_hex_prefix (base : Nat) : Str → Nat
  | z :: x :: d :: _ =>
    if base == 16 && z == '0' && (x == 'x' || x == 'X') && c_is_digit 16 d then 2 else 0
  | _ => 0

/-- ISO C `strtol` for a 64 bit `long`, bases 2 to 36 (`strtoll` is the same function there):
leading white space, an optional sign, in base 16 an optional `0x`, then the longest run of
digits. Without a digit nothing is converted: the value is 0 and `*endptr` is `nptr`. A value
out of range is clamped to `LONG_MAX` or `LONG_MIN` and `errno` becomes `ERANGE`. -/
def strtol (nptr : Str) (base : Nat) : strtol_result :=
  let ws := (nptr.takeWhile c_isspace).length
  let s1 := nptr.drop ws
  let sign := strtol_sign s1
  let s2 := s1.drop sign.2
  let pre := strtol_hex_prefix base s2
  let dg := strtol_digits base (s2.drop pre) 0 0
  if dg.2 == 0 then ⟨0, 0, false⟩
  else if sign.1 then
    if dg.1 > 9223372036854775808 then ⟨LONG_MIN, ws + sign.2 + pre + dg.2, true⟩
    else ⟨-(dg.1 : Int), ws + sign.2 + pre + dg.2, false⟩
  else
    if dg.1 > 9223372036854775807 then ⟨LONG_MAX, ws + sign.2 + pre + dg.2, true⟩
    else ⟨(dg.1 : Int), ws + sign.2 + pre + dg.2, false⟩

/-! ## Numeric coercion (ccli.h:343-489) -/

/-- The four tests after the decimal `strtol` of `ccli_try_parse_int` (ccli.h:350-358);
`errno != 0 && num == 0` never holds, `num` not being `NULL`. -/
def ccli__int_failed_dec (num : Str) (r : strtol_result) : Bool :=
  if r.end_ofs == 0 then true
  else if r.erange && (r.value == LONG_MAX || r.value == LONG_MIN) then true
  else if r.end_ofs < num.length then true
  else false

/-- The four tests after the base 16 and base 2 `strtol` of `ccli_try_parse_int`
(ccli.h:370-378, 398-406): `errno` is not consulted. -/
def ccli__int_failed_alt (num : Str) (r : strtol_result) : Bool :=
  if r.end_ofs == 0 then true
  else if r.value == LONG_MAX || r.value == LONG_MIN then true
  else if r.end_ofs < num.length then true
  else false

/-- The test `num_len <= 2 || num[0] != '0' || num[1] != c` (ccli.h:363, 388). -/
def ccli__no_base_prefix (num : Str) (c : Char) : Bool :=
  decide (num.length ≤ 2) || num.getD 0 c_nul != '0' || num.getD 1 c_nul != c

/-- `ccli_try_parse_int` (ccli.h:343-415): `some parsed` when it returns `true`. -/
def ccli_try_parse_int (cfg : ccli_config) (num : Str) : Option Int :=
  let r10 := strtol num 10
  let failed0 := ccli__int_failed_dec num r10
  let st1 : Bool × Int :=
    if cfg.disallow_hex then (failed0, r10.value)
    else if failed0 then
      if ccli__no_base_prefix num 'x' then (true, r10.value)
      else (ccli__int_failed_alt num (strtol num 16), (strtol num 16).value)
    else (failed0, r10.value)
  if cfg.disallow_bin then (if st1.1 then none else some st1.2)
  else if st1.1 then
    if ccli__no_base_prefix num 'b' then none
    else if ccli__int_failed_alt (num.drop 2) (strtol (num.drop 2) 2) then none
    else some (strtol (num.drop 2) 2).value
  else some st1.2

/-- Conversion of a `long` to `uint64_t`. -/
def c_to_uint64 (v : Int) : Nat := (v % 18446744073709551616).toNat

/-- The tests after the decimal `strtoll` of `ccli_try_parse_uint` (ccli.h:424-432). -/
def ccli__uint_failed_dec (num : Str) (r : strtol_result) : Bool :=
  if r.end_ofs == 0 then true
  else if r.erange && (c_to_uint64 r.value == UINT64_MAX || c_to_uint64 r.value == UINT64_MAX) then true
  else if r.end_ofs < num.length then true
  else false

/-- The tests after the base 16 and base 2 `strtol` of `ccli_try_parse_uint`
(ccli.h:444-452, 472-480). -/
def ccli__uint_failed_alt (num : Str) (r : strtol_result) : Bool :=
  if r.end_ofs == 0 then true
  else if c_to_uint64 r.value == UINT64_MAX || c_to_uint64 r.value == UINT64_MAX then true
  else if r.end_ofs < num.length then true
  else false

/-- `ccli_try_parse_uint` (ccli.h:417-489): `some parsed` when it returns `true`. -/
def ccli_try_parse_uint (cfg : ccli_config) (num : Str) : Option Nat :=
  let r10 := strtol num 10
  let failed0 := ccli__uint_failed_dec num r10
  let st1 : Bool × Nat :=
    if cfg.disallow_hex then (failed0, c_to_uint64 r10.value)
    else if failed0 then
      if ccli__no_base_prefix num 'x' then (true, c_to_uint64 r10.value)
      else (ccli__uint_failed_alt num (strtol num 16), c_to_uint64 (strtol num 16).value)
    else (failed0, c_to_uint64 r10.value)
  if cfg.disallow_bin then (if st1.1 then none else some st1.2)
  else if st1.1 then
    if ccli__no_base_prefix num 'b' then none
    else if ccli__uint_failed_alt (num.drop 2) (strtol (num.drop 2) 2) then none
    else some (c_to_uint64 (strtol (num.drop 2) 2).value)
  else some st1.2

/-! ## Table lengths, validation, command resolution (ccli.h:319-341, 517-538, 825-837) -/

/-- `ccli__opt_len` (ccli.h:319-329). The loop leaves `idx` one past the index of the first
entry of null kind when it ran at all, and at 0 when the first entry is the terminator, so
that `idx - 1` wraps around to `SIZE_MAX` for a table that holds the terminator alone. -/
def ccli__opt_len (options : Option (List ccli_option)) : Nat :=
  match options with
  | none => 0
  | some [] => UINT64_MAX
  | some (o :: os) => (o :: os).length

/-- `ccli__cmd_len` (ccli.h:331-341), the same loop over the command table. -/
def ccli__cmd_len (commands : Option (List ccli_command)) : Nat :=
  match commands with
  | none => 0
  | some [] => UINT64_MAX
  | some (c :: cs) => (c :: cs).length

/-- Body of the loop of `ccli__validate_options` (ccli.h:519-527) from index `i` on. -/
def ccli__validate_from : List ccli_option → Nat → Except ccli_exit Unit
  | [], _ => .ok ()
  | opt :: rest, i =>
    if opt.long_arg == none then .error (.panic_long_required i)
    else if opt.kind != .ccli_boolean && !opt.positional && opt.arg_desc == none then
      .error (.panic_arg_desc_required opt.long_arg)
    else ccli__validate_from rest (i + 1)

/-- `ccli__validate_options` (ccli.h:517-528) on a table that is not `NULL`. For the table
that holds the terminator alone `ccli__opt_len` is `SIZE_MAX`, the loop reads the terminator
at index 0, and its `long_arg` is `NULL`. -/
def ccli__validate_options (options : List ccli_option) : Except ccli_exit Unit :=
  match options with
  | [] => .error (.panic_long_required 0)
  | o :: os => ccli__validate_from (o :: os) 0

/-- The read `subcommands[i].command`: `none` when it falls outside the table (or the table
is `NULL`), `some none` for the terminator, whose name is `NULL`. -/
def ccli__command_at (subcommands : Option (List ccli_command)) (i : Nat) : Option (Option Str) :=
  match subcommands with
  | none => none
  | some cmds =>
    if i < cmds.length then some ((cmds.get? i).map (fun c => c.command))
    else if i == cmds.length then some none
    else none

/-- `ccli__arg_relevant` (ccli.h:530-538); `none` when `subcommands[opt.cmd_idx - 2]` is read
outside the table. -/
def ccli__arg_relevant (opt : ccli_option) (subcommands : Option (List ccli_command))
    (subcommand : Option Str) : Option Bool :=
  if opt.cmd_idx == 0 then some true
  else if opt.cmd_idx == 1 then some (subcommand == none)
  else (ccli__command_at subcommands (opt.cmd_idx - 2)).map (fun c => ccli_streq c subcommand)

/-- `ccli__pos_args_len` (ccli.h:564-574) on a table of at least one descriptor; `none` when
`ccli__arg_relevant` reads outside the command table. -/
def ccli__pos_args_len (options : List ccli_option) (subcommands : Option (List ccli_command))
    (subcommand : Option Str) : Option Nat :=
  match options with
  | [] => some 0
  | opt :: rest =>
    if opt.positional then
      match ccli__arg_relevant opt subcommands subcommand with
      | none => none
      | some true => (ccli__pos_args_len rest subcommands subcommand).map (fun n => n + 1)
      | some false => ccli__pos_args_len rest subcommands subcommand
    else ccli__pos_args_len rest subcommands subcommand

/-- Loop of `ccli__run_command` (ccli.h:830-835) from index `i` on. -/
def ccli__run_command_from (arg1 : Str) : List ccli_command → Nat → Nat
  | [], _ => 1
  | cmd :: rest, i =>
    if ccli_streq (some cmd.command) (some arg1) then i + 2
    else ccli__run_command_from arg1 rest (i + 1)

/-- `ccli__run_command` (ccli.h:825-837); `argc` is the length of `argv`. For the table that
holds the terminator alone `ccli__cmd_len` is `SIZE_MAX` and the scan leaves the table. -/
def ccli__run_command (subcommands : Option (List ccli_command)) (argv : List Str) :
    Except ccli_exit Nat :=
  match argv with
  | [] => .error .out_of_bounds_read
  | [_] => .ok 1
  | _ :: arg1 :: _ =>
    match subcommands with
    | none => .ok 1
    | some [] => .error .out_of_bounds_read
    | some (c :: cs) => .ok (ccli__run_command_from arg1 (c :: cs) 0)

/-! ## Token shapes (ccli.h:707-733, 793-795) -/

/-- `ccli__is_long_opt` (ccli.h:707-712). -/
def ccli__is_long_opt (opt : Str) : Bool :=
  if opt.length < 3 then false
  else opt.getD 0 c_nul == '-' && opt.getD 0 c_nul == opt.getD 1 c_nul

/-- `ccli__short_opt_kind` (ccli.h:714-729). -/
def ccli__short_opt_kind (opt : Str) : ccli_short_opt_kind :=
  if opt.length < 2 then .ccli_short_none
  else if opt.getD 0 c_nul != '-' then .ccli_short_none
  else if opt.length ≥ 3 then .ccli_short_multiple
  else if opt.getD 0 c_nul == '-' && opt.getD 1 c_nul != '-' then .ccli_short_single
  else .ccli_short_none

/-- `ccli__is_option` (ccli.h:731-733). -/
def ccli__is_option (opt : Str) : Bool :=
  ccli__is_long_opt opt || ccli__short_opt_kind opt != .ccli_short_none

/-- `ccli__long_opt_eq` (ccli.h:793-795): the reads stop at the first character that is not
a dash, so they stay inside `argv_opt`. -/
def ccli__long_opt_eq (argv_opt : Str) (long_opt : Option Str) : Bool :=
  match argv_opt with
  | c0 :: c1 :: rest => c0 == '-' && c1 == '-' && ccli_streq (some rest) long_opt
  | _ => false

/-- The test `ccli_streq(arg, "--") || ccli_streq(arg, "-")` (ccli.h:815, 936). -/
def ccli__is_terminator (arg : Str) : Bool :=
  ccli_streq (some arg) (some ['-', '-']) || ccli_streq (some arg) (some ['-'])

/-- The local `is_positional` of the main loop (ccli.h:927-933). -/
def ccli__is_positional (arg : Str) : Bool :=
  !ccli__is_long_opt arg && ccli__short_opt_kind arg == .ccli_short_none

/-! ## Coercion at the three places that store a value -/

/-- The `switch (opt.kind)` that stores a positional token (ccli.h:752-783, 960-991): the
value written to `data`, or the fatal exit. -/
def ccli__coerce_positional (cfg : ccli_config) (opt : ccli_option) (arg : Str) :
    Except ccli_exit ccli_value :=
  match opt.kind with
  | .ccli_boolean => .ok (.boolean true)
  | .ccli_string =>
    if arg.length > CCLI_MAX_STR_LEN then .error (.string_too_long opt.long_arg)
    else .ok (.string arg)
  | .ccli_number =>
    match ccli_try_parse_int cfg arg with
    | some n => .ok (.number n)
    | none => .error (.invalid_number opt.long_arg arg)
  | .ccli_unumber =>
    match ccli_try_parse_uint cfg arg with
    | some n => .ok (.unumber n)
    | none => .error (.invalid_number opt.long_arg arg)

/-- The value branch of an option matched by name (ccli.h:997-1043); `next` is
`argv[argc_idx + 1]` when `argc_idx + 1 < argc`. Gives the value written to `data` and
whether `argc_idx` was advanced over `next`. -/
def ccli__coerce_named (cfg : ccli_config) (opt : ccli_option) (next : Option Str) :
    Except ccli_exit (ccli_value × Bool) :=
  if opt.kind == .ccli_boolean then .ok (.boolean true, false)
  else
    match next with
    | none => .error (.missing_argument opt.long_arg)
    | some v =>
      if ccli__is_option v then
        if opt.kind == .ccli_number then
          match ccli_try_parse_int cfg v with
          | some n => .ok (.number n, true)
          | none => .error (.missing_argument opt.long_arg)
        else if opt.kind == .ccli_unumber then .error (.invalid_unsigned opt.long_arg v)
        else .error (.missing_argument opt.long_arg)
      else
        match opt.kind with
        | .ccli_boolean => .ok (.boolean true, false)
        | .ccli_string =>
          if v.length > CCLI_MAX_STR_LEN then .error (.string_too_long opt.long_arg)
          else .ok (.string v, true)
        | .ccli_number =>
          match ccli_try_parse_int cfg v with
          | some n => .ok (.number n, true)
          | none => .error (.invalid_number opt.long_arg v)
        | .ccli_unumber =>
          match ccli_try_parse_uint cfg v with
          | some n => .ok (.unumber n, true)
          | none => .error (.invalid_number opt.long_arg v)

/-- The value branch of the equals form (ccli.h:862-896): `strcpy` without a length test. -/
def ccli__coerce_equals (cfg : ccli_config) (opt : ccli_option) (param : Str) :
    Except ccli_exit ccli_value :=
  match opt.kind with
  | .ccli_boolean => .error (.boolean_with_value opt.long_arg)
  | .ccli_string => .ok (.string param)
  | .ccli_number =>
    match ccli_try_parse_int cfg param with
    | some n => .ok (.number n)
    | none => .error (.invalid_number opt.long_arg param)
  | .ccli_unumber =>
    match ccli_try_parse_uint cfg param with
    | some n => .ok (.unumber n)
    | none => .error (.invalid_number opt.long_arg param)

/-! ## The match engine (ccli.h:735-1063) -/

/-- Puts back the descriptors a scan has already passed: in front of the table a scan of the
rest returns, whether it returns normally or through an exit. -/
def ccli__prepend {β : Type} (opt : ccli_option) :
    ccli_result (List ccli_option × β) → ccli_result (List ccli_option × β)
  | .ok (options, b) => .ok (opt :: options, b)
  | .error (e, options) => .error (e, opt :: options)

/-- Puts a list of descriptors back in front of the table of an outcome. -/
def ccli__prepend_list {β : Type} (done : List ccli_option) :
    ccli_result (List ccli_option × β) → ccli_result (List ccli_option × β)
  | .ok (options, b) => .ok (done ++ options, b)
  | .error (e, options) => .error (e, done ++ options)

/-- The scope test written out in the main loop, in `ccli__parse_equals` and in
`ccli__check_unmatched` (ccli.h:802, 855, 952): the negation of
`!(ccli_option_is_global(opt)) && opt.cmd_idx != cmd_idx`. -/
def ccli__in_scope (opt : ccli_option) (cmd_idx : Nat) : Bool :=
  !(!(opt.cmd_idx == 0) && opt.cmd_idx != cmd_idx)

/-- The test of line 993: the token is the long name of the descriptor, or a single short
option whose letter is its short name. -/
def ccli__name_matches (arg : Str) (opt : ccli_option) : Bool :=
  (ccli__is_long_opt arg && ccli__long_opt_eq arg opt.long_arg)
    || (ccli__short_opt_kind arg == .ccli_short_single && arg.getD 1 c_nul == opt.short_arg)

/-- The test of line 858 on the key `opt_str` of an equals form, for a key that is not empty:
`opt_str[1]` is the terminating NUL when the key has one character. -/
def ccli__key_matches (opt_str : Str) (opt : ccli_option) : Bool :=
  opt_str.getD 1 c_nul == opt.short_arg || ccli__long_opt_eq opt_str opt.long_arg

/-- The search `for (opt_search ...)` of the main loop for one token (ccli.h:949-1049).
Returns the table, `matched_arg`, and whether `argc_idx` was advanced over the next token. -/
def ccli__match_arg (cfg : ccli_config) (cmd_idx : Nat) (arg : Str) (next : Option Str) :
    List ccli_option → ccli_result (List ccli_option × Bool × Bool)
  | [] => .ok ([], false, false)
  | opt :: rest =>
    if !ccli__in_scope opt cmd_idx then
      ccli__prepend opt (ccli__match_arg cfg cmd_idx arg next rest)
    else if ccli__is_positional arg && opt.positional && !opt.matched then
      match ccli__coerce_positional cfg opt arg with
      | .error e => .error (e, { opt with matched := true } :: rest)
      | .ok d => .ok ({ opt with matched := true, data := d } :: rest, true, false)
    else if ccli__name_matches arg opt then
      match ccli__coerce_named cfg opt next with
      | .error e => .error (e, { opt with matched := true } :: rest)
      | .ok (d, consumed) => .ok ({ opt with matched := true, data := d } :: rest, true, consumed)
    else if !ccli__is_long_opt arg && ccli__short_opt_kind arg == .ccli_short_multiple then
      .error (.multiple_short, opt :: rest)
    else
      ccli__prepend opt (ccli__match_arg cfg cmd_idx arg next rest)

/-- The search of `ccli__parse_remaining_positionals` for one token (ccli.h:748-785): no scope
test and no `break`, every unmatched positional descriptor takes the token. -/
def ccli__fill_positionals (cfg : ccli_config) (arg : Str) :
    List ccli_option → ccli_result (List ccli_option × Unit)
  | [] => .ok ([], ())
  | opt :: rest =>
    if !opt.matched && opt.positional then
      match ccli__coerce_positional cfg opt arg with
      | .error e => .error (e, { opt with matched := true } :: rest)
      | .ok d =>
        ccli__prepend { opt with matched := true, data := d } (ccli__fill_positionals cfg arg rest)
    else ccli__prepend opt (ccli__fill_positionals cfg arg rest)

/-- The loop `for (; argc_idx < argc; argc_idx++)` of `ccli__parse_remaining_positionals`
(ccli.h:742-786). A token is passed over when it is `--`, and also when
`ccli_streq(arg, "-") == 0`, that is when it is not `-`. -/
def ccli__remaining_loop (cfg : ccli_config) :
    List ccli_option → List Str → ccli_result (List ccli_option)
  | options, [] => .ok options
  | options, arg :: rest =>
    if ccli_streq (some arg) (some ['-', '-']) || (ccli_streq (some arg) (some ['-']) == false) then
      ccli__remaining_loop cfg options rest
    else
      match ccli__fill_positionals cfg arg options with
      | .error e => .error e
      | .ok (options1, _) => ccli__remaining_loop cfg options1 rest

/-- `ccli__parse_remaining_positionals` (ccli.h:735-791); `tokens` is `argv` from `argc_idx`
on, the terminator first, so that `argc - argc_idx - 1` is `tokens.length - 1`. The loop ends
with `argc_idx == argc`, so the test of line 788 never fires. -/
def ccli__parse_remaining_positionals (cfg : ccli_config) (options : List ccli_option)
    (subcommands : Option (List ccli_command)) (subcommand : Option Str) (tokens : List Str) :
    ccli_result (List ccli_option) :=
  match ccli__pos_args_len options subcommands subcommand with
  | none => .error (.out_of_bounds_read, options)
  | some pos_arg_count =>
    if tokens.length - 1 > pos_arg_count then
      .error (.too_many_positionals pos_arg_count (tokens.length - 1), options)
    else ccli__remaining_loop cfg options tokens

/-- The scan of `ccli__check_unmatched` (ccli.h:800-809): the `long_arg` of the first
descriptor in scope that is required and not matched. -/
def ccli__first_unmatched (cmd_idx : Nat) : List ccli_option → Option (Option Str)
  | [] => none
  | opt :: rest =>
    if !ccli__in_scope opt cmd_idx then ccli__first_unmatched cmd_idx rest
    else if !opt.matched && opt.required then some opt.long_arg
    else ccli__first_unmatched cmd_idx rest

/-- `ccli__check_unmatched` (ccli.h:797-810). Its parameter `cmd_idx` is a `uint8_t`: the
`size_t` the caller passes is reduced modulo 256 on entry. -/
def ccli__check_unmatched (cmd_idx : Nat) (options : List ccli_option) :
    ccli_result (List ccli_option) :=
  match ccli__first_unmatched (cmd_idx % 256) options with
  | some long_arg => .error (.missing_required long_arg, options)
  | none => .ok options

/-! ## The help text (ccli.h:540-562, 576-705) -/

/-- The local `len` of `ccli__max_long_arg_len` (ccli.h:552-555): the length of the long name,
and 3 and the length of the `arg_desc` more when there is one. -/
def ccli__long_arg_len (long_arg : Str) (arg_desc : Option Str) : Nat :=
  match arg_desc with
  | none => long_arg.length
  | some a => long_arg.length + (3 + a.length)

/-- Loop of `ccli__max_long_arg_len` (ccli.h:544-559) with the running maximum `max`; `none`
when `ccli__arg_relevant`, which is called for every descriptor, reads outside the command
table. -/
def ccli__max_long_arg_len_from (subcommands : Option (List ccli_command))
    (subcommand : Option Str) : List ccli_option → Nat → Option Nat
  | [], max => some max
  | opt :: rest, max =>
    match ccli__arg_relevant opt subcommands subcommand with
    | none => none
    | some false => ccli__max_long_arg_len_from subcommands subcommand rest max
    | some true =>
      match opt.long_arg with
      | none => ccli__max_long_arg_len_from subcommands subcommand rest max
      | some long_arg =>
        if ccli__long_arg_len long_arg opt.arg_desc > max then
          ccli__max_long_arg_len_from subcommands subcommand rest
            (ccli__long_arg_len long_arg opt.arg_desc)
        else ccli__max_long_arg_len_from subcommands subcommand rest max

/-- `ccli__max_long_arg_len` (ccli.h:540-562) on a table of at least one descriptor: the
longest `long_arg`, with ` <arg_desc>` when there is one, among the relevant descriptors, and
at least 4, the length of `help`. The names of the commands play no part. -/
def ccli__max_long_arg_len (options : List ccli_option)
    (subcommands : Option (List ccli_command)) (subcommand : Option Str) : Option Nat :=
  ccli__max_long_arg_len_from subcommands subcommand options 4

/-- A string handed to a `%s` of `fprintf` is read up to its terminator: a `NULL` in its
place is a read through `NULL`. -/
def ccli__print_str (s : Option Str) : Except ccli_exit Unit :=
  match s with
  | none => .error .out_of_bounds_read
  | some _ => .ok ()

/-- A name of `len` characters is copied to the start of a buffer of `max_len + 1` bytes whose
last byte, `padded[max_len]`, was set to the terminator before the loop, and the buffer is
printed with `%s` (ccli.h:604-606, 667-670). A name longer than the buffer is written behind
it; a name as long as the buffer takes the place of the terminator, and `%s` reads on behind
the buffer. -/
def ccli__pad_and_print (max_len len : Nat) : Except ccli_exit Unit :=
  if len > max_len + 1 then .error .out_of_bounds_write
  else if len == max_len + 1 then .error .out_of_bounds_read
  else .ok ()

/-- The loop that prints the positional options on the usage line (ccli.h:591-596). -/
def ccli__help_usage (subcommands : Option (List ccli_command)) (subcommand : Option Str) :
    List ccli_option → Except ccli_exit Unit
  | [] => .ok ()
  | opt :: rest =>
    if opt.positional then
      match ccli__arg_relevant opt subcommands subcommand with
      | none => .error .out_of_bounds_read
      | some false => ccli__help_usage subcommands subcommand rest
      | some true =>
        match ccli__print_str opt.long_arg with
        | .error e => .error e
        | .ok _ => ccli__help_usage subcommands subcommand rest
    else ccli__help_usage subcommands subcommand rest

/-- The loop over the commands (ccli.h:602-607): every name is copied into the one buffer
`padded_cmd` of `max_len + 1` bytes, and printed with the description. -/
def ccli__help_commands (max_len : Nat) : List ccli_command → Except ccli_exit Unit
  | [] => .ok ()
  | cmd :: rest =>
    match ccli__pad_and_print max_len cmd.command.length with
    | .error e => .error e
    | .ok _ =>
      match ccli__print_str cmd.desc with
      | .error e => .error e
      | .ok _ => ccli__help_commands max_len rest

/-- The list of the commands (ccli.h:597-611), printed when there are commands and none is
active. For the table that holds the terminator alone `ccli__cmd_len` is `SIZE_MAX`, and the
first name handed to `strlen` is the `NULL` of the terminator. -/
def ccli__help_command_list (max_len : Nat) (subcommands : Option (List ccli_command))
    (subcommand : Option Str) : Except ccli_exit Unit :=
  if ccli__cmd_len subcommands > 0 && subcommand == none then
    match subcommands with
    | none => .ok ()
    | some [] => .error .out_of_bounds_read
    | some (cmd :: rest) => ccli__help_commands max_len (cmd :: rest)
  else .ok ()

/-- The line of one option (ccli.h:618-641). With a `long_arg`, the buffer has `max_len + 1`
bytes: the name is copied to its start, the terminator is set at `max_len`, and `<`, the
`arg_desc` and `>` are written from index `strlen(long_arg) + 1` on, the `>` at index
`strlen(long_arg) + strlen(arg_desc) + 2`, which has to lie before the terminator. Without a
`long_arg` the buffer of `max_len + 3` bytes is filled with blanks and has no terminator. -/
def ccli__help_option_line (max_len : Nat) (opt : ccli_option) : Except ccli_exit Unit :=
  match opt.long_arg with
  | none => .error .out_of_bounds_read
  | some long_arg =>
    if long_arg.length > max_len + 1 then .error .out_of_bounds_write
    else
      match opt.arg_desc with
      | none => ccli__print_str opt.desc
      | some arg_desc =>
        if long_arg.length + arg_desc.length + 2 > max_len then .error .out_of_bounds_write
        else if long_arg.length + arg_desc.length + 2 == max_len then .error .out_of_bounds_read
        else ccli__print_str opt.desc

/-- The loop over the options that are not positional (ccli.h:613-644). -/
def ccli__help_options (max_len : Nat) (subcommands : Option (List ccli_command))
    (subcommand : Option Str) : List ccli_option → Except ccli_exit Unit
  | [] => .ok ()
  | opt :: rest =>
    if opt.positional then ccli__help_options max_len subcommands subcommand rest
    else
      match ccli__arg_relevant opt subcommands subcommand with
      | none => .error .out_of_bounds_read
      | some false => ccli__help_options max_len subcommands subcommand rest
      | some true =>
        match ccli__help_option_line max_len opt with
        | .error e => .error e
        | .ok _ => ccli__help_options max_len subcommands subcommand rest

/-- The line of the option `help` (ccli.h:646-655): the four characters of `help_opt.long_arg`
are copied into a buffer of `max_len + 1` bytes, and the terminator is set afterwards. -/
def ccli__help_help_line (max_len : Nat) : Except ccli_exit Unit :=
  if 4 > max_len + 1 then .error .out_of_bounds_write else .ok ()

/-- The loop over the positional options (ccli.h:662-671), with the one buffer of
`max_len + 1` bytes whose terminator is set before the loop. -/
def ccli__help_positionals (max_len : Nat) (subcommands : Option (List ccli_command))
    (subcommand : Option Str) : List ccli_option → Except ccli_exit Unit
  | [] => .ok ()
  | opt :: rest =>
    if !opt.positional then ccli__help_positionals max_len subcommands subcommand rest
    else
      match ccli__arg_relevant opt subcommands subcommand with
      | none => .error .out_of_bounds_read
      | some false => ccli__help_positionals max_len subcommands subcommand rest
      | some true =>
        match opt.long_arg with
        | none => .error .out_of_bounds_read
        | some long_arg =>
          match ccli__pad_and_print max_len long_arg.length with
          | .error e => .error e
          | .ok _ =>
            match ccli__print_str opt.desc with
            | .error e => .error e
            | .ok _ => ccli__help_positionals max_len subcommands subcommand rest

/-- `ccli_help` (ccli.h:576-705) on a table of at least one descriptor: `.ok ()` when the
whole text is printed, else the first access outside an object. `max_len` is a `uint32_t`,
so the value of `ccli__max_long_arg_len` is reduced modulo `2 ^ 32`; all buffers but that of
the examples are sized from it. `argv[0]` and the active `subcommand` are printed as they
are. The block of the examples (ccli.h:675-702) sizes its buffer from the examples it prints
and has no outcome of its own: it is left out, and with it the parameters `argv` and
`examples`. -/
def ccli_help (subcommands : Option (List ccli_command)) (subcommand : Option Str)
    (options : List ccli_option) : Except ccli_exit Unit :=
  match ccli__max_long_arg_len options subcommands subcommand with
  | none => .error .out_of_bounds_read
  | some len =>
    match ccli__help_usage subcommands subcommand options with
    | .error e => .error e
    | .ok _ =>
      match ccli__help_command_list (len % 4294967296) subcommands subcommand with
      | .error e => .error e
      | .ok _ =>
        match ccli__help_options (len % 4294967296) subcommands subcommand options with
        | .error e => .error e
        | .ok _ =>
          match ccli__help_help_line (len % 4294967296) with
          | .error e => .error e
          | .ok _ =>
            match ccli__pos_args_len options subcommands subcommand with
            | none => .error .out_of_bounds_read
            | some pos_arg_count =>
              if pos_arg_count > 0 then
                ccli__help_positionals (len % 4294967296) subcommands subcommand options
              else .ok ()

/-- Loop of `ccli__find_help` (ccli.h:813-822) over `argv[1..]`: `true` when it reaches the
call of `ccli_help` of line 819, `false` when it returns. -/
def ccli__find_help_from : List Str → Bool
  | [] => false
  | arg :: rest =>
    if ccli__is_terminator arg then false
    else if ccli_streq (some arg) (some ['-', '-', 'h', 'e', 'l', 'p'])
        || ccli_streq (some arg) (some ['-', 'h']) then true
    else ccli__find_help_from rest

/-- The scan of `ccli__find_help` (ccli.h:812-823): whether a help request is found. The
call of `ccli_help` and the `exit(0)` that follow it (ccli.h:819-820) are placed in
`ccli_parse_opts`, where the tables are at hand. -/
def ccli__find_help (argv : List Str) : Bool :=
  ccli__find_help_from (argv.drop 1)

/-- The search of `ccli__parse_equals` (ccli.h:853-898); the second component is
`matched_arg`. There is no `break`: every descriptor in scope that the key matches takes the
value. `opt_str[1]` is the terminating NUL of a key of one character, and lies outside
`opt_str` when the key is empty. -/
def ccli__equals_scan (cfg : ccli_config) (cmd_idx : Nat) (opt_str param : Str) :
    List ccli_option → ccli_result (List ccli_option × Bool)
  | [] => .ok ([], false)
  | opt :: rest =>
    if !ccli__in_scope opt cmd_idx then
      ccli__prepend opt (ccli__equals_scan cfg cmd_idx opt_str param rest)
    else if opt_str.length == 0 then .error (.out_of_bounds_read, opt :: rest)
    else if ccli__key_matches opt_str opt then
      match ccli__coerce_equals cfg opt param with
      | .error e => .error (e, { opt with matched := true } :: rest)
      | .ok d =>
        match ccli__equals_scan cfg cmd_idx opt_str param rest with
        | .error (e, rest1) => .error (e, { opt with matched := true, data := d } :: rest1)
        | .ok (rest1, _) => .ok ({ opt with matched := true, data := d } :: rest1, true)
    else ccli__prepend opt (ccli__equals_scan cfg cmd_idx opt_str param rest)

/-- `ccli__parse_equals` (ccli.h:839-904). Without a `=` in `arg`, `pre_len` is
`(size_t)-1` and the `memcpy` of line 845 leaves `arg`. -/
def ccli__parse_equals (cfg : ccli_config) (options : List ccli_option) (arg : Str)
    (cmd_idx : Nat) : ccli_result (List ccli_option) :=
  if ccli_stridx (some arg) '=' < 0 then .error (.out_of_bounds_read, options)
  else
    match ccli__equals_scan cfg cmd_idx (arg.take (ccli_stridx (some arg) '=').toNat)
        (arg.drop ((ccli_stridx (some arg) '=').toNat + 1)) options with
    | .error e => .error e
    | .ok (options1, matched_arg) =>
      if !matched_arg then
        .error (.unknown_argument (arg.take (ccli_stridx (some arg) '=').toNat), options1)
      else .ok options1

/-- The loop `for (int argc_idx = ...; argc_idx < argc; argc_idx++)` of `ccli_parse_opts`
with what follows it (ccli.h:921-1061), over the tokens from `argc_idx` on. `skip` holds when
the search of the previous token advanced `argc_idx` over the token now at the head. The end
of the loop and the terminator both run `ccli__check_unmatched`. -/
def ccli__match_loop (cfg : ccli_config) (subcommands : Option (List ccli_command))
    (subcommand : Option Str) (cmd_idx : Nat) :
    Bool → List ccli_option → List Str → ccli_result (List ccli_option)
  | _, options, [] => ccli__check_unmatched cmd_idx options
  | true, options, _ :: rest => ccli__match_loop cfg subcommands subcommand cmd_idx false options rest
  | false, options, arg :: rest =>
    if ccli__is_terminator arg then
      match ccli__parse_remaining_positionals cfg options subcommands subcommand (arg :: rest) with
      | .error e => .error e
      | .ok options1 => ccli__check_unmatched cmd_idx options1
    else if ccli_strcontains (some arg) '=' then
      match ccli__parse_equals cfg options arg cmd_idx with
      | .error e => .error e
      | .ok options1 => ccli__match_loop cfg subcommands subcommand cmd_idx false options1 rest
    else
      match ccli__match_arg cfg cmd_idx arg rest.head? options with
      | .error e => .error e
      | .ok (options1, matched_arg, consumed) =>
        if !matched_arg then
          if ccli__is_positional arg then .error (.excess_positional arg, options1)
          else .error (.unknown_argument arg, options1)
        else ccli__match_loop cfg subcommands subcommand cmd_idx consumed options1 rest

/-- The expression `cmd_idx > 1 ? subcommands[cmd_idx - 2].command : NULL` (ccli.h:915), which
is also the value returned (ccli.h:940, 1062). -/
def ccli__subcommand (subcommands : Option (List ccli_command)) (cmd_idx : Nat) : Option Str :=
  if cmd_idx > 1 then (ccli__command_at subcommands (cmd_idx - 2)).join else none

/-- `ccli_parse_opts` (ccli.h:906-1063): the subcommand returned and the table after the
call, or the exit. When `ccli__find_help` finds a help request, `ccli_help` runs and the
process exits with status 0 (ccli.h:819-820): the exit `help_shown`, unless `ccli_help` leaves
an object first. -/
def ccli_parse_opts (cfg : ccli_config) (subcommands : Option (List ccli_command))
    (options : List ccli_option) (argv : List Str) : ccli_result (Option Str × List ccli_option) :=
  if argv.length == 0 then .error (.panic_argv_required, options)
  else
    match ccli__validate_options options with
    | .error e => .error (e, options)
    | .ok _ =>
      match ccli__run_command subcommands argv with
      | .error e => .error (e, options)
      | .ok cmd_idx =>
        if ccli__find_help argv then
          match ccli_help subcommands (ccli__subcommand subcommands cmd_idx) options with
          | .error e => .error (e, options)
          | .ok _ => .error (.help_shown, options)
        else
          match ccli__match_loop cfg subcommands (ccli__subcommand subcommands cmd_idx) cmd_idx
              false options (argv.drop (1 + (if cmd_idx > 1 then 1 else 0))) with
          | .error e => .error e
          | .ok options1 => .ok (ccli__subcommand subcommands cmd_idx, options1)

/-! ## Tables used in the examples -/

/-- The command table of `patc.c` (patc.c:30-33). -/
def patc_commands : List ccli_command :=
  [⟨['a', 'p', 'p', 'l', 'y'], some "Apply a .patc files".toList⟩,
   ⟨['r', 'e', 's', 't', 'o', 'r', 'e'], some "Restore backed up files if they exist".toList⟩,
   ⟨['c', 'h', 'e', 'c', 'k'], some "Only check the syntax of a patchfile".toList⟩]

/-- The command table of Scenario B: `apply` and `restore`, the first two commands of
`patc.c`. -/
def scenario_b_commands : List ccli_command :=
  [⟨['a', 'p', 'p', 'l', 'y'], some "Apply a .patc files".toList⟩,
   ⟨['r', 'e', 's', 't', 'o', 'r', 'e'], some "Restore backed up files if they exist".toList⟩]

/-- The first option of `patc.c` (patc.c:36): `ccli_option_string_var_p(patch_file, ...)`. -/
def patc_patch_file : ccli_option :=
  { short_arg := 'p', long_arg := some ['p', 'a', 't', 'c', 'h', '_', 'f', 'i', 'l', 'e'],
    kind := .ccli_string, required := true, positional := true, cmd_idx := 0, matched := false,
    data := .string [], desc := some "The patch to apply".toList,
    arg_desc := some ['p', 'a', 't', 'c', 'h', 'f', 'i', 'l', 'e'] }

/-- The second option of `patc.c` (patc.c:37): `ccli_option_bool_var(nowrite, ...)`, bound to
the command `apply`. -/
def patc_nowrite : ccli_option :=
  { short_arg := c_nul, long_arg := some ['n', 'o', 'w', 'r', 'i', 't', 'e'],
    kind := .ccli_boolean, required := false, positional := false, cmd_idx := 2,
    matched := false, data := .boolean false, desc := some "Only print subtitutions".toList,
    arg_desc := none }

/-- The option table of `patc.c` (patc.c:35-37). -/
def patc_options : List ccli_option := [patc_patch_file, patc_nowrite]

/-- The option `timeout` of the example in the header (ccli.h:27), made required and given
the scope `scope`: `ccli_option_int_var_p(timeout, "Set timeout", "sec", true, false, scope)`. -/
def example_timeout (scope : Nat) : ccli_option :=
  { short_arg := 't', long_arg := some ['t', 'i', 'm', 'e', 'o', 'u', 't'],
    kind := .ccli_number, required := true, positional := false, cmd_idx := scope,
    matched := false, data := .number 10, desc := some "Set timeout".toList,
    arg_desc := some ['s', 'e', 'c'] }

/-- The option `interface` of the example in the header (ccli.h:28):
`ccli_option_string_p("interface", iface, "Set interface", "name", false, false, scope_global())`. -/
def example_interface : ccli_option :=
  { short_arg := 'i', long_arg := some ['i', 'n', 't', 'e', 'r', 'f', 'a', 'c', 'e'],
    kind := .ccli_string, required := false, positional := false, cmd_idx := 0,
    matched := false, data := .string ['e', 't', 'h', '0'], desc := some "Set interface".toList,
    arg_desc := some ['n', 'a', 'm', 'e'] }

/-- A second option whose short name is `t`:
`ccli_option_string_p("target", target, "Set target", "name", false, false, scope_global())`,
the macro taking the short name from the first letter of the long name (ccli.h:132, 142). -/
def example_target : ccli_option :=
  { short_arg := 't', long_arg := some ['t', 'a', 'r', 'g', 'e', 't'],
    kind := .ccli_string, required := false, positional := false, cmd_idx := 0,
    matched := false, data := .string [], desc := some "Set target".toList,
    arg_desc := some ['n', 'a', 'm', 'e'] }

/-- An option whose short name is `h`:
`ccli_option_string_p("host", host, "Set host", "name", false, false, scope_global())`. -/
def example_host : ccli_option :=
  { short_arg := 'h', long_arg := some ['h', 'o', 's', 't'],
    kind := .ccli_string, required := false, positional := false, cmd_idx := 0,
    matched := false, data := .string [], desc := some "Set host".toList,
    arg_desc := some ['n', 'a', 'm', 'e'] }

/-- An unsigned option:
`ccli_option_uint_p("count", count, "Set count", "n", false, false, scope_global())`. -/
def example_count : ccli_option :=
  { short_arg := 'c', long_arg := some ['c', 'o', 'u', 'n', 't'],
    kind := .ccli_unumber, required := false, positional := false, cmd_idx := 0,
    matched := false, data := .unumber 0, desc := some "Set count".toList,
    arg_desc := some ['n'] }

/-- A positional option that is not required:
`ccli_option_string_p("output", output, "Output file", "file", false, true, scope_global())`. -/
def example_output : ccli_option :=
  { short_arg := 'o', long_arg := some ['o', 'u', 't', 'p', 'u', 't'],
    kind := .ccli_string, required := false, positional := true, cmd_idx := 0,
    matched := false, data := .string [], desc := some "Output file".toList,
    arg_desc := some ['f', 'i', 'l', 'e'] }

/-- A boolean option whose short name is `t`:
`ccli_option_bool_p("trace", trace, "Enable tracing", false, false, scope_global())`. -/
def example_trace : ccli_option :=
  { short_arg := 't', long_arg := some ['t', 'r', 'a', 'c', 'e'],
    kind := .ccli_boolean, required := false, positional := false, cmd_idx := 0,
    matched := false, data := .boolean false, desc := some "Enable tracing".toList,
    arg_desc := none }

/-- A string option without short name:
`ccli_option_string("input", input, "Input file", "file", false, false, scope_global())`. -/
def example_input : ccli_option :=
  { short_arg := c_nul, long_arg := some ['i', 'n', 'p', 'u', 't'],
    kind := .ccli_string, required := false, positional := false, cmd_idx := 0,
    matched := false, data := .string [], desc := some "Input file".toList,
    arg_desc := some ['f', 'i', 'l', 'e'] }

/-- A second string option without short name:
`ccli_option_string("label", label, "Set label", "text", false, false, scope_global())`. -/
def example_label : ccli_option :=
  { short_arg := c_nul, long_arg := some ['l', 'a', 'b', 'e', 'l'],
    kind := .ccli_string, required := false, positional := false, cmd_idx := 0,
    matched := false, data := .string [], desc := some "Set label".toList,
    arg_desc := some ['t', 'e', 'x', 't'] }

/-- A positional option bound to the first command:
`ccli_option_string_p("log", log, "Log file", "file", false, true, scope_subcmd(0))`. -/
def example_log : ccli_option :=
  { short_arg := 'l', long_arg := some ['l', 'o', 'g'],
    kind := .ccli_string, required := false, positional := true, cmd_idx := 2,
    matched := false, data := .string [], desc := some "Log file".toList,
    arg_desc := some ['f', 'i', 'l', 'e'] }

/-- A command table of `n` commands with distinct names: the `i`-th is named by `i + 1`
letters `a`. -/
def example_commands (n : Nat) : List ccli_command :=
  (List.range n).map (fun i => ⟨List.replicate (i + 1) 'a', none⟩)

/-! ## Assignment of positional tokens as the specification words it -/

/-- Declaration order assignment: the tokens are handed, left to right, to the positional
descriptors in scope, taken in table order, one token per descriptor; every other descriptor
is passed over, and so are the positional descriptors left when the tokens run out. A token
that cannot be coerced ends the pass with the exit of the coercion, its descriptor already
marked matched. -/
def ccli_assign_in_order (cfg : ccli_config) (cmd_idx : Nat) :
    List Str → List ccli_option → ccli_result (List ccli_option × Unit)
  | [], options => .ok (options, ())
  | _ :: _, [] => .ok ([], ())
  | t :: ts, opt :: rest =>
    if ccli__in_scope opt cmd_idx && opt.positional then
      match ccli__coerce_positional cfg opt t with
      | .error e => .error (e, { opt with matched := true } :: rest)
      | .ok d =>
        ccli__prepend { opt with matched := true, data := d }
          (ccli_assign_in_order cfg cmd_idx ts rest)
    else ccli__prepend opt (ccli_assign_in_order cfg cmd_idx (t :: ts) rest)

/-- What the search of `ccli__parse_equals` leaves of a descriptor it has passed: marked
matched and, when the value could be coerced, written, if the descriptor is in scope and the
key matches it; as it was otherwise. -/
def ccli_equals_written (cfg : ccli_config) (cmd_idx : Nat) (opt_str param : Str)
    (opt : ccli_option) : ccli_option :=
  if ccli__in_scope opt cmd_idx && ccli__key_matches opt_str opt then
    match ccli__coerce_equals cfg opt param with
    | .ok d => { opt with matched := true, data := d }
    | .error _ => { opt with matched := true }
  else opt

/-! ## Literals of a number -/

/-- The character of a digit: `0` to `9`, then `a` to `z`. -/
def c_digit_char (d : Nat) : Char :=
  Char.ofNat (if d < 10 then 48 + d else 87 + d)

/-- The digits of `n` in the base, most significant first, without leading zeros: the literal
of `n`; the literal of 0 is `0`. -/
def c_literal (base n : Nat) : Str :=
  if n = 0 then ['0'] else (Nat.digits base n).reverse.map c_digit_char

/-! ## The specification in its own words -/

/-- The defects of a descriptor that the specification names: the long identifier is absent,
or the kind is not boolean while the descriptor is not positional and has no placeholder
description. -/
def ccli_option_invalid (opt : ccli_option) : Bool :=
  opt.long_arg == none || (opt.kind != .ccli_boolean && !opt.positional && opt.arg_desc == none)

/-- A help request as the specification words it: some token `argv[i]` with `i ≥ 1` is
`--help` or `-h`, and no token `argv[j]` with `1 ≤ j < i` is a terminator. -/
def ccli_help_requested (argv : List Str) : Prop :=
  ∃ i, i < argv.length ∧ (1 ≤ i
    ∧ (argv.getD i [] = ['-', '-', 'h', 'e', 'l', 'p'] ∨ argv.getD i [] = ['-', 'h'])
    ∧ ∀ j, j < i → 1 ≤ j → argv.getD j [] ≠ ['-'] ∧ argv.getD j [] ≠ ['-', '-'])

/-- The help request of the specification can be decided. -/
instance instDecidableHelpRequested (argv : List Str) : Decidable (ccli_help_requested argv) := by
  unfold ccli_help_requested
  infer_instance

/-- The table that the outcome of a search carries, returned or at the exit. -/
def ccli__table_of {β : Type} : ccli_result (List ccli_option × β) → List ccli_option
  | .ok (t, _) => t
  | .error (_, t) => t

/-- The table that the outcome of a call carries, returned or at the exit. -/
def ccli__table_after : ccli_result (List ccli_option) → List ccli_option
  | .ok t => t
  | .error (_, t) => t

/-- Two tables of the same length that agree, position by position, on every descriptor out
of the scope of `cmd_idx`. -/
def ccli_same_outside (cmd_idx : Nat) (a b : List ccli_option) : Prop :=
  List.Forall₂ (fun x y => ccli__in_scope x cmd_idx = false → y = x) a b

/-! ## The shapes of a number, and the sizes of the buffers -/

/-- A string that is not empty and holds digits of the base only. -/
def c_digits_only (base : Nat) (s : Str) : Bool :=
  !s.isEmpty && s.all (c_is_digit base)

/-- An optionally signed string of decimal digits. -/
def ccli_decimal_shape (s : Str) : Bool :=
  match s with
  | '-' :: r => c_digits_only 10 r
  | '+' :: r => c_digits_only 10 r
  | _ => c_digits_only 10 s

/-- The characters `0x` followed by one or more hexadecimal digits. -/
def ccli_hex_shape (s : Str) : Bool :=
  match s with
  | '0' :: 'x' :: r => c_digits_only 16 r
  | _ => false

/-- The characters `0b` followed by one or more binary digits. -/
def ccli_bin_shape (s : Str) : Bool :=
  match s with
  | '0' :: 'b' :: r => c_digits_only 2 r
  | _ => false

/-- Size of the buffer `patch_file` of the client (patc.c:27), which is also the size of the
buffer `iface` of the usage example (ccli.h:16). -/
def patc_patch_file_size : Nat := CCLI_MAX_STR_LEN

/-- Whether `strcpy` of `s`, which writes the characters of `s` and the terminating NUL,
stays inside a destination of `size` bytes. -/
def c_strcpy_fits (size : Nat) (s : Str) : Bool :=
  decide (s.length + 1 ≤ size)

/-- The loop of `ccli__opt_len` and of `ccli__cmd_len` (ccli.h:325-328, 337-340) over the
array `entries`, terminator included, each entry given by whether it is a terminator (null
kind, or `NULL` name). `cur` is the copy `opt` (`cmd`) that the loop tests, `idx` the index
it reads next. The value returned is `idx - 1` in `size_t`. `none` when an entry is read
outside the array, or when the fuel runs out. -/
def ccli__len_loop (entries : List Bool) : Nat → Bool → Nat → Option Nat
  | 0, _, _ => none
  | fuel + 1, cur, idx =>
    if cur then some ((idx + 18446744073709551616 - 1) % 18446744073709551616)
    else
      match entries.get? idx with
      | none => none
      | some e => ccli__len_loop entries fuel e (idx + 1)

/-- `ccli__opt_len` and `ccli__cmd_len` on an array that is not `NULL` (ccli.h:323-328,
335-340): `idx = 0`, the first entry is copied, then the loop. -/
def ccli__len_of_array (entries : List Bool) : Option Nat :=
  match entries.get? 0 with
  | none => none
  | some e => ccli__len_loop entries (entries.length + 1) e 0

/-! ## The client `src/patc.c`

The buffers of the client are lists of characters, one for each byte; a `Nob_String_View` is
an offset into the buffer of the patch file and a count. The functions and macros of `nob.h`
that the client calls are not part of it: `nob_da_append` and `nob_sb_append_buf` append to a
list, and `nob_sv_trim` and `nob_read_entire_file` are parameters. -/

/-- How a function of the client ends when it does not return. -/
inductive patc_fault where
  /-- `parser_report_error` (patc.c:12-16): a message with the offset of the cursor, `exit(1)` -/
  | parser_error (offset : Nat)
  /-- a read of a byte that is not a byte of the buffer read from -/
  | read_outside_input
  /-- `strcmp` on a `NULL` pointer (patc.c:307) -/
  | null_pointer_read
  /-- the bound on the iterations of a loop of the model was reached -/
  | fuel_exhausted
deriving DecidableEq, Repr

/-- Outcome of a function of the client. -/
abbrev patc_result (α : Type) := Except patc_fault α

/-- The record `Nob_String_View` of `nob.h` as the client uses it: `data` is an offset into
the buffer of the patch file, `count` a `size_t`. -/
structure Nob_String_View where
  data : Nat
  count : Nat
deriving DecidableEq, Repr

/-- The record `patc` (patc.c:45-50). -/
structure patc where
  filename : Nob_String_View
  to_match : Nob_String_View
  to_replace : Nob_String_View
deriving DecidableEq, Repr

/-- The record `parser` (patc.c:58-64): `input` with `len` its length, and `cursor` as the
offset `cursor_offset(p)`. -/
structure parser where
  input : Str
  cursor : Nat
deriving DecidableEq, Repr

/-- `parser_expect_advance` (patc.c:66-75): `*p->cursor` is read without a test of the
offset. -/
def parser_expect_advance (p : parser) (c : Char) : patc_result parser :=
  match p.input.get? p.cursor with
  | none => .error .read_outside_input
  | some x => if x != c then .error (.parser_error p.cursor) else .ok { p with cursor := p.cursor + 1 }

/-- `parser_expect_eof_or_advance` (patc.c:77-82). -/
def parser_expect_eof_or_advance (p : parser) (c : Char) : patc_result parser :=
  if p.cursor == p.input.length then .ok p else parser_expect_advance p c

/-- `parser_skip_white` (patc.c:84-88). -/
def parser_skip_white (p : parser) : parser :=
  { p with cursor := p.cursor + ((p.input.drop p.cursor).takeWhile c_isspace).length }

/-- `parser_parse_until` (patc.c:90-101): the span up to the first `c`, the cursor left after
that `c`. -/
def parser_parse_until (p : parser) (c : Char) : patc_result (Nob_String_View × parser) :=
  if p.cursor + ((p.input.drop p.cursor).takeWhile (fun x => x != c)).length < p.input.length then
    .ok (⟨p.cursor, ((p.input.drop p.cursor).takeWhile (fun x => x != c)).length⟩,
      { p with cursor := p.cursor + ((p.input.drop p.cursor).takeWhile (fun x => x != c)).length + 1 })
  else .error (.parser_error (max p.cursor p.input.length))

/-- `parser_expect_eof` (patc.c:103-107). -/
def parser_expect_eof (p : parser) : patc_result Unit :=
  if p.cursor != p.input.length then .error (.parser_error p.cursor) else .ok ()

/-- Where the loop of `parse_block` stands: inside `parser_skip_white` after a newline, at a
character with `is_line_start` set, or at a character with `is_line_start` clear. -/
inductive parse_block_state where
  | skipping_white
  | line_start
  | inside_line
deriving DecidableEq, Repr

/-- The end of `parse_block` at a line that starts with the delimiter twice (patc.c:137-143):
`block.count` is `p->cursor - block.data` when no newline was met, `last_newline - block.data`
otherwise, converted to `size_t`; the cursor moves on by 3. -/
def parse_block_end (start ofs : Nat) (last_newline : Option Int) : Nob_String_View × Nat :=
  match last_newline with
  | none => (⟨start, ofs - start⟩, ofs + 3)
  | some l => (⟨start, c_to_uint64 (l - (start : Int))⟩, ofs + 3)

/-- The loop of `parse_block` (patc.c:125-151) over the input from the cursor on; `ofs` is
the offset of the cursor, `start` the offset `block.data`. At a newline `last_newline`
becomes `p->cursor - 1`, the address of the character before the newline. `memcmp` reads two
bytes. Returns the block and the offset of the cursor. -/
def parse_block_scan (delim : Char) (start : Nat) :
    List Char → Nat → parse_block_state → Option Int → patc_result (Nob_String_View × Nat)
  | [], ofs, _, _ => .error (.parser_error ofs)
  | c :: cs, ofs, .skipping_white, ln =>
    if c_isspace c then parse_block_scan delim start cs (ofs + 1) .skipping_white ln
    else
      match cs with
      | [] => .error .read_outside_input
      | d :: _ =>
        if c == delim && d == delim then .ok (parse_block_end start ofs ln)
        else parse_block_scan delim start cs (ofs + 1) .inside_line ln
  | c :: cs, ofs, .line_start, ln =>
    if c == '\n' then
      parse_block_scan delim start cs (ofs + 1) .skipping_white (some ((ofs : Int) - 1))
    else
      match cs with
      | [] => .error .read_outside_input
      | d :: _ =>
        if c == delim && d == delim then .ok (parse_block_end start ofs ln)
        else parse_block_scan delim start cs (ofs + 1) .inside_line ln
  | c :: cs, ofs, .inside_line, ln =>
    if c == '\n' then
      parse_block_scan delim start cs (ofs + 1) .skipping_white (some ((ofs : Int) - 1))
    else parse_block_scan delim start cs (ofs + 1) .inside_line ln

/-- `parse_block` (patc.c:116-154). -/
def parse_block (p : parser) (delim : Char) : patc_result (Nob_String_View × parser) :=
  match parse_block_scan delim p.cursor (p.input.drop p.cursor) p.cursor .line_start none with
  | .error f => .error f
  | .ok (block, ofs) => .ok (block, { p with cursor := ofs })

/-- `parse_file_block` (patc.c:156-179); `nob_sv_trim` is the function of `nob.h` of that
name, given the buffer and a view of it. Returns the patch appended to `ps`. -/
def parse_file_block (nob_sv_trim : Str → Nob_String_View → Nob_String_View) (p : parser) :
    patc_result (patc × parser) := do
  let p1 ← parser_expect_advance p '@'
  let (name, p2) ← parser_parse_until p1 '\n'
  let p3 ← parser_expect_advance p2 '?'
  let p4 ← parser_expect_advance p3 '?'
  let p5 ← parser_expect_advance p4 '\n'
  let (to_match, p6) ← parse_block p5 '?'
  let p7 := parser_skip_white p6
  let p8 ← parser_expect_advance p7 '!'
  let p9 ← parser_expect_advance p8 '!'
  let p10 ← parser_expect_advance p9 '\n'
  let (to_replace, p11) ← parse_block p10 '!'
  let p12 ← parser_expect_eof_or_advance p11 '\n'
  let p13 := parser_skip_white p12
  pure (⟨nob_sv_trim p.input name, to_match, to_replace⟩, p13)

/-- The loop of `parse_file` (patc.c:182-185), with a bound on its iterations. -/
def parse_file_loop (nob_sv_trim : Str → Nob_String_View → Nob_String_View) :
    Nat → parser → List patc → patc_result (List patc)
  | 0, _, _ => .error .fuel_exhausted
  | fuel + 1, p, ps =>
    if p.cursor < p.input.length then
      match parse_file_block nob_sv_trim p with
      | .error f => .error f
      | .ok (patch, p1) => parse_file_loop nob_sv_trim fuel p1 (ps ++ [patch])
    else
      match parser_expect_eof p with
      | .error f => .error f
      | .ok _ => .ok ps

/-- `parse_file` (patc.c:181-186) on an empty list of patches: every block moves the cursor
on, so the loop runs at most once for each byte of the input. -/
def parse_file (nob_sv_trim : Str → Nob_String_View → Nob_String_View) (p : parser) :
    patc_result (List patc) :=
  parse_file_loop nob_sv_trim (p.input.length + 1) p []

/-- `match_content` (patc.c:188-198) on the input from `start` on; `none` when `*start` is
read after the last byte of the input. -/
def match_content : Str → Str → Option Bool
  | _, [] => some true
  | [], _ :: _ => none
  | s :: ss, t :: ts => if s != t then some false else match_content ss ts

/-- The loop of `apply_patc` (patc.c:208-217) over the input from index `i` on. `skip` is
`none` at the top of the loop; after a match it counts the bytes of the match that `i +=
patch.to_match.count` still has to pass, and at `some 0` the byte `in->items[i]` is appended
without any test, which is a read after the last byte when the match ended the input. -/
def apply_patc_scan (to_match to_replace : Str) : Str → Option Nat → Str → patc_result Str
  | [], none, out => .ok out
  | [], some _, _ => .error .read_outside_input
  | c :: cs, none, out =>
    if some c != to_match.head? then apply_patc_scan to_match to_replace cs none (out ++ [c])
    else
      match match_content (c :: cs) to_match with
      | none => .error .read_outside_input
      | some false => apply_patc_scan to_match to_replace cs none (out ++ [c])
      | some true =>
        apply_patc_scan to_match to_replace cs (some (to_match.length - 1)) (out ++ to_replace)
  | _ :: cs, some (k + 1), out => apply_patc_scan to_match to_replace cs (some k) out
  | c :: cs, some 0, out => apply_patc_scan to_match to_replace cs none (out ++ [c])

/-- `apply_patc` (patc.c:200-221) on the bytes of `patch.to_match` and `patch.to_replace`,
the input `in` and the builder `out`: what `out` holds afterwards. -/
def apply_patc (to_match to_replace input out : Str) : patc_result Str :=
  if to_match.length == 0 then .ok out
  else if to_match.length > input.length then .ok out
  else apply_patc_scan to_match to_replace input none out

/-- The buffers of `run_patch` (patc.c:228-258) over patches that name the same file, each
given by the bytes of `to_match` and `to_replace`: `front` is the content read from the file
for the first patch and a copy of `back` for every further one (patc.c:231-234), `back` is
emptied and filled by `apply_patc` (patc.c:255-257). Returns `back` after the last patch. -/
def run_patch_same_file : List (Str × Str) → Str → patc_result Str
  | [], _ => .ok []
  | [p], front => apply_patc p.1 p.2 front []
  | p :: q :: rest, front =>
    match apply_patc p.1 p.2 front [] with
    | .error f => .error f
    | .ok back => run_patch_same_file (q :: rest) back

/-- What `main` did with the patches before it returned. -/
inductive patc_action where
  | nothing
  | run_patch (ps : List patc)
  | run_restore (ps : List patc)
deriving DecidableEq, Repr

/-- How `main` ends. -/
inductive patc_outcome where
  /-- `ccli_parse_opts` ended the process -/
  | ccli_exited (e : ccli_exit)
  /-- `main` returned `status` -/
  | returned (status : Nat) (action : patc_action)
  /-- a fault, or `exit(1)` of the parser of the patch file -/
  | faulted (f : patc_fault)
deriving DecidableEq, Repr

/-- The contents of the buffer `patch_file` after `ccli_parse_opts`: the storage of the first
descriptor of `options` (patc.c:36). -/
def patc_patch_file_value (options : List ccli_option) : Str :=
  match options.head? with
  | some o =>
    match o.data with
    | .string s => s
    | _ => []
  | none => []

/-- `main` (patc.c:291-316). `nob_read_entire_file` gives the bytes of a file, or `none` when
it cannot be read. `run_patch` and `run_restore` are recorded, not run. -/
def patc_main (nob_read_entire_file : Str → Option Str)
    (nob_sv_trim : Str → Nob_String_View → Nob_String_View) (argv : List Str) : patc_outcome :=
  match ccli_parse_opts ccli_default_config (some patc_commands) patc_options argv with
  | .error (e, _) => .ccli_exited e
  | .ok (cmd, options1) =>
    match nob_read_entire_file (patc_patch_file_value options1) with
    | none => .returned 1 .nothing
    | some content =>
      match parse_file nob_sv_trim ⟨content, 0⟩ with
      | .error f => .faulted f
      | .ok ps =>
        match cmd with
        | none => .faulted .null_pointer_read
        | some c =>
          if c == ['a', 'p', 'p', 'l', 'y'] then .returned 0 (.run_patch ps)
          else if c == ['r', 'e', 's', 't', 'o', 'r', 'e'] then .returned 0 (.run_restore ps)
          else .returned 0 .nothing

/-! # Theorems -/

/-! ## Command resolution -/

theorem ccli_streq_some (a b : Str) : ccli_streq (some a) (some b) = decide (a = b) := by
  by_cases h : a = b <;> simp [ccli_streq, h]

theorem ccli__run_command_from_first (arg1 : Str) :
    ∀ (l : List ccli_command) (k i : Nat),
      (l.get? i).map (fun c => c.command) = some arg1 →
      (∀ j, j < i → (l.get? j).map (fun c => c.command) ≠ some arg1) →
      ccli__run_command_from arg1 l k = k + i + 2 := by
  intro l
  induction l with
  | nil => intro k i h _; simp at h
  | cons c cs ih =>
    intro k i h hlt
    cases i with
    | zero =>
      simp at h
      simp [ccli__run_command_from, ccli_streq_some, h]
    | succ n =>
      have h0 := hlt 0 (Nat.succ_pos n)
      simp at h0
      simp only [List.get?_cons_succ] at h
      have hlt1 : ∀ j, j < n → (cs.get? j).map (fun c => c.command) ≠ some arg1 := by
        intro j hj
        have := hlt (j + 1) (Nat.succ_lt_succ hj)
        simpa using this
      simp only [ccli__run_command_from, ccli_streq_some, h0, decide_False, Bool.false_eq_true,
        if_false]
      rw [ih (k + 1) n h hlt1]
      omega

theorem ccli__run_command_from_absent (arg1 : Str) :
    ∀ (l : List ccli_command) (k : Nat), (∀ c ∈ l, c.command ≠ arg1) →
      ccli__run_command_from arg1 l k = 1 := by
  intro l
  induction l with
  | nil => intro k _; rfl
  | cons c cs ih =>
    intro k h
    have h0 : c.command ≠ arg1 := h c (List.mem_cons_self _ _)
    simp only [ccli__run_command_from, ccli_streq_some, h0, decide_False, Bool.false_eq_true,
      if_false]
    exact ih (k + 1) (fun c1 hc1 => h c1 (List.mem_cons_of_mem _ hc1))

theorem ccli__subcommand_at (l : List ccli_command) (i : Nat) (arg1 : Str)
    (h : (l.get? i).map (fun c => c.command) = some arg1) :
    ccli__subcommand (some l) (i + 2) = some arg1 := by
  have hi : i < l.length := by
    by_contra hc
    rw [List.get?_eq_none.mpr (Nat.le_of_not_lt hc)] at h
    simp at h
  have h2 : l[i].command = arg1 := by
    simpa [List.get?_eq_getElem?, List.getElem?_eq_getElem hi] using h
  simp [ccli__subcommand, ccli__command_at, hi, h2]

set_option maxRecDepth 1000000 in
/-- C1: with 255 commands and the last of them active (`cmd_idx` 256), a required option
bound to that command is in scope for the match loop and is never matched, yet
`ccli_parse_opts` returns normally: `ccli__check_unmatched` receives `cmd_idx` as a `uint8_t`,
that is 0, and passes the option over. -/
theorem ccli__check_unmatched_misses_required :
    ccli__run_command (some (example_commands 255)) [['p'], List.replicate 255 'a'] = .ok 256
    ∧ ccli__in_scope (example_timeout 256) 256 = true
    ∧ (example_timeout 256).required = true
    ∧ (example_timeout 256).matched = false
    ∧ ccli_parse_opts ccli_default_config (some (example_commands 255)) [example_timeout 256]
        [['p'], List.replicate 255 'a']
      = .ok (some (List.replicate 255 'a'), [example_timeout 256]) := by
  decide

set_option maxRecDepth 1000000 in
/-- C7: with 257 commands and the last of them active (`cmd_idx` 258), a required option bound
to command 0 (scope 2) is rejected by `ccli__arg_relevant` and by the scope test of the match
loop and of `ccli__parse_equals`, but accepted by the scope test of `ccli__check_unmatched`,
whose `uint8_t` parameter turns 258 into 2: the call ends with the missing required argument
exit for an option that is not reachable. -/
theorem ccli__check_unmatched_scope_differs :
    ccli__run_command (some (example_commands 257)) [['p'], List.replicate 257 'a'] = .ok 258
    ∧ ccli__arg_relevant (example_timeout 2) (some (example_commands 257))
        (some (List.replicate 257 'a')) = some false
    ∧ ccli__in_scope (example_timeout 2) 258 = false
    ∧ ccli__match_arg ccli_default_config 258 ['-', 't'] (some ['5']) [example_timeout 2]
        = .ok ([example_timeout 2], false, false)
    ∧ ccli__parse_equals ccli_default_config [example_timeout 2] ['-', 't', '=', '5'] 258
        = .error (.unknown_argument ['-', 't'], [example_timeout 2])
    ∧ ccli__check_unmatched 258 [example_timeout 2]
        = .error (.missing_required (some ['t', 'i', 'm', 'e', 'o', 'u', 't']), [example_timeout 2])
    ∧ ccli_parse_opts ccli_default_config (some (example_commands 257)) [example_timeout 2]
        [['p'], List.replicate 257 'a']
      = .error (.missing_required (some ['t', 'i', 'm', 'e', 'o', 'u', 't']), [example_timeout 2]) := by
  decide

set_option maxRecDepth 1000000 in
/-- C10: a value of 1025 characters given to the string option `interface` in the equals form
is copied whole and the call returns normally, while the same value after the long name ends
with the string too long exit: `ccli__parse_equals` has no length test before its `strcpy`. -/
theorem ccli__parse_equals_copies_long_string :
    (List.replicate 1025 'a').length > CCLI_MAX_STR_LEN
    ∧ ccli_parse_opts ccli_default_config none [example_interface]
        [['p'], ['-', '-', 'i', 'n', 't', 'e', 'r', 'f', 'a', 'c', 'e', '='] ++ List.replicate 1025 'a']
      = .ok (none, [{ example_interface with
                        matched := true, data := .string (List.replicate 1025 'a') }])
    ∧ ccli_parse_opts ccli_default_config none [example_interface]
        [['p'], ['-', '-', 'i', 'n', 't', 'e', 'r', 'f', 'a', 'c', 'e'], List.replicate 1025 'a']
      = .error (.string_too_long (some ['i', 'n', 't', 'e', 'r', 'f', 'a', 'c', 'e']),
          [{ example_interface with matched := true }]) := by
  decide

/-! ## Token shapes -/

theorem ccli_stridx_from_nonneg (c : Char) :
    ∀ (l : Str) (i : Nat), (0 ≤ ccli_stridx_from c l i ↔ c ∈ l) := by
  intro l
  induction l with
  | nil => intro i; simp [ccli_stridx_from]
  | cons x xs ih =>
    intro i
    by_cases h : x = c
    · simp [ccli_stridx_from, h]
    · have h2 : ¬ c = x := fun e => h e.symm
      simp [ccli_stridx_from, h, h2, ih (i + 1)]

theorem ccli_strcontains_iff (s : Str) (c : Char) :
    ccli_strcontains (some s) c = true ↔ c ∈ s := by
  simp [ccli_strcontains, ccli_stridx, ccli_stridx_from_nonneg]

theorem ccli_strcontains_false (s : Str) (c : Char) (h : c ∉ s) :
    ccli_strcontains (some s) c = false := by
  cases hc : ccli_strcontains (some s) c with
  | false => rfl
  | true => exact absurd ((ccli_strcontains_iff s c).mp hc) h

theorem ccli_stridx_from_split (c : Char) :
    ∀ (key v : Str) (i : Nat), c ∉ key →
      ccli_stridx_from c (key ++ c :: v) i = ((i + key.length : Nat) : Int) := by
  intro key
  induction key with
  | nil => intro v i _; simp [ccli_stridx_from]
  | cons x xs ih =>
    intro v i h
    have hx : ¬ x = c := fun e => h (by simp [e])
    have hxs : c ∉ xs := fun e => h (List.mem_cons_of_mem _ e)
    have e := ih v (i + 1) hxs
    simp only [List.cons_append, ccli_stridx_from, beq_iff_eq, hx, if_false, List.length_cons]
    rw [List.append_eq, e]
    congr 1
    omega

theorem ccli_long_token_shape (L : Str) (h : L ≠ []) :
    ccli__is_terminator ('-' :: '-' :: L) = false
    ∧ ccli__is_long_opt ('-' :: '-' :: L) = true
    ∧ ccli__short_opt_kind ('-' :: '-' :: L) = .ccli_short_multiple
    ∧ ccli__is_positional ('-' :: '-' :: L) = false := by
  cases L with
  | nil => exact absurd rfl h
  | cons a as =>
    simp [ccli__is_terminator, ccli_streq, ccli__is_long_opt, ccli__short_opt_kind,
      ccli__is_positional]

theorem ccli_short_token_shape (s : Char) (h : s ≠ '-') :
    ccli__is_terminator ['-', s] = false
    ∧ ccli__is_long_opt ['-', s] = false
    ∧ ccli__short_opt_kind ['-', s] = .ccli_short_single
    ∧ ccli__is_positional ['-', s] = false := by
  simp [ccli__is_terminator, ccli_streq, ccli__is_long_opt, ccli__short_opt_kind,
    ccli__is_positional, h]

theorem ccli__long_opt_eq_long (L : Str) (long_opt : Option Str) :
    ccli__long_opt_eq ('-' :: '-' :: L) long_opt = decide (long_opt = some L) := by
  cases long_opt with
  | none => simp [ccli__long_opt_eq, ccli_streq]
  | some a =>
    by_cases h : L = a
    · simp [ccli__long_opt_eq, ccli_streq, h]
    · have h2 : ¬ a = L := fun e => h e.symm
      simp [ccli__long_opt_eq, ccli_streq, h, h2]

theorem ccli__in_scope_iff (opt : ccli_option) (cmd_idx : Nat) :
    ccli__in_scope opt cmd_idx = true ↔ opt.cmd_idx = 0 ∨ opt.cmd_idx = cmd_idx := by
  simp [ccli__in_scope]

/-! ## Scenario B -/

theorem ccli__run_command_nodup (cmds : List ccli_command) (i : Nat) (name : Str) (rest : List Str)
    (prog : Str) (hnodup : (cmds.map (fun c => c.command)).Nodup)
    (hi : (cmds.get? i).map (fun c => c.command) = some name) :
    ccli__run_command (some cmds) (prog :: name :: rest) = .ok (i + 2) := by
  have hlt : ∀ j, j < i → (cmds.get? j).map (fun c => c.command) ≠ some name := by
    intro j hj hc
    have hil : i < (cmds.map (fun c => c.command)).length := by
      by_contra hn
      simp only [List.length_map, not_lt] at hn
      rw [List.get?_eq_none.mpr hn] at hi
      simp at hi
    have := (List.nodup_iff_get?_ne_get?.mp hnodup) j i hj hil
    apply this
    rw [List.get?_eq_getElem?, List.get?_eq_getElem?, List.getElem?_map, List.getElem?_map,
      ← List.get?_eq_getElem?, ← List.get?_eq_getElem?, hc, hi]
  cases cmds with
  | nil => simp at hi
  | cons c cs =>
    simp only [ccli__run_command]
    rw [ccli__run_command_from_first name (c :: cs) 0 i hi hlt]
    simp

theorem ccli__find_help_from_long (L : Str) (hL : L ≠ ['h', 'e', 'l', 'p']) :
    ccli__find_help_from ['-' :: '-' :: L] = false := by
  simp [ccli__find_help_from, ccli_streq, hL]

theorem ccli_mem_of_get? (cmds : List ccli_command) (i : Nat) (name : Str)
    (hi : (cmds.get? i).map (fun c => c.command) = some name) :
    ∃ c ∈ cmds, c.command = name := by
  cases h : cmds.get? i with
  | none => rw [h] at hi; exact absurd hi (by simp)
  | some c =>
    rw [h] at hi
    exact ⟨c, List.get?_mem h, by simpa using hi⟩

/-- C6: command names are distinct and none of them is `--help` or `-h`; the only option is a
boolean (positional or not) that has the long identifier `L` (not empty, without `=`, not
`help`) and is bound to command `c`. Then `[prog, name(c), --L]` returns `name(c)` with the
storage set to `true`, and `[prog, name(d), --L]` for another command `d` ends with the
unknown argument exit, the descriptor as it was. -/
theorem ccli_parse_opts_bound_flag (cfg : ccli_config) (cmds : List ccli_command)
    (opt : ccli_option) (prog L : Str) (c : Nat)
    (hnodup : (cmds.map (fun x => x.command)).Nodup)
    (hnohelp : ∀ x ∈ cmds, x.command ≠ ['-', '-', 'h', 'e', 'l', 'p'] ∧ x.command ≠ ['-', 'h'])
    (hkind : opt.kind = .ccli_boolean)
    (hlong : opt.long_arg = some L) (hL : L ≠ []) (hLeq : '=' ∉ L)
    (hLhelp : L ≠ ['h', 'e', 'l', 'p']) (hscope : opt.cmd_idx = c + 2) :
    (∀ name, (cmds.get? c).map (fun x => x.command) = some name →
      ccli_parse_opts cfg (some cmds) [opt] [prog, name, '-' :: '-' :: L]
        = .ok (some name, [{ opt with matched := true, data := .boolean true }]))
    ∧ (∀ d name, d ≠ c → (cmds.get? d).map (fun x => x.command) = some name →
      ccli_parse_opts cfg (some cmds) [opt] [prog, name, '-' :: '-' :: L]
        = .error (.unknown_argument ('-' :: '-' :: L), [opt])) := by
  obtain ⟨h1, h2, h3, h4⟩ := ccli_long_token_shape L hL
  have hcont : ccli_strcontains (some ('-' :: '-' :: L)) '=' = false :=
    ccli_strcontains_false _ _ (by simp [hLeq])
  have hvalid : ccli__validate_options [opt] = .ok () := by
    simp [ccli__validate_options, ccli__validate_from, hlong, hkind]
  have hhelp : ∀ i name, (cmds.get? i).map (fun x => x.command) = some name →
      ccli__find_help [prog, name, '-' :: '-' :: L] = false := by
    intro i name hi
    obtain ⟨x, hx, hxn⟩ := ccli_mem_of_get? cmds i name hi
    have hn := hnohelp x hx
    rw [hxn] at hn
    have hf := ccli__find_help_from_long L hLhelp
    simp only [ccli__find_help, List.drop_succ_cons, List.drop_zero]
    rw [ccli__find_help_from]
    by_cases ht : ccli__is_terminator name = true
    · simp [ht]
    · simp [ht, ccli_streq_some, hn.1, hn.2, hf]
  constructor
  · intro name hc
    have hrun := ccli__run_command_nodup cmds c name ['-' :: '-' :: L] prog hnodup hc
    have hsub := ccli__subcommand_at cmds c name hc
    simp [ccli_parse_opts, hvalid, hrun, hhelp c name hc, hsub, ccli__match_loop, h1, hcont,
      ccli__match_arg, ccli__name_matches, ccli__in_scope, hscope, h4, h2,
      ccli__long_opt_eq_long, hlong,
      ccli__coerce_named, hkind, ccli__check_unmatched, ccli__first_unmatched]
  · intro d name hd hdn
    have hrun := ccli__run_command_nodup cmds d name ['-' :: '-' :: L] prog hnodup hdn
    have hsub := ccli__subcommand_at cmds d name hdn
    have hne : ¬ c = d := fun e => hd e.symm
    simp [ccli_parse_opts, hvalid, hrun, hhelp d name hdn, hsub, ccli__match_loop, h1, hcont,
      ccli__match_arg, ccli__in_scope, hscope, h4, hne, ccli__prepend]

/-- Instance of C6 on the tables of Scenario B: `apply --nowrite`. -/
theorem ccli_parse_opts_bound_flag_witness :
    ccli_parse_opts ccli_default_config (some patc_commands) [patc_nowrite]
        [['p'], ['a', 'p', 'p', 'l', 'y'], ['-', '-', 'n', 'o', 'w', 'r', 'i', 't', 'e']]
      = .ok (some ['a', 'p', 'p', 'l', 'y'],
          [{ patc_nowrite with matched := true, data := .boolean true }]) :=
  (ccli_parse_opts_bound_flag ccli_default_config patc_commands patc_nowrite ['p']
    ['n', 'o', 'w', 'r', 'i', 't', 'e'] 0 (by decide) (by decide) rfl rfl (by decide)
    (by decide) (by decide) rfl).1 ['a', 'p', 'p', 'l', 'y'] rfl

/-- C6, as stated, fails for a command named `-h`: the scan for a help request starts at
`argv[1]`, so `[prog, -h, --nowrite]` shows the help and exits instead of returning `-h`. -/
theorem ccli_parse_opts_bound_flag_help_command :
    ccli_parse_opts ccli_default_config (some [⟨['-', 'h'], none⟩]) [patc_nowrite]
        [['p'], ['-', 'h'], ['-', '-', 'n', 'o', 'w', 'r', 'i', 't', 'e']]
      = .error (.help_shown, [patc_nowrite]) := by
  decide

/-! ## One step of the search for a token -/

theorem ccli__match_arg_out_of_scope (cfg : ccli_config) (k : Nat) (arg : Str)
    (next : Option Str) (opt : ccli_option) (rest : List ccli_option)
    (h : ccli__in_scope opt k = false) :
    ccli__match_arg cfg k arg next (opt :: rest) =
      ccli__prepend opt (ccli__match_arg cfg k arg next rest) := by
  rw [ccli__match_arg]
  simp [h]

theorem ccli__match_arg_positional (cfg : ccli_config) (k : Nat) (arg : Str)
    (next : Option Str) (opt : ccli_option) (rest : List ccli_option)
    (h : ccli__in_scope opt k = true) (ha : ccli__is_positional arg = true)
    (hp : opt.positional = true) (hm : opt.matched = false) :
    ccli__match_arg cfg k arg next (opt :: rest) =
      match ccli__coerce_positional cfg opt arg with
      | .error e => .error (e, { opt with matched := true } :: rest)
      | .ok d => .ok ({ opt with matched := true, data := d } :: rest, true, false) := by
  rw [ccli__match_arg]
  cases hc : ccli__coerce_positional cfg opt arg <;> simp [h, ha, hp, hm]

theorem ccli__match_arg_named (cfg : ccli_config) (k : Nat) (arg : Str)
    (next : Option Str) (opt : ccli_option) (rest : List ccli_option)
    (h : ccli__in_scope opt k = true) (ha : ccli__is_positional arg = false)
    (hn : ccli__name_matches arg opt = true) :
    ccli__match_arg cfg k arg next (opt :: rest) =
      match ccli__coerce_named cfg opt next with
      | .error e => .error (e, { opt with matched := true } :: rest)
      | .ok (d, consumed) =>
        .ok ({ opt with matched := true, data := d } :: rest, true, consumed) := by
  rw [ccli__match_arg]
  cases hc : ccli__coerce_named cfg opt next <;> simp [h, ha, hn]

theorem ccli__match_arg_pass (cfg : ccli_config) (k : Nat) (arg : Str)
    (next : Option Str) (opt : ccli_option) (rest : List ccli_option)
    (hp : (ccli__is_positional arg && opt.positional && !opt.matched) = false)
    (hn : ccli__name_matches arg opt = false)
    (hb : (!ccli__is_long_opt arg && ccli__short_opt_kind arg == .ccli_short_multiple) = false) :
    ccli__match_arg cfg k arg next (opt :: rest) =
      ccli__prepend opt (ccli__match_arg cfg k arg next rest) := by
  rw [ccli__match_arg]
  by_cases h : ccli__in_scope opt k = true
  · simp only [h, hp, hn, hb, Bool.not_true, Bool.false_eq_true, if_false]
  · simp [h]

theorem ccli__is_positional_shape (arg : Str) (h : ccli__is_positional arg = true) :
    ccli__is_long_opt arg = false ∧ ccli__short_opt_kind arg = .ccli_short_none := by
  simpa [ccli__is_positional] using h

theorem ccli__name_matches_positional (arg : Str) (opt : ccli_option)
    (h : ccli__is_positional arg = true) : ccli__name_matches arg opt = false := by
  obtain ⟨hl, hs⟩ := ccli__is_positional_shape arg h
  simp [ccli__name_matches, hl, hs]

theorem ccli__prepend_list_nil {β : Type} (r : ccli_result (List ccli_option × β)) :
    ccli__prepend_list [] r = r := by
  cases r with
  | ok r => rfl
  | error r => rfl

theorem ccli__prepend_list_cons {β : Type} (o : ccli_option) (ds : List ccli_option)
    (r : ccli_result (List ccli_option × β)) :
    ccli__prepend o (ccli__prepend_list ds r) = ccli__prepend_list (o :: ds) r := by
  cases r with
  | ok r => rfl
  | error r => rfl

theorem ccli__match_arg_positional_skip (cfg : ccli_config) (k : Nat) (arg : Str)
    (next : Option Str) (harg : ccli__is_positional arg = true) (rest : List ccli_option) :
    ∀ (done : List ccli_option),
      (∀ o ∈ done, ccli__in_scope o k = true → o.positional = true → o.matched = true) →
      ccli__match_arg cfg k arg next (done ++ rest) =
        ccli__prepend_list done (ccli__match_arg cfg k arg next rest) := by
  obtain ⟨hl, hs⟩ := ccli__is_positional_shape arg harg
  intro done
  induction done with
  | nil =>
    intro _
    rw [List.nil_append, ccli__prepend_list_nil]
  | cons o ds ih =>
    intro hdone
    have ih1 := ih (fun x hx => hdone x (List.mem_cons_of_mem _ hx))
    have ho := hdone o (List.mem_cons_self _ _)
    rw [List.cons_append]
    by_cases hsc : ccli__in_scope o k = true
    · have hp : (ccli__is_positional arg && o.positional && !o.matched) = false := by
        by_cases hpos : o.positional = true
        · simp [ho hsc hpos]
        · simp [hpos]
      rw [ccli__match_arg_pass cfg k arg next o _ hp (ccli__name_matches_positional arg o harg)
        (by simp [hs]), ih1, ccli__prepend_list_cons]
    · rw [ccli__match_arg_out_of_scope cfg k arg next o _ (by simpa using hsc), ih1,
        ccli__prepend_list_cons]

/-! ## One step of the match loop -/

theorem ccli__match_loop_end (cfg : ccli_config) (cmds : Option (List ccli_command))
    (sub : Option Str) (k : Nat) (skip : Bool) (options : List ccli_option) :
    ccli__match_loop cfg cmds sub k skip options [] = ccli__check_unmatched k options := by
  cases skip <;> rfl

theorem ccli__match_loop_step_ok (cfg : ccli_config) (cmds : Option (List ccli_command))
    (sub : Option Str) (k : Nat) (options options1 : List ccli_option) (arg : Str)
    (rest : List Str) (consumed : Bool)
    (ht : ccli__is_terminator arg = false) (he : ccli_strcontains (some arg) '=' = false)
    (h : ccli__match_arg cfg k arg rest.head? options = .ok (options1, true, consumed)) :
    ccli__match_loop cfg cmds sub k false options (arg :: rest) =
      ccli__match_loop cfg cmds sub k consumed options1 rest := by
  rw [ccli__match_loop]
  simp [ht, he, h]

theorem ccli__match_loop_step_error (cfg : ccli_config) (cmds : Option (List ccli_command))
    (sub : Option Str) (k : Nat) (options : List ccli_option) (arg : Str)
    (rest : List Str) (e : ccli_exit × List ccli_option)
    (ht : ccli__is_terminator arg = false) (he : ccli_strcontains (some arg) '=' = false)
    (h : ccli__match_arg cfg k arg rest.head? options = .error e) :
    ccli__match_loop cfg cmds sub k false options (arg :: rest) = .error e := by
  rw [ccli__match_loop]
  simp [ht, he, h]

theorem ccli__match_loop_step_unmatched (cfg : ccli_config) (cmds : Option (List ccli_command))
    (sub : Option Str) (k : Nat) (options options1 : List ccli_option) (arg : Str)
    (rest : List Str) (consumed : Bool)
    (ht : ccli__is_terminator arg = false) (he : ccli_strcontains (some arg) '=' = false)
    (h : ccli__match_arg cfg k arg rest.head? options = .ok (options1, false, consumed)) :
    ccli__match_loop cfg cmds sub k false options (arg :: rest) =
      if ccli__is_positional arg then .error (.excess_positional arg, options1)
      else .error (.unknown_argument arg, options1) := by
  rw [ccli__match_loop]
  simp [ht, he, h]

theorem ccli__match_loop_skip (cfg : ccli_config) (cmds : Option (List ccli_command))
    (sub : Option Str) (k : Nat) (options : List ccli_option) (arg : Str) (rest : List Str) :
    ccli__match_loop cfg cmds sub k true options (arg :: rest) =
      ccli__match_loop cfg cmds sub k false options rest := by
  rw [ccli__match_loop]

theorem ccli__match_loop_equals_ok (cfg : ccli_config) (cmds : Option (List ccli_command))
    (sub : Option Str) (k : Nat) (options options1 : List ccli_option) (arg : Str)
    (rest : List Str)
    (ht : ccli__is_terminator arg = false) (he : ccli_strcontains (some arg) '=' = true)
    (h : ccli__parse_equals cfg options arg k = .ok options1) :
    ccli__match_loop cfg cmds sub k false options (arg :: rest) =
      ccli__match_loop cfg cmds sub k false options1 rest := by
  rw [ccli__match_loop]
  simp [ht, he, h]

theorem ccli__match_loop_equals_error (cfg : ccli_config) (cmds : Option (List ccli_command))
    (sub : Option Str) (k : Nat) (options : List ccli_option) (arg : Str)
    (rest : List Str) (e : ccli_exit × List ccli_option)
    (ht : ccli__is_terminator arg = false) (he : ccli_strcontains (some arg) '=' = true)
    (h : ccli__parse_equals cfg options arg k = .error e) :
    ccli__match_loop cfg cmds sub k false options (arg :: rest) = .error e := by
  rw [ccli__match_loop]
  simp [ht, he, h]

theorem ccli__prepend_eq_ok {β : Type} (o : ccli_option) (r : ccli_result (List ccli_option × β))
    (tt : List ccli_option) (b : β) (h : ccli__prepend o r = .ok (tt, b)) :
    ∃ t2, r = .ok (t2, b) ∧ tt = o :: t2 := by
  cases r with
  | ok r =>
    obtain ⟨t2, b2⟩ := r
    simp only [ccli__prepend, Except.ok.injEq, Prod.mk.injEq] at h
    exact ⟨t2, by rw [h.2], h.1.symm⟩
  | error r =>
    obtain ⟨e, t2⟩ := r
    simp [ccli__prepend] at h

theorem ccli__prepend_eq_error {β : Type} (o : ccli_option)
    (r : ccli_result (List ccli_option × β))
    (tt : List ccli_option) (e : ccli_exit) (h : ccli__prepend o r = .error (e, tt)) :
    ∃ t2, r = .error (e, t2) ∧ tt = o :: t2 := by
  cases r with
  | ok r =>
    obtain ⟨t2, b2⟩ := r
    simp [ccli__prepend] at h
  | error r =>
    obtain ⟨e2, t2⟩ := r
    simp only [ccli__prepend, Except.error.injEq, Prod.mk.injEq] at h
    exact ⟨t2, by rw [h.1], h.2.symm⟩

/-! ## Positional tokens are assigned in declaration order -/

theorem ccli__match_loop_positional (cfg : ccli_config) (cmds : Option (List ccli_command))
    (sub : Option Str) (k : Nat) :
    ∀ (todo done : List ccli_option) (toks : List Str),
      (∀ o ∈ done, ccli__in_scope o k = true → o.positional = true → o.matched = true) →
      (∀ o ∈ todo, ccli__in_scope o k = true → o.positional = true → o.matched = false) →
      (∀ t ∈ toks, ccli__is_positional t = true ∧ ccli__is_terminator t = false
        ∧ ccli_strcontains (some t) '=' = false) →
      toks.length ≤ (todo.filter (fun o => ccli__in_scope o k && o.positional)).length →
      (∀ t1, ccli_assign_in_order cfg k toks todo = .ok (t1, ()) →
        ccli__match_loop cfg cmds sub k false (done ++ todo) toks
          = ccli__check_unmatched k (done ++ t1))
      ∧ (∀ e t1, ccli_assign_in_order cfg k toks todo = .error (e, t1) →
        ccli__match_loop cfg cmds sub k false (done ++ todo) toks = .error (e, done ++ t1)) := by
  intro todo
  induction todo with
  | nil =>
    intro done toks _ _ _ hlen
    have : toks = [] := by
      cases toks with
      | nil => rfl
      | cons t ts => simp at hlen
    subst this
    constructor
    · intro t1 h
      simp only [ccli_assign_in_order, Except.ok.injEq, Prod.mk.injEq, and_true] at h
      rw [← h, ccli__match_loop_end]
    · intro e t1 h
      simp [ccli_assign_in_order] at h
  | cons o os ih =>
    intro done toks hdone htodo hshape hlen
    cases toks with
    | nil =>
      constructor
      · intro t1 h
        simp only [ccli_assign_in_order, Except.ok.injEq, Prod.mk.injEq, and_true] at h
        rw [← h, ccli__match_loop_end]
      · intro e t1 h
        simp [ccli_assign_in_order] at h
    | cons t ts =>
      have hos : ∀ x ∈ os, ccli__in_scope x k = true → x.positional = true → x.matched = false :=
        fun x hx => htodo x (List.mem_cons_of_mem _ hx)
      obtain ⟨htp, htt, hte⟩ := hshape t (List.mem_cons_self _ _)
      have hts : ∀ x ∈ ts, ccli__is_positional x = true ∧ ccli__is_terminator x = false
          ∧ ccli_strcontains (some x) '=' = false :=
        fun x hx => hshape x (List.mem_cons_of_mem _ hx)
      by_cases hc : (ccli__in_scope o k && o.positional) = true
      · have hsc : ccli__in_scope o k = true := by
          simp only [Bool.and_eq_true] at hc; exact hc.1
        have hp : o.positional = true := by
          simp only [Bool.and_eq_true] at hc; exact hc.2
        have hm : o.matched = false := htodo o (List.mem_cons_self _ _) hsc hp
        have hlen1 : ts.length ≤ (os.filter (fun o => ccli__in_scope o k && o.positional)).length := by
          simp only [List.filter_cons, hc, if_true, List.length_cons] at hlen
          omega
        have hstep := ccli__match_arg_positional_skip cfg k t ts.head? htp (o :: os) done hdone
        rw [ccli__match_arg_positional cfg k t ts.head? o os hsc htp hp hm] at hstep
        cases hcoe : ccli__coerce_positional cfg o t with
        | error e0 =>
          rw [hcoe] at hstep
          have hl := ccli__match_loop_step_error cfg cmds sub k (done ++ o :: os) t ts _ htt hte hstep
          constructor
          · intro t1 h
            simp [ccli_assign_in_order, hc, hcoe] at h
          · intro e t1 h
            simp only [ccli_assign_in_order, hc, if_true, hcoe, Except.error.injEq,
              Prod.mk.injEq] at h
            rw [hl, ← h.1, ← h.2]
        | ok d =>
          rw [hcoe] at hstep
          have hl := ccli__match_loop_step_ok cfg cmds sub k (done ++ o :: os) _ t ts false
            htt hte hstep
          have hdone1 : ∀ x ∈ done ++ [{ o with matched := true, data := d }],
              ccli__in_scope x k = true → x.positional = true → x.matched = true := by
            intro x hx
            rcases List.mem_append.mp hx with h1 | h1
            · exact hdone x h1
            · simp only [List.mem_singleton] at h1
              intro _ _
              rw [h1]
          obtain ⟨ih1, ih2⟩ := ih (done ++ [{ o with matched := true, data := d }]) ts hdone1
            hos hts hlen1
          simp only [List.append_assoc, List.singleton_append] at ih1 ih2
          constructor
          · intro t1 h
            simp only [ccli_assign_in_order, hc, if_true, hcoe] at h
            obtain ⟨t2, h2, h3⟩ := ccli__prepend_eq_ok _ _ _ _ h
            rw [hl, h3]
            exact ih1 t2 h2
          · intro e t1 h
            simp only [ccli_assign_in_order, hc, if_true, hcoe] at h
            obtain ⟨t2, h2, h3⟩ := ccli__prepend_eq_error _ _ _ _ h
            rw [hl, h3]
            exact ih2 e t2 h2
      · have hdone1 : ∀ x ∈ done ++ [o],
            ccli__in_scope x k = true → x.positional = true → x.matched = true := by
          intro x hx
          rcases List.mem_append.mp hx with h1 | h1
          · exact hdone x h1
          · simp only [List.mem_singleton] at h1
            intro h2 h3
            rw [h1] at h2 h3
            exact absurd (by simp [h2, h3]) hc
        have hlen1 : (t :: ts).length
            ≤ (os.filter (fun o => ccli__in_scope o k && o.positional)).length := by
          simpa only [List.filter_cons, hc, if_false] using hlen
        obtain ⟨ih1, ih2⟩ := ih (done ++ [o]) (t :: ts) hdone1 hos hshape hlen1
        simp only [List.append_assoc, List.singleton_append] at ih1 ih2
        constructor
        · intro t1 h
          simp only [ccli_assign_in_order, hc, if_false] at h
          obtain ⟨t2, h2, h3⟩ := ccli__prepend_eq_ok _ _ _ _ h
          rw [h3]
          exact ih1 t2 h2
        · intro e t1 h
          simp only [ccli_assign_in_order, hc, if_false] at h
          obtain ⟨t2, h2, h3⟩ := ccli__prepend_eq_error _ _ _ _ h
          rw [h3]
          exact ih2 e t2 h2

theorem ccli__find_help_from_positional :
    ∀ (toks : List Str), (∀ t ∈ toks, ccli__is_positional t = true) →
      ccli__find_help_from toks = false := by
  intro toks
  induction toks with
  | nil => intro _; rfl
  | cons t ts ih =>
    intro h
    have ht := h t (List.mem_cons_self _ _)
    have h1 : t ≠ ['-', '-', 'h', 'e', 'l', 'p'] := by
      intro e; rw [e] at ht; exact absurd ht (by decide)
    have h2 : t ≠ ['-', 'h'] := by
      intro e; rw [e] at ht; exact absurd ht (by decide)
    rw [ccli__find_help_from]
    simp [ccli_streq_some, h1, h2, ih (fun x hx => h x (List.mem_cons_of_mem _ hx))]

theorem ccli__run_command_no_command (cmds : Option (List ccli_command)) (prog : Str)
    (toks : List Str)
    (h : ∀ l, cmds = some l → l ≠ [] ∧ ∀ c ∈ l, toks.head? ≠ some c.command) :
    ccli__run_command cmds (prog :: toks) = .ok 1 := by
  cases toks with
  | nil => rfl
  | cons t ts =>
    cases cmds with
    | none => rfl
    | some l =>
      obtain ⟨hne, hall⟩ := h l rfl
      cases l with
      | nil => exact absurd rfl hne
      | cons c cs =>
        simp only [ccli__run_command]
        rw [ccli__run_command_from_absent t (c :: cs) 0]
        intro x hx e
        exact hall x hx (by simp [e])

theorem ccli_parse_opts_no_command_ok (cfg : ccli_config) (cmds : Option (List ccli_command))
    (options options1 : List ccli_option) (prog : Str) (toks : List Str)
    (hvalid : ccli__validate_options options = .ok ())
    (hcmd : ccli__run_command cmds (prog :: toks) = .ok 1)
    (hhelp : ccli__find_help_from toks = false)
    (hr : ccli__match_loop cfg cmds none 1 false options toks = .ok options1) :
    ccli_parse_opts cfg cmds options (prog :: toks) = .ok (none, options1) := by
  simp [ccli_parse_opts, hvalid, hcmd, ccli__find_help, hhelp, ccli__subcommand, hr]

theorem ccli_parse_opts_no_command_error (cfg : ccli_config)
    (cmds : Option (List ccli_command))
    (options : List ccli_option) (prog : Str) (toks : List Str)
    (e : ccli_exit × List ccli_option)
    (hvalid : ccli__validate_options options = .ok ())
    (hcmd : ccli__run_command cmds (prog :: toks) = .ok 1)
    (hhelp : ccli__find_help_from toks = false)
    (hr : ccli__match_loop cfg cmds none 1 false options toks = .error e) :
    ccli_parse_opts cfg cmds options (prog :: toks) = .error e := by
  simp [ccli_parse_opts, hvalid, hcmd, ccli__find_help, hhelp, ccli__subcommand, hr]

/-- C2: when `argv[1]` is not a command name, the positional descriptors in scope are all
unmatched, and the tokens are positional shaped (neither long nor short options, no
terminator, no `=`) and no more than those descriptors, `ccli_parse_opts` hands the `j`-th
token to the `j`-th positional descriptor in scope, in declaration order, marks these and no
others, and then runs the requirement check on the resulting table. A token that fails its
coercion ends the call there with the exit of the coercion. -/
theorem ccli_parse_opts_positional_order (cfg : ccli_config)
    (cmds : Option (List ccli_command)) (options : List ccli_option) (prog : Str)
    (toks : List Str)
    (hvalid : ccli__validate_options options = .ok ())
    (hcmd : ∀ l, cmds = some l → l ≠ [] ∧ ∀ c ∈ l, toks.head? ≠ some c.command)
    (hshape : ∀ t ∈ toks, ccli__is_positional t = true ∧ ccli__is_terminator t = false
      ∧ ccli_strcontains (some t) '=' = false)
    (hunm : ∀ o ∈ options, ccli__in_scope o 1 = true → o.positional = true → o.matched = false)
    (hlen : toks.length ≤ (options.filter (fun o => ccli__in_scope o 1 && o.positional)).length) :
    ccli_parse_opts cfg cmds options (prog :: toks) =
      match ccli_assign_in_order cfg 1 toks options with
      | .error e => .error e
      | .ok (options1, _) =>
        match ccli__check_unmatched 1 options1 with
        | .error e => .error e
        | .ok options2 => .ok (none, options2) := by
  have hrun := ccli__run_command_no_command cmds prog toks hcmd
  have hhelp := ccli__find_help_from_positional toks (fun t ht => (hshape t ht).1)
  obtain ⟨h1, h2⟩ := ccli__match_loop_positional cfg cmds none 1 options [] toks
    (by intro o ho; cases ho) hunm hshape hlen
  cases ha : ccli_assign_in_order cfg 1 toks options with
  | error r =>
    obtain ⟨e, t1⟩ := r
    have hl := h2 e t1 ha
    rw [List.nil_append, List.nil_append] at hl
    exact ccli_parse_opts_no_command_error cfg cmds options prog toks _ hvalid hrun hhelp hl
  | ok r =>
    obtain ⟨t1, u⟩ := r
    have hl := h1 t1 ha
    rw [List.nil_append, List.nil_append] at hl
    dsimp only
    cases hc : ccli__check_unmatched 1 t1 with
    | error e =>
      rw [hc] at hl
      exact ccli_parse_opts_no_command_error cfg cmds options prog toks _ hvalid hrun hhelp hl
    | ok o2 =>
      rw [hc] at hl
      exact ccli_parse_opts_no_command_ok cfg cmds options o2 prog toks hvalid hrun hhelp hl

set_option maxRecDepth 100000 in
/-- Instance of C2 on the tables of `patc.c` (Scenario A): `[prog, a.txt]` stores `a.txt` in
`patch_file`, the only positional option, and leaves `nowrite` as it was. -/
theorem ccli_parse_opts_positional_order_witness :
    ccli_parse_opts ccli_default_config (some patc_commands) patc_options
        [['p'], ['a', '.', 't', 'x', 't']]
      = .ok (none, [{ patc_patch_file with
                        matched := true, data := .string ['a', '.', 't', 'x', 't'] },
                    patc_nowrite]) :=
  (ccli_parse_opts_positional_order ccli_default_config (some patc_commands) patc_options
    ['p'] [['a', '.', 't', 'x', 't']] (by decide)
    (by intro l hl; cases hl; decide) (by decide) (by decide) (by decide)).trans (by decide)

/-! ## A token that names an option -/

theorem ccli__name_matches_shape (arg : Str) (opt : ccli_option)
    (h : ccli__name_matches arg opt = true) :
    ccli__is_positional arg = false
    ∧ (!ccli__is_long_opt arg && ccli__short_opt_kind arg == .ccli_short_multiple) = false
    ∧ ccli__is_terminator arg = false := by
  have hterm : ccli__is_terminator arg = false := by
    cases ht : ccli__is_terminator arg with
    | false => rfl
    | true =>
      exfalso
      simp only [ccli__is_terminator, ccli_streq_some, Bool.or_eq_true, decide_eq_true_eq] at ht
      rcases ht with e | e <;> (rw [e] at h; revert h; simp [ccli__name_matches,
        ccli__is_long_opt, ccli__short_opt_kind])
  refine ⟨?_, ?_, hterm⟩
  · cases hl : ccli__is_long_opt arg with
    | true => simp [ccli__is_positional, hl]
    | false =>
      simp only [ccli__name_matches, hl, Bool.false_and, Bool.false_or, Bool.and_eq_true,
        beq_iff_eq] at h
      simp [ccli__is_positional, hl, h.1]
  · cases hl : ccli__is_long_opt arg with
    | true => simp
    | false =>
      simp only [ccli__name_matches, hl, Bool.false_and, Bool.false_or, Bool.and_eq_true,
        beq_iff_eq] at h
      simp [h.1]

theorem ccli__match_arg_named_skip (cfg : ccli_config) (k : Nat) (arg : Str)
    (next : Option Str) (hpos : ccli__is_positional arg = false)
    (hb : (!ccli__is_long_opt arg && ccli__short_opt_kind arg == .ccli_short_multiple) = false)
    (rest : List ccli_option) :
    ∀ (pre : List ccli_option),
      (∀ o ∈ pre, ccli__in_scope o k = true → ccli__name_matches arg o = false) →
      ccli__match_arg cfg k arg next (pre ++ rest) =
        ccli__prepend_list pre (ccli__match_arg cfg k arg next rest) := by
  intro pre
  induction pre with
  | nil =>
    intro _
    rw [List.nil_append, ccli__prepend_list_nil]
  | cons o ds ih =>
    intro hpre
    have ih1 := ih (fun x hx => hpre x (List.mem_cons_of_mem _ hx))
    have ho := hpre o (List.mem_cons_self _ _)
    rw [List.cons_append]
    by_cases hsc : ccli__in_scope o k = true
    · rw [ccli__match_arg_pass cfg k arg next o _ (by simp [hpos]) (ho hsc) hb, ih1,
        ccli__prepend_list_cons]
    · rw [ccli__match_arg_out_of_scope cfg k arg next o _ (by simpa using hsc), ih1,
        ccli__prepend_list_cons]

theorem ccli__match_arg_named_at (cfg : ccli_config) (k : Nat) (arg : Str)
    (next : Option Str) (pre post : List ccli_option) (opt : ccli_option)
    (hscope : ccli__in_scope opt k = true) (hname : ccli__name_matches arg opt = true)
    (hfirst : ∀ o ∈ pre, ccli__in_scope o k = true → ccli__name_matches arg o = false) :
    (∀ d c, ccli__coerce_named cfg opt next = .ok (d, c) →
      ccli__match_arg cfg k arg next (pre ++ opt :: post)
        = .ok (pre ++ { opt with matched := true, data := d } :: post, true, c))
    ∧ (∀ e, ccli__coerce_named cfg opt next = .error e →
      ccli__match_arg cfg k arg next (pre ++ opt :: post)
        = .error (e, pre ++ { opt with matched := true } :: post)) := by
  obtain ⟨hpos, hb, _⟩ := ccli__name_matches_shape arg opt hname
  have hskip := ccli__match_arg_named_skip cfg k arg next hpos hb (opt :: post) pre hfirst
  rw [ccli__match_arg_named cfg k arg next opt post hscope hpos hname] at hskip
  constructor
  · intro d c h
    rw [hskip, h]
    rfl
  · intro e h
    rw [hskip, h]
    rfl

theorem ccli__coerce_named_value (cfg : ccli_config) (opt : ccli_option) (v : Str)
    (hkind : opt.kind ≠ .ccli_boolean) (hv : ccli__is_option v = false) :
    (∀ d, ccli__coerce_positional cfg opt v = .ok d →
      ccli__coerce_named cfg opt (some v) = .ok (d, true))
    ∧ (∀ e, ccli__coerce_positional cfg opt v = .error e →
      ccli__coerce_named cfg opt (some v) = .error e) := by
  cases hk : opt.kind with
  | ccli_boolean => exact absurd hk hkind
  | ccli_string =>
    by_cases hlen : v.length > CCLI_MAX_STR_LEN
    · simp [ccli__coerce_named, ccli__coerce_positional, hk, hv, hlen]
    · simp [ccli__coerce_named, ccli__coerce_positional, hk, hv, hlen]
  | ccli_number =>
    cases hp : ccli_try_parse_int cfg v <;>
      simp [ccli__coerce_named, ccli__coerce_positional, hk, hv, hp]
  | ccli_unumber =>
    cases hp : ccli_try_parse_uint cfg v <;>
      simp [ccli__coerce_named, ccli__coerce_positional, hk, hv, hp]

/-- C3: a descriptor in scope, not boolean, that is the first one named by the token `arg`
(its long name after `--`, or its short letter after `-`), followed by a token `v` that is not
option shaped: the match loop coerces `v` as it would a positional token of that kind, stores
the value, marks the descriptor matched and goes on with the token after `v`, so that `v` is
never classified itself. A `v` that cannot be coerced ends the call with the exit of the
coercion, the descriptor marked matched and its storage untouched. -/
theorem ccli__match_loop_named_value (cfg : ccli_config) (cmds : Option (List ccli_command))
    (sub : Option Str) (k : Nat) (pre post : List ccli_option) (opt : ccli_option)
    (arg v : Str) (rest : List Str)
    (hscope : ccli__in_scope opt k = true) (hkind : opt.kind ≠ .ccli_boolean)
    (hname : ccli__name_matches arg opt = true)
    (hfirst : ∀ o ∈ pre, ccli__in_scope o k = true → ccli__name_matches arg o = false)
    (heq : ccli_strcontains (some arg) '=' = false)
    (hv : ccli__is_option v = false) :
    ccli__match_loop cfg cmds sub k false (pre ++ opt :: post) (arg :: v :: rest) =
      match ccli__coerce_positional cfg opt v with
      | .error e => .error (e, pre ++ { opt with matched := true } :: post)
      | .ok d =>
        ccli__match_loop cfg cmds sub k false
          (pre ++ { opt with matched := true, data := d } :: post) rest := by
  obtain ⟨_, _, hterm⟩ := ccli__name_matches_shape arg opt hname
  obtain ⟨hok, herr⟩ := ccli__match_arg_named_at cfg k arg (some v) pre post opt hscope hname
    hfirst
  obtain ⟨cok, cerr⟩ := ccli__coerce_named_value cfg opt v hkind hv
  cases hc : ccli__coerce_positional cfg opt v with
  | error e =>
    exact ccli__match_loop_step_error cfg cmds sub k _ arg (v :: rest) _ hterm heq
      (herr e (cerr e hc))
  | ok d =>
    rw [ccli__match_loop_step_ok cfg cmds sub k _ _ arg (v :: rest) true hterm heq
      (hok d true (cok d hc)), ccli__match_loop_skip]

/-- Instance of C3 on Scenario C: `[-t, 10]` gives `timeout == 10`. -/
theorem ccli__match_loop_named_value_witness :
    ccli__match_loop ccli_default_config none none 1 false [example_timeout 0]
        [['-', 't'], ['1', '0']]
      = .ok [{ example_timeout 0 with matched := true, data := .number 10 }] :=
  (ccli__match_loop_named_value ccli_default_config none none 1 [] [] (example_timeout 0)
    ['-', 't'] ['1', '0'] [] (by decide) (by decide) (by decide) (by intro o ho; cases ho)
    (by decide) (by decide)).trans (by decide)

/-! ## The equals form -/

theorem ccli__equals_scan_out_of_scope (cfg : ccli_config) (k : Nat) (key v : Str)
    (opt : ccli_option) (rest : List ccli_option) (h : ccli__in_scope opt k = false) :
    ccli__equals_scan cfg k key v (opt :: rest) =
      ccli__prepend opt (ccli__equals_scan cfg k key v rest) := by
  rw [ccli__equals_scan]
  simp [h]

theorem ccli__equals_scan_pass (cfg : ccli_config) (k : Nat) (key v : Str)
    (opt : ccli_option) (rest : List ccli_option) (hkey : key ≠ [])
    (h : ccli__key_matches key opt = false) :
    ccli__equals_scan cfg k key v (opt :: rest) =
      ccli__prepend opt (ccli__equals_scan cfg k key v rest) := by
  rw [ccli__equals_scan]
  by_cases hs : ccli__in_scope opt k = true
  · simp [hs, h, hkey]
  · simp [hs]

theorem ccli__equals_scan_none (cfg : ccli_config) (k : Nat) (key v : Str) (hkey : key ≠ []) :
    ∀ (l : List ccli_option),
      (∀ o ∈ l, ccli__in_scope o k = true → ccli__key_matches key o = false) →
      ccli__equals_scan cfg k key v l = .ok (l, false) := by
  intro l
  induction l with
  | nil => intro _; rfl
  | cons o os ih =>
    intro h
    have ih1 := ih (fun x hx => h x (List.mem_cons_of_mem _ hx))
    by_cases hs : ccli__in_scope o k = true
    · rw [ccli__equals_scan_pass cfg k key v o os hkey (h o (List.mem_cons_self _ _) hs), ih1]
      rfl
    · rw [ccli__equals_scan_out_of_scope cfg k key v o os (by simpa using hs), ih1]
      rfl

theorem ccli__equals_scan_skip (cfg : ccli_config) (k : Nat) (key v : Str) (hkey : key ≠ [])
    (rest : List ccli_option) :
    ∀ (pre : List ccli_option),
      (∀ o ∈ pre, ccli__in_scope o k = true → ccli__key_matches key o = false) →
      ccli__equals_scan cfg k key v (pre ++ rest) =
        ccli__prepend_list pre (ccli__equals_scan cfg k key v rest) := by
  intro pre
  induction pre with
  | nil =>
    intro _
    rw [List.nil_append, ccli__prepend_list_nil]
  | cons o ds ih =>
    intro hpre
    have ih1 := ih (fun x hx => hpre x (List.mem_cons_of_mem _ hx))
    rw [List.cons_append]
    by_cases hs : ccli__in_scope o k = true
    · rw [ccli__equals_scan_pass cfg k key v o _ hkey (hpre o (List.mem_cons_self _ _) hs), ih1,
        ccli__prepend_list_cons]
    · rw [ccli__equals_scan_out_of_scope cfg k key v o _ (by simpa using hs), ih1,
        ccli__prepend_list_cons]

theorem ccli__equals_scan_unique (cfg : ccli_config) (k : Nat) (key v : Str)
    (pre post : List ccli_option) (opt : ccli_option) (hkey : key ≠ [])
    (hscope : ccli__in_scope opt k = true) (hm : ccli__key_matches key opt = true)
    (huniq : ∀ o ∈ pre ++ post, ccli__in_scope o k = true → ccli__key_matches key o = false) :
    (∀ d, ccli__coerce_equals cfg opt v = .ok d →
      ccli__equals_scan cfg k key v (pre ++ opt :: post)
        = .ok (pre ++ { opt with matched := true, data := d } :: post, true))
    ∧ (∀ e, ccli__coerce_equals cfg opt v = .error e →
      ccli__equals_scan cfg k key v (pre ++ opt :: post)
        = .error (e, pre ++ { opt with matched := true } :: post)) := by
  have hpre : ∀ o ∈ pre, ccli__in_scope o k = true → ccli__key_matches key o = false :=
    fun o ho => huniq o (List.mem_append_left _ ho)
  have hpost := ccli__equals_scan_none cfg k key v hkey post
    (fun o ho => huniq o (List.mem_append_right _ ho))
  have hskip := ccli__equals_scan_skip cfg k key v hkey (opt :: post) pre hpre
  have hlen : (key.length == 0) = false := by
    cases key with
    | nil => exact absurd rfl hkey
    | cons a as => simp
  constructor
  · intro d h
    rw [hskip, ccli__equals_scan]
    simp [hscope, hlen, hm, h, hpost, ccli__prepend_list]
  · intro e h
    rw [hskip, ccli__equals_scan]
    simp [hscope, hlen, hm, h, ccli__prepend_list]

theorem ccli__parse_equals_split (cfg : ccli_config) (options : List ccli_option)
    (key v : Str) (k : Nat) (hnoeq : '=' ∉ key) :
    (∀ o1, ccli__equals_scan cfg k key v options = .ok (o1, true) →
      ccli__parse_equals cfg options (key ++ '=' :: v) k = .ok o1)
    ∧ (∀ e, ccli__equals_scan cfg k key v options = .error e →
      ccli__parse_equals cfg options (key ++ '=' :: v) k = .error e)
    ∧ (∀ o1, ccli__equals_scan cfg k key v options = .ok (o1, false) →
      ccli__parse_equals cfg options (key ++ '=' :: v) k = .error (.unknown_argument key, o1)) := by
  have hidx : ccli_stridx (some (key ++ '=' :: v)) '=' = ((key.length : Nat) : Int) := by
    simp only [ccli_stridx]
    rw [ccli_stridx_from_split '=' key v 0 hnoeq]
    simp
  have htake : (key ++ '=' :: v).take key.length = key := by simp
  have hdrop : (key ++ '=' :: v).drop (key.length + 1) = v := by
    rw [← List.drop_drop]
    simp
  refine ⟨?_, ?_, ?_⟩
  · intro o1 h
    simp [ccli__parse_equals, hidx, htake, hdrop, h]
  · intro e h
    simp [ccli__parse_equals, hidx, htake, hdrop, h]
  · intro o1 h
    simp [ccli__parse_equals, hidx, htake, hdrop, h]

theorem ccli_equals_token_shape (key v : Str) :
    ccli__is_terminator (key ++ '=' :: v) = false
    ∧ ccli_strcontains (some (key ++ '=' :: v)) '=' = true := by
  constructor
  · cases ht : ccli__is_terminator (key ++ '=' :: v) with
    | false => rfl
    | true =>
      exfalso
      simp only [ccli__is_terminator, ccli_streq_some, Bool.or_eq_true, decide_eq_true_eq] at ht
      have hmem : '=' ∈ key ++ '=' :: v := by simp
      rcases ht with e | e <;> (rw [e] at hmem; revert hmem; decide)
  · exact (ccli_strcontains_iff _ _).mpr (by simp)

theorem ccli__key_matches_own (opt : ccli_option) (key : Str)
    (hkey : (∃ L, opt.long_arg = some L ∧ key = '-' :: '-' :: L) ∨ key = ['-', opt.short_arg]) :
    ccli__key_matches key opt = true ∧ key ≠ [] := by
  rcases hkey with ⟨L, hL, hk⟩ | hk
  · subst hk
    simp [ccli__key_matches, ccli__long_opt_eq_long, hL]
  · subst hk
    simp [ccli__key_matches]

theorem ccli__match_loop_named_last (cfg : ccli_config) (cmds : Option (List ccli_command))
    (sub : Option Str) (k : Nat) (pre post : List ccli_option) (opt : ccli_option)
    (arg v : Str)
    (hscope : ccli__in_scope opt k = true) (hkind : opt.kind ≠ .ccli_boolean)
    (hname : ccli__name_matches arg opt = true)
    (hfirst : ∀ o ∈ pre, ccli__in_scope o k = true → ccli__name_matches arg o = false)
    (heq : ccli_strcontains (some arg) '=' = false)
    (hv : ccli__is_option v = false) :
    (∀ d, ccli__coerce_positional cfg opt v = .ok d →
      ccli__match_loop cfg cmds sub k false (pre ++ opt :: post) [arg, v]
        = ccli__check_unmatched k (pre ++ { opt with matched := true, data := d } :: post))
    ∧ (∀ e, ccli__coerce_positional cfg opt v = .error e →
      ccli__match_loop cfg cmds sub k false (pre ++ opt :: post) [arg, v]
        = .error (e, pre ++ { opt with matched := true } :: post)) := by
  obtain ⟨_, _, hterm⟩ := ccli__name_matches_shape arg opt hname
  obtain ⟨hok, herr⟩ := ccli__match_arg_named_at cfg k arg (some v) pre post opt hscope hname
    hfirst
  obtain ⟨cok, cerr⟩ := ccli__coerce_named_value cfg opt v hkind hv
  constructor
  · intro d hc
    rw [ccli__match_loop_step_ok cfg cmds sub k _ _ arg [v] true hterm heq
      (hok d true (cok d hc)), ccli__match_loop_skip, ccli__match_loop_end]
  · intro e hc
    exact ccli__match_loop_step_error cfg cmds sub k _ arg [v] _ hterm heq (herr e (cerr e hc))

theorem ccli__coerce_equals_eq_positional (cfg : ccli_config) (opt : ccli_option) (v : Str)
    (hkind : opt.kind ≠ .ccli_boolean)
    (hvlen : opt.kind = .ccli_string → v.length ≤ CCLI_MAX_STR_LEN) :
    ccli__coerce_equals cfg opt v = ccli__coerce_positional cfg opt v := by
  cases hk : opt.kind with
  | ccli_boolean => exact absurd hk hkind
  | ccli_string =>
    have := hvlen hk
    simp [ccli__coerce_equals, ccli__coerce_positional, hk, Nat.not_lt.mpr this]
  | ccli_number => simp [ccli__coerce_equals, ccli__coerce_positional, hk]
  | ccli_unumber => simp [ccli__coerce_equals, ccli__coerce_positional, hk]

theorem ccli__match_loop_equals_last (cfg : ccli_config) (cmds : Option (List ccli_command))
    (sub : Option Str) (k : Nat) (pre post : List ccli_option) (opt : ccli_option)
    (key v : Str)
    (hscope : ccli__in_scope opt k = true) (hkind : opt.kind ≠ .ccli_boolean)
    (hvlen : opt.kind = .ccli_string → v.length ≤ CCLI_MAX_STR_LEN)
    (hkey : (∃ L, opt.long_arg = some L ∧ key = '-' :: '-' :: L) ∨ key = ['-', opt.short_arg])
    (hnoeq : '=' ∉ key)
    (huniq : ∀ o ∈ pre ++ post, ccli__in_scope o k = true → ccli__key_matches key o = false) :
    (∀ d, ccli__coerce_positional cfg opt v = .ok d →
      ccli__match_loop cfg cmds sub k false (pre ++ opt :: post) [key ++ '=' :: v]
        = ccli__check_unmatched k (pre ++ { opt with matched := true, data := d } :: post))
    ∧ (∀ e, ccli__coerce_positional cfg opt v = .error e →
      ccli__match_loop cfg cmds sub k false (pre ++ opt :: post) [key ++ '=' :: v]
        = .error (e, pre ++ { opt with matched := true } :: post)) := by
  obtain ⟨hm, hne⟩ := ccli__key_matches_own opt key hkey
  obtain ⟨hok, herr⟩ := ccli__equals_scan_unique cfg k key v pre post opt hne hscope hm huniq
  obtain ⟨pok, perr, _⟩ := ccli__parse_equals_split cfg (pre ++ opt :: post) key v k hnoeq
  obtain ⟨ht, hc⟩ := ccli_equals_token_shape key v
  have hco := ccli__coerce_equals_eq_positional cfg opt v hkind hvlen
  constructor
  · intro d h
    rw [← hco] at h
    rw [ccli__match_loop_equals_ok cfg cmds sub k _ _ _ [] ht hc (pok _ (hok d h)),
      ccli__match_loop_end]
  · intro e h
    rw [← hco] at h
    exact ccli__match_loop_equals_error cfg cmds sub k _ _ [] _ ht hc (perr _ (herr e h))

theorem ccli__run_command_other (cmds : Option (List ccli_command)) (prog tok : Str)
    (rest : List Str) (hne : cmds ≠ some [])
    (hcmd : ∀ l, cmds = some l → ∀ c ∈ l, c.command ≠ tok) :
    ccli__run_command cmds (prog :: tok :: rest) = .ok 1 := by
  apply ccli__run_command_no_command
  intro l hl
  refine ⟨fun e => hne (by rw [hl, e]), ?_⟩
  intro c hc e
  simp only [List.head?_cons, Option.some.injEq] at e
  exact hcmd l hl c hc e.symm

theorem ccli_parse_opts_of_loop (cfg : ccli_config) (cmds : Option (List ccli_command))
    (options : List ccli_option) (prog : Str) (toks : List Str)
    (r : ccli_result (List ccli_option))
    (hvalid : ccli__validate_options options = .ok ())
    (hcmd : ccli__run_command cmds (prog :: toks) = .ok 1)
    (hhelp : ccli__find_help_from toks = false)
    (hr : ccli__match_loop cfg cmds none 1 false options toks = r) :
    ccli_parse_opts cfg cmds options (prog :: toks) = r.map (fun o => (none, o)) := by
  cases r with
  | error e =>
    rw [ccli_parse_opts_no_command_error cfg cmds options prog toks e hvalid hcmd hhelp hr]
    rfl
  | ok o =>
    rw [ccli_parse_opts_no_command_ok cfg cmds options o prog toks hvalid hcmd hhelp hr]
    rfl

theorem ccli__find_help_from_value (v : Str) (hv : ccli__is_option v = false) :
    ccli__find_help_from [v] = false := by
  have h1 : v ≠ ['-', '-', 'h', 'e', 'l', 'p'] := by
    intro e; rw [e] at hv; exact absurd hv (by decide)
  have h2 : v ≠ ['-', 'h'] := by
    intro e; rw [e] at hv; exact absurd hv (by decide)
  simp [ccli__find_help_from, ccli_streq_some, h1, h2]

theorem ccli__find_help_from_named (arg v : Str) (ht : ccli__is_terminator arg = false)
    (h1 : arg ≠ ['-', '-', 'h', 'e', 'l', 'p']) (h2 : arg ≠ ['-', 'h'])
    (hv : ccli__is_option v = false) :
    ccli__find_help_from [arg, v] = false := by
  rw [ccli__find_help_from]
  simp [ht, ccli_streq_some, h1, h2, ccli__find_help_from_value v hv]

theorem ccli__find_help_from_equals (key v : Str) :
    ccli__find_help_from [key ++ '=' :: v] = false := by
  have hmem : '=' ∈ key ++ '=' :: v := by simp
  have h1 : key ++ '=' :: v ≠ ['-', '-', 'h', 'e', 'l', 'p'] := by
    intro e; rw [e] at hmem; revert hmem; decide
  have h2 : key ++ '=' :: v ≠ ['-', 'h'] := by
    intro e; rw [e] at hmem; revert hmem; decide
  simp [ccli__find_help_from, ccli_streq_some, h1, h2]

theorem ccli_four_forms_loop (cfg : ccli_config) (cmds : Option (List ccli_command))
    (pre post : List ccli_option) (opt : ccli_option) (L v : Str)
    (hscope : ccli__in_scope opt 1 = true) (hkind : opt.kind ≠ .ccli_boolean)
    (hlong : opt.long_arg = some L) (hL : L ≠ []) (hLeq : '=' ∉ L)
    (hs : opt.short_arg ≠ '-' ∧ opt.short_arg ≠ '=' ∧ opt.short_arg ≠ 'h'
      ∧ opt.short_arg ≠ c_nul)
    (hv : ccli__is_option v = false)
    (hvlen : opt.kind = .ccli_string → v.length ≤ CCLI_MAX_STR_LEN)
    (huniq : ∀ o ∈ pre ++ post, ccli__in_scope o 1 = true →
      o.long_arg ≠ some L ∧ o.short_arg ≠ opt.short_arg ∧ o.short_arg ≠ '-') :
    ∃ r, ccli__match_loop cfg cmds none 1 false (pre ++ opt :: post) ['-' :: '-' :: L, v] = r
      ∧ ccli__match_loop cfg cmds none 1 false (pre ++ opt :: post) [['-', opt.short_arg], v] = r
      ∧ ccli__match_loop cfg cmds none 1 false (pre ++ opt :: post)
          [('-' :: '-' :: L) ++ '=' :: v] = r
      ∧ ccli__match_loop cfg cmds none 1 false (pre ++ opt :: post)
          [['-', opt.short_arg] ++ '=' :: v] = r := by
  obtain ⟨hs1, hs2, hs3, hs4⟩ := hs
  obtain ⟨_, lh2, lh3, _⟩ := ccli_long_token_shape L hL
  obtain ⟨_, sh2, sh3, _⟩ := ccli_short_token_shape opt.short_arg hs1
  have hn1 : ccli__name_matches ('-' :: '-' :: L) opt = true := by
    simp [ccli__name_matches, lh2, ccli__long_opt_eq_long, hlong]
  have hn2 : ccli__name_matches ['-', opt.short_arg] opt = true := by
    simp [ccli__name_matches, sh2, sh3]
  have hf1 : ∀ o ∈ pre, ccli__in_scope o 1 = true →
      ccli__name_matches ('-' :: '-' :: L) o = false := by
    intro o ho hsc
    have := huniq o (List.mem_append_left _ ho) hsc
    simp [ccli__name_matches, lh3, ccli__long_opt_eq_long, this.1]
  have hf2 : ∀ o ∈ pre, ccli__in_scope o 1 = true →
      ccli__name_matches ['-', opt.short_arg] o = false := by
    intro o ho hsc
    have := huniq o (List.mem_append_left _ ho) hsc
    have hne : ¬ opt.short_arg = o.short_arg := fun e => this.2.1 e.symm
    simp [ccli__name_matches, sh2, hne]
  have he1 : ccli_strcontains (some ('-' :: '-' :: L)) '=' = false :=
    ccli_strcontains_false _ _ (by simp [hLeq])
  have hne2 : ¬ '=' = opt.short_arg := fun e => hs2 e.symm
  have he2 : ccli_strcontains (some ['-', opt.short_arg]) '=' = false :=
    ccli_strcontains_false _ _ (by simp [hne2])
  have hk1 : ∀ o ∈ pre ++ post, ccli__in_scope o 1 = true →
      ccli__key_matches ('-' :: '-' :: L) o = false := by
    intro o ho hsc
    have := huniq o ho hsc
    have hne : ¬ '-' = o.short_arg := fun e => this.2.2 e.symm
    simp [ccli__key_matches, ccli__long_opt_eq_long, this.1, hne]
  have hk2 : ∀ o ∈ pre ++ post, ccli__in_scope o 1 = true →
      ccli__key_matches ['-', opt.short_arg] o = false := by
    intro o ho hsc
    have := huniq o ho hsc
    have hne : ¬ opt.short_arg = o.short_arg := fun e => this.2.1 e.symm
    simp [ccli__key_matches, ccli__long_opt_eq, hne, hs1]
  obtain ⟨a1, b1⟩ := ccli__match_loop_named_last cfg cmds none 1 pre post opt
    ('-' :: '-' :: L) v hscope hkind hn1 hf1 he1 hv
  obtain ⟨a2, b2⟩ := ccli__match_loop_named_last cfg cmds none 1 pre post opt
    ['-', opt.short_arg] v hscope hkind hn2 hf2 he2 hv
  obtain ⟨a3, b3⟩ := ccli__match_loop_equals_last cfg cmds none 1 pre post opt
    ('-' :: '-' :: L) v hscope hkind hvlen (Or.inl ⟨L, hlong, rfl⟩) (by simp [hLeq]) hk1
  obtain ⟨a4, b4⟩ := ccli__match_loop_equals_last cfg cmds none 1 pre post opt
    ['-', opt.short_arg] v hscope hkind hvlen (Or.inr rfl) (by simp [hne2]) hk2
  cases hc : ccli__coerce_positional cfg opt v with
  | error e => exact ⟨_, b1 e hc, b2 e hc, b3 e hc, b4 e hc⟩
  | ok d => exact ⟨_, a1 d hc, a2 d hc, a3 d hc, a4 d hc⟩

/-- C5: a descriptor in scope when no command is active, not boolean, with long name `L` (not
empty, without `=`, not `help`) and short name `s` (a character other than `-`, `=` and `h`),
the only descriptor in scope with that long name or that short name, none in scope having the
short name `-`; none of `--L`, `-s`, `--L=v`, `-s=v` is the name of a command; `v` is not
option shaped and, for a string option, not longer than `CCLI_MAX_STR_LEN`. Then
`[prog, --L, v]`, `[prog, -s, v]`, `[prog, --L=v]` and `[prog, -s=v]` have the same outcome:
the same returned value and table, or the same exit with the same table. -/
theorem ccli_parse_opts_four_forms (cfg : ccli_config) (cmds : Option (List ccli_command))
    (pre post : List ccli_option) (opt : ccli_option) (prog L v : Str)
    (hscope : ccli__in_scope opt 1 = true) (hkind : opt.kind ≠ .ccli_boolean)
    (hlong : opt.long_arg = some L) (hL : L ≠ []) (hLeq : '=' ∉ L)
    (hLhelp : L ≠ ['h', 'e', 'l', 'p'])
    (hs : opt.short_arg ≠ '-' ∧ opt.short_arg ≠ '=' ∧ opt.short_arg ≠ 'h'
      ∧ opt.short_arg ≠ c_nul)
    (hv : ccli__is_option v = false)
    (hvlen : opt.kind = .ccli_string → v.length ≤ CCLI_MAX_STR_LEN)
    (huniq : ∀ o ∈ pre ++ post, ccli__in_scope o 1 = true →
      o.long_arg ≠ some L ∧ o.short_arg ≠ opt.short_arg ∧ o.short_arg ≠ '-')
    (hcmd : ∀ l, cmds = some l → ∀ c ∈ l,
      c.command ≠ '-' :: '-' :: L ∧ c.command ≠ ['-', opt.short_arg]
      ∧ c.command ≠ ('-' :: '-' :: L) ++ '=' :: v
      ∧ c.command ≠ ['-', opt.short_arg] ++ '=' :: v) :
    ccli_parse_opts cfg cmds (pre ++ opt :: post) [prog, '-' :: '-' :: L, v]
      = ccli_parse_opts cfg cmds (pre ++ opt :: post) [prog, ['-', opt.short_arg], v]
    ∧ ccli_parse_opts cfg cmds (pre ++ opt :: post) [prog, '-' :: '-' :: L, v]
      = ccli_parse_opts cfg cmds (pre ++ opt :: post) [prog, ('-' :: '-' :: L) ++ '=' :: v]
    ∧ ccli_parse_opts cfg cmds (pre ++ opt :: post) [prog, '-' :: '-' :: L, v]
      = ccli_parse_opts cfg cmds (pre ++ opt :: post)
          [prog, ['-', opt.short_arg] ++ '=' :: v] := by
  cases hvalid : ccli__validate_options (pre ++ opt :: post) with
  | error e => simp [ccli_parse_opts, hvalid]
  | ok u =>
    by_cases hne : cmds = some []
    · subst hne
      simp [ccli_parse_opts, hvalid, ccli__run_command]
    · obtain ⟨r, h1, h2, h3, h4⟩ := ccli_four_forms_loop cfg cmds pre post opt L v hscope hkind
        hlong hL hLeq hs hv hvlen huniq
      obtain ⟨lt, _, _, _⟩ := ccli_long_token_shape L hL
      obtain ⟨st, _, _, _⟩ := ccli_short_token_shape opt.short_arg hs.1
      have hh1 : ccli__find_help_from ['-' :: '-' :: L, v] = false :=
        ccli__find_help_from_named _ v lt (by simp [hLhelp]) (by simp) hv
      have hh2 : ccli__find_help_from [['-', opt.short_arg], v] = false :=
        ccli__find_help_from_named _ v st (by simp) (by simp [hs.2.2.1]) hv
      have hr1 := ccli__run_command_other cmds prog ('-' :: '-' :: L) [v] hne
        (fun l hl c hc => (hcmd l hl c hc).1)
      have hr2 := ccli__run_command_other cmds prog ['-', opt.short_arg] [v] hne
        (fun l hl c hc => (hcmd l hl c hc).2.1)
      have hr3 := ccli__run_command_other cmds prog (('-' :: '-' :: L) ++ '=' :: v) [] hne
        (fun l hl c hc => (hcmd l hl c hc).2.2.1)
      have hr4 := ccli__run_command_other cmds prog (['-', opt.short_arg] ++ '=' :: v) [] hne
        (fun l hl c hc => (hcmd l hl c hc).2.2.2)
      rw [ccli_parse_opts_of_loop cfg cmds _ prog _ r hvalid hr1 hh1 h1,
        ccli_parse_opts_of_loop cfg cmds _ prog _ r hvalid hr2 hh2 h2,
        ccli_parse_opts_of_loop cfg cmds _ prog _ r hvalid hr3
          (ccli__find_help_from_equals _ v) h3,
        ccli_parse_opts_of_loop cfg cmds _ prog _ r hvalid hr4
          (ccli__find_help_from_equals _ v) h4]
      exact ⟨rfl, rfl, rfl⟩

/-- Instance of C5 on Scenario C: `--timeout 10`, `-t 10`, `--timeout=10` and `-t=10`. -/
theorem ccli_parse_opts_four_forms_witness :
    ccli_parse_opts ccli_default_config none ([] ++ example_timeout 0 :: [])
        [['p'], '-' :: '-' :: ['t', 'i', 'm', 'e', 'o', 'u', 't'], ['1', '0']]
      = ccli_parse_opts ccli_default_config none ([] ++ example_timeout 0 :: [])
        [['p'], ['-', (example_timeout 0).short_arg] ++ '=' :: ['1', '0']] :=
  (ccli_parse_opts_four_forms ccli_default_config none [] [] (example_timeout 0) ['p']
    ['t', 'i', 'm', 'e', 'o', 'u', 't'] ['1', '0'] (by decide) (by decide) rfl (by decide)
    (by decide) (by decide) (by decide) (by decide) (by decide) (by intro o ho; cases ho)
    (by intro l hl; cases hl)).2.2

/-- C5, as stated, fails for an option whose short name is `h`: `--host x` stores `x`, while
`-h x` is a help request, found by the scan that precedes the match loop. -/
theorem ccli_parse_opts_four_forms_help_letter :
    ccli_parse_opts ccli_default_config none [example_host]
        [['p'], ['-', '-', 'h', 'o', 's', 't'], ['x']]
      = .ok (none, [{ example_host with matched := true, data := .string ['x'] }])
    ∧ ccli_parse_opts ccli_default_config none [example_host] [['p'], ['-', 'h'], ['x']]
      = .error (.help_shown, [example_host]) := by
  decide

/-! ## Strings are stored verbatim -/

theorem ccli__first_unmatched_none (c : Nat) :
    ∀ (options : List ccli_option), ccli__first_unmatched c options = none →
      ∀ o ∈ options, ccli__in_scope o c = true → o.required = true → o.matched = true := by
  intro options
  induction options with
  | nil => intro _ o ho; cases ho
  | cons x xs ih =>
    intro h o ho hsc hreq
    rw [ccli__first_unmatched] at h
    by_cases hx : ccli__in_scope x c = true
    · by_cases hm : (!x.matched && x.required) = true
      · simp [hx, hm] at h
      · simp only [hx, hm, Bool.not_true, Bool.false_eq_true, if_false] at h
        rcases List.mem_cons.mp ho with e | e
        · subst e
          cases hmo : o.matched with
          | true => rfl
          | false => simp [hmo, hreq] at hm
        · exact ih h o e hsc hreq
    · simp only [hx, Bool.not_false, if_true] at h
      rcases List.mem_cons.mp ho with e | e
      · subst e
        exact absurd hsc hx
      · exact ih h o e hsc hreq

theorem ccli__first_unmatched_some (c : Nat) :
    ∀ (options : List ccli_option) (name : Option Str),
      ccli__first_unmatched c options = some name →
      ∃ pre o post, options = pre ++ o :: post ∧ ccli__in_scope o c = true
        ∧ o.required = true ∧ o.matched = false ∧ o.long_arg = name
        ∧ ∀ x ∈ pre, ccli__in_scope x c = true → x.required = true → x.matched = true := by
  intro options
  induction options with
  | nil => intro name h; simp [ccli__first_unmatched] at h
  | cons x xs ih =>
    intro name h
    rw [ccli__first_unmatched] at h
    by_cases hx : ccli__in_scope x c = true
    · by_cases hm : (!x.matched && x.required) = true
      · simp only [hx, hm, Bool.not_true, Bool.false_eq_true, if_false, if_true,
          Option.some.injEq] at h
        simp only [Bool.and_eq_true, Bool.not_eq_true'] at hm
        exact ⟨[], x, xs, rfl, hx, hm.2, hm.1, h, by intro y hy; cases hy⟩
      · simp only [hx, hm, Bool.not_true, Bool.false_eq_true, if_false] at h
        obtain ⟨pre, o, post, h1, h2, h3, h4, h5, h6⟩ := ih name h
        refine ⟨x :: pre, o, post, by rw [h1]; rfl, h2, h3, h4, h5, ?_⟩
        intro y hy hsc hreq
        rcases List.mem_cons.mp hy with e | e
        · subst e
          cases hmo : y.matched with
          | true => rfl
          | false => simp [hmo, hreq] at hm
        · exact h6 y e hsc hreq
    · simp only [hx, Bool.not_false, if_true] at h
      obtain ⟨pre, o, post, h1, h2, h3, h4, h5, h6⟩ := ih name h
      refine ⟨x :: pre, o, post, by rw [h1]; rfl, h2, h3, h4, h5, ?_⟩
      intro y hy hsc hreq
      rcases List.mem_cons.mp hy with e | e
      · subst e
        exact absurd hsc hx
      · exact h6 y e hsc hreq

theorem ccli__check_unmatched_ok (k : Nat) (options options1 : List ccli_option)
    (h : ccli__check_unmatched k options = .ok options1) :
    options1 = options
    ∧ ∀ o ∈ options1, ccli__in_scope o (k % 256) = true → o.required = true →
        o.matched = true := by
  simp only [ccli__check_unmatched] at h
  cases hf : ccli__first_unmatched (k % 256) options with
  | some name => simp [hf] at h
  | none =>
    simp only [hf, Except.ok.injEq] at h
    subst h
    exact ⟨rfl, ccli__first_unmatched_none (k % 256) options hf⟩

theorem ccli__match_loop_ok_required (cfg : ccli_config) (cmds : Option (List ccli_command))
    (sub : Option Str) (k : Nat) :
    ∀ (toks : List Str) (skip : Bool) (options options1 : List ccli_option),
      ccli__match_loop cfg cmds sub k skip options toks = .ok options1 →
      ∀ o ∈ options1, ccli__in_scope o (k % 256) = true → o.required = true →
        o.matched = true := by
  intro toks
  induction toks with
  | nil =>
    intro skip options options1 h
    rw [ccli__match_loop_end] at h
    exact (ccli__check_unmatched_ok k options options1 h).2
  | cons arg rest ih =>
    intro skip options options1 h
    cases skip with
    | true =>
      rw [ccli__match_loop_skip] at h
      exact ih false options options1 h
    | false =>
      rw [ccli__match_loop] at h
      by_cases ht : ccli__is_terminator arg = true
      · simp only [ht, if_true] at h
        cases hp : ccli__parse_remaining_positionals cfg options cmds sub (arg :: rest) with
        | error e => simp [hp] at h
        | ok o1 =>
          simp only [hp] at h
          exact (ccli__check_unmatched_ok k o1 options1 h).2
      · simp only [ht, Bool.false_eq_true, if_false] at h
        by_cases he : ccli_strcontains (some arg) '=' = true
        · simp only [he, if_true] at h
          cases hp : ccli__parse_equals cfg options arg k with
          | error e => simp [hp] at h
          | ok o1 =>
            simp only [hp] at h
            exact ih false o1 options1 h
        · simp only [he, Bool.false_eq_true, if_false] at h
          cases hp : ccli__match_arg cfg k arg rest.head? options with
          | error e => simp [hp] at h
          | ok r =>
            obtain ⟨o1, m, c⟩ := r
            cases m with
            | false =>
              simp only [hp, Bool.not_false, if_true] at h
              by_cases hpos : ccli__is_positional arg = true <;> simp [hpos] at h
            | true =>
              simp only [hp, Bool.not_true, Bool.false_eq_true, if_false] at h
              exact ih c o1 options1 h

theorem ccli_parse_opts_ok_required (cfg : ccli_config) (cmds : Option (List ccli_command))
    (options options1 : List ccli_option) (argv : List Str) (sub : Option Str)
    (h : ccli_parse_opts cfg cmds options argv = .ok (sub, options1)) :
    ∃ k, ccli__run_command cmds argv = .ok k
      ∧ ∀ o ∈ options1, ccli__in_scope o (k % 256) = true → o.required = true →
          o.matched = true := by
  simp only [ccli_parse_opts] at h
  by_cases h0 : (argv.length == 0) = true
  · simp [h0] at h
  · simp only [h0, Bool.false_eq_true, if_false] at h
    cases hv : ccli__validate_options options with
    | error e => simp [hv] at h
    | ok u =>
      simp only [hv] at h
      cases hr : ccli__run_command cmds argv with
      | error e => simp [hr] at h
      | ok k =>
        simp only [hr] at h
        by_cases hh : ccli__find_help argv = true
        · simp only [hh, if_true] at h
          cases hp : ccli_help cmds (ccli__subcommand cmds k) options <;>
            (rw [hp] at h; simp at h)
        · simp only [hh, Bool.false_eq_true, if_false] at h
          cases hl : ccli__match_loop cfg cmds (ccli__subcommand cmds k) k false options
              (argv.drop (1 + (if k > 1 then 1 else 0))) with
          | error e => simp [hl] at h
          | ok o1 =>
            simp only [hl, Except.ok.injEq, Prod.mk.injEq] at h
            refine ⟨k, rfl, ?_⟩
            rw [← h.2]
            exact ccli__match_loop_ok_required cfg cmds _ k _ false options o1 hl

/-! ## The scope tests -/

theorem ccli_nodup_get?_inj (l : List Str) (hn : l.Nodup) (i j : Nat) (a : Str)
    (hi : l.get? i = some a) (hj : l.get? j = some a) : i = j := by
  have hil : i < l.length := by
    by_contra hc
    rw [List.get?_eq_none.mpr (Nat.le_of_not_lt hc)] at hi
    cases hi
  have hjl : j < l.length := by
    by_contra hc
    rw [List.get?_eq_none.mpr (Nat.le_of_not_lt hc)] at hj
    cases hj
  rcases Nat.lt_trichotomy i j with h | h | h
  · exact absurd (hi.trans hj.symm) ((List.nodup_iff_get?_ne_get?.mp hn) i j h hjl)
  · exact h
  · exact absurd (hj.trans hi.symm) ((List.nodup_iff_get?_ne_get?.mp hn) j i h hil)

theorem ccli__arg_relevant_eq_in_scope (cmds : List ccli_command) (opt : ccli_option)
    (k : Nat) (hnodup : (cmds.map (fun c => c.command)).Nodup)
    (hopt : opt.cmd_idx < cmds.length + 2) (hk1 : 1 ≤ k) (hk : k < cmds.length + 2) :
    ccli__arg_relevant opt (some cmds) (ccli__subcommand (some cmds) k)
      = some (ccli__in_scope opt k) := by
  have hget : ∀ i (hi : i < cmds.length),
      (cmds.map (fun c => c.command)).get? i = some cmds[i].command := by
    intro i hi
    rw [List.get?_eq_getElem?, List.getElem?_map, List.getElem?_eq_getElem hi]
    rfl
  have hsub : ∀ i (hi : i < cmds.length),
      ccli__subcommand (some cmds) (i + 2) = some cmds[i].command := by
    intro i hi
    apply ccli__subcommand_at
    rw [List.get?_eq_getElem?, List.getElem?_eq_getElem hi]
    rfl
  rcases Nat.lt_or_ge opt.cmd_idx 2 with h2 | h2
  · rcases Nat.lt_or_ge opt.cmd_idx 1 with h1 | h1
    · have h0 : opt.cmd_idx = 0 := by omega
      simp [ccli__arg_relevant, ccli__in_scope, h0]
    · have h1e : opt.cmd_idx = 1 := by omega
      rcases Nat.lt_or_ge k 2 with hk2 | hk2
      · have hke : k = 1 := by omega
        simp [ccli__arg_relevant, ccli__in_scope, h1e, hke, ccli__subcommand]
      · obtain ⟨i, rfl⟩ : ∃ i, k = i + 2 := ⟨k - 2, by omega⟩
        have hi : i < cmds.length := by omega
        simp [ccli__arg_relevant, ccli__in_scope, h1e, hsub i hi]
  · obtain ⟨j, hj⟩ : ∃ j, opt.cmd_idx = j + 2 := ⟨opt.cmd_idx - 2, by omega⟩
    have hjl : j < cmds.length := by omega
    have hat : ccli__command_at (some cmds) j = some (some cmds[j].command) := by
      simp [ccli__command_at, hjl, List.get?_eq_getElem?, List.getElem?_eq_getElem hjl]
    rcases Nat.lt_or_ge k 2 with hk2 | hk2
    · have hke : k = 1 := by omega
      simp [ccli__arg_relevant, ccli__in_scope, hj, hke, ccli__subcommand, hat, ccli_streq]
    · obtain ⟨i, rfl⟩ : ∃ i, k = i + 2 := ⟨k - 2, by omega⟩
      have hi : i < cmds.length := by omega
      by_cases hij : j = i
      · subst hij
        simp [ccli__arg_relevant, ccli__in_scope, hj, hsub j hi, hat, ccli_streq]
      · have hne : cmds[j].command ≠ cmds[i].command := by
          intro e
          apply hij
          exact ccli_nodup_get?_inj _ hnodup j i _ (hget j hjl) (by rw [hget i hi, e])
        simp [ccli__arg_relevant, ccli__in_scope, hj, hsub i hi, hat, ccli_streq_some, hne, hij]

/-! ## Numeric literals -/

theorem strtol_hex_prefix_other (base : Nat) (s : Str) (h : base ≠ 16) :
    strtol_hex_prefix base s = 0 := by
  unfold strtol_hex_prefix
  split
  · simp [h]
  · rfl

theorem strtol_zero_x (rest : Str) : strtol ('0' :: 'x' :: rest) 10 = ⟨0, 1, false⟩ := by
  have h1 : c_isspace '0' = false := by decide
  have h2 : c_digit_value '0' = some 0 := by decide
  have h3 : c_digit_value 'x' = some 33 := by decide
  have h4 := strtol_hex_prefix_other 10 ('0' :: 'x' :: rest) (by decide)
  simp [strtol, List.takeWhile, h1, strtol_sign, h4, strtol_digits, h2, h3]

/-- C14: with `CCLI_DISALLOW_HEX_NUMBERS` defined, `ccli_try_parse_int` and
`ccli_try_parse_uint` fail on every token that begins with `0x`, whether
`CCLI_DISALLOW_BIN_NUMBERS` is defined or not. -/
theorem ccli_try_parse_hex_disabled (cfg : ccli_config) (rest : Str)
    (h : cfg.disallow_hex = true) :
    ccli_try_parse_int cfg ('0' :: 'x' :: rest) = none
    ∧ ccli_try_parse_uint cfg ('0' :: 'x' :: rest) = none := by
  have hp : ccli__no_base_prefix ('0' :: 'x' :: rest) 'b' = true := by
    simp [ ccli__no_base_prefix]
  constructor
  · simp [ccli_try_parse_int, h, strtol_zero_x, ccli__int_failed_dec, hp]
  · simp [ccli_try_parse_uint, h, strtol_zero_x, ccli__uint_failed_dec, hp]

/-- Instance of C14: `0x2a` fails with hexadecimal disabled and binary enabled. -/
theorem ccli_try_parse_hex_disabled_witness :
    ccli_try_parse_int ⟨true, false⟩ ['0', 'x', '2', 'a'] = none :=
  (ccli_try_parse_hex_disabled ⟨true, false⟩ ['2', 'a'] rfl).1

set_option maxRecDepth 100000 in
/-- C11: `42`, `0x2a` and `0b101010` give 42 and the decimal literal of `2^63 - 1` gives that
value, but its hexadecimal literal `0x7fffffffffffffff` and its binary literal (`0b` and 63
digits `1`) are rejected: after the base 16 and base 2 conversions the result is compared with
`LONG_MAX` without looking at `errno`. -/
theorem ccli_try_parse_int_rejects_long_max :
    ccli_try_parse_int ccli_default_config ['4', '2'] = some 42
    ∧ ccli_try_parse_int ccli_default_config ['0', 'x', '2', 'a'] = some 42
    ∧ ccli_try_parse_int ccli_default_config ['0', 'b', '1', '0', '1', '0', '1', '0'] = some 42
    ∧ ccli_try_parse_int ccli_default_config "9223372036854775807".toList
        = some 9223372036854775807
    ∧ (9223372036854775807 : Int) = 2 ^ 63 - 1
    ∧ ccli_try_parse_int ccli_default_config "0x7fffffffffffffff".toList = none
    ∧ ccli_try_parse_int ccli_default_config ('0' :: 'b' :: List.replicate 63 '1') = none := by
  decide

set_option maxRecDepth 100000 in
/-- C12: the literals of `2^64` in base 10, 16 and 2, outside the range of `uint64_t`, are
accepted by `ccli_try_parse_uint` with the value `2^63 - 1`: the conversion is made by
`strtoll` and `strtol`, which saturate at `LONG_MAX`, and the result is compared with
`UINT64_MAX`. `ccli_try_parse_int` rejects the literals just outside the range of `long`. -/
theorem ccli_try_parse_uint_saturates :
    ccli_try_parse_uint ccli_default_config "18446744073709551616".toList
        = some 9223372036854775807
    ∧ ccli_try_parse_uint ccli_default_config "0x10000000000000000".toList
        = some 9223372036854775807
    ∧ ccli_try_parse_uint ccli_default_config ('0' :: 'b' :: '1' :: List.replicate 64 '0')
        = some 9223372036854775807
    ∧ ccli_try_parse_int ccli_default_config "9223372036854775808".toList = none
    ∧ ccli_try_parse_int ccli_default_config "-9223372036854775809".toList = none
    ∧ ccli_try_parse_int ccli_default_config "0x8000000000000000".toList = none
    ∧ ccli_try_parse_int ccli_default_config ('0' :: 'b' :: '1' :: List.replicate 63 '0')
        = none := by
  decide

set_option maxRecDepth 100000 in
/-- C13: `ccli_try_parse_uint` stores `2^63 - 1` for the decimal literals of `2^64 - 1` and of
`2^63`, both inside the range of `uint64_t`, and accepts `-1` with the value `2^64 - 1`; in
the equals form `--count=-1` the option `count` receives that value. The conversion is made
by `strtoll`, a signed conversion. -/
theorem ccli_try_parse_uint_wraps :
    ccli_try_parse_uint ccli_default_config "18446744073709551615".toList
        = some 9223372036854775807
    ∧ ccli_try_parse_uint ccli_default_config "9223372036854775808".toList
        = some 9223372036854775807
    ∧ ccli_try_parse_uint ccli_default_config ['-', '1'] = some 18446744073709551615
    ∧ ccli_parse_opts ccli_default_config none [example_count]
        [['p'], "--count=-1".toList]
      = .ok (none, [{ example_count with matched := true, data := .unumber 18446744073709551615 }])
    ∧ ccli_try_parse_uint ccli_default_config "9223372036854775807".toList
        = some 9223372036854775807 := by
  decide

/-! ## The terminator -/

theorem ccli__remaining_loop_skips (cfg : ccli_config) (options : List ccli_option) :
    ∀ (toks : List Str), (∀ t ∈ toks, t ≠ ['-']) →
      ccli__remaining_loop cfg options toks = .ok options := by
  intro toks
  induction toks with
  | nil => intro _; rfl
  | cons t ts ih =>
    intro h
    have ht : t ≠ ['-'] := h t (List.mem_cons_self _ _)
    rw [ccli__remaining_loop]
    simp only [ccli_streq_some, ht, decide_False, Bool.or_true, if_true, beq_self_eq_true]
    exact ih (fun x hx => h x (List.mem_cons_of_mem _ hx))

theorem ccli__coerce_positional_error (cfg : ccli_config) (opt : ccli_option) (arg : Str)
    (e : ccli_exit) (h : ccli__coerce_positional cfg opt arg = .error e) :
    e = .string_too_long opt.long_arg ∨ e = .invalid_number opt.long_arg arg := by
  unfold ccli__coerce_positional at h
  split at h
  · cases h
  · split at h
    · simp only [Except.error.injEq] at h
      exact Or.inl h.symm
    · cases h
  · split at h
    · cases h
    · simp only [Except.error.injEq] at h
      exact Or.inr h.symm
  · split at h
    · cases h
    · simp only [Except.error.injEq] at h
      exact Or.inr h.symm

theorem ccli__fill_positionals_error (cfg : ccli_config) (arg : Str) :
    ∀ (options : List ccli_option) (e : ccli_exit) (t : List ccli_option),
      ccli__fill_positionals cfg arg options = .error (e, t) →
      ∃ long_arg, e = .string_too_long long_arg ∨ e = .invalid_number long_arg arg := by
  intro options
  induction options with
  | nil => intro e t h; simp [ccli__fill_positionals] at h
  | cons o os ih =>
    intro e t h
    rw [ccli__fill_positionals] at h
    by_cases hc : (!o.matched && o.positional) = true
    · simp only [hc, if_true] at h
      cases hco : ccli__coerce_positional cfg o arg with
      | error e0 =>
        simp only [hco, Except.error.injEq, Prod.mk.injEq] at h
        rw [← h.1]
        exact ⟨o.long_arg, ccli__coerce_positional_error cfg o arg e0 hco⟩
      | ok d =>
        simp only [hco] at h
        obtain ⟨t2, h2, _⟩ := ccli__prepend_eq_error _ _ _ _ h
        exact ih e t2 h2
    · simp only [hc, Bool.false_eq_true, if_false] at h
      obtain ⟨t2, h2, _⟩ := ccli__prepend_eq_error _ _ _ _ h
      exact ih e t2 h2

theorem ccli__remaining_loop_error (cfg : ccli_config) :
    ∀ (toks : List Str) (options : List ccli_option) (e : ccli_exit) (t : List ccli_option),
      ccli__remaining_loop cfg options toks = .error (e, t) →
      ∃ long_arg tok, e = .string_too_long long_arg ∨ e = .invalid_number long_arg tok := by
  intro toks
  induction toks with
  | nil => intro options e t h; simp [ccli__remaining_loop] at h
  | cons a as ih =>
    intro options e t h
    rw [ccli__remaining_loop] at h
    split at h
    · exact ih options e t h
    · cases hf : ccli__fill_positionals cfg a options with
      | error r =>
        obtain ⟨e0, t0⟩ := r
        simp only [hf, Except.error.injEq, Prod.mk.injEq] at h
        obtain ⟨l, hl⟩ := ccli__fill_positionals_error cfg a options e0 t0 hf
        rw [← h.1]
        exact ⟨l, a, hl⟩
      | ok r =>
        obtain ⟨o1, u⟩ := r
        simp only [hf] at h
        exact ih o1 e t h

theorem ccli__parse_remaining_positionals_never_too_few (cfg : ccli_config)
    (options : List ccli_option) (cmds : Option (List ccli_command)) (sub : Option Str)
    (toks : List Str) (a b : Nat) (t : List ccli_option) :
    ccli__parse_remaining_positionals cfg options cmds sub toks
      ≠ .error (.too_few_positionals a b, t) := by
  intro h
  unfold ccli__parse_remaining_positionals at h
  split at h
  · simp at h
  · split at h
    · simp at h
    · obtain ⟨l, tok, hl⟩ := ccli__remaining_loop_error cfg toks options _ t h
      rcases hl with hl | hl <;> cases hl

/-- C15: with the tables of `patc.c`, the token `a.txt` after the terminator `--` is passed
over, not stored in `patch_file`, and the call ends with the missing required argument exit;
the terminator `-` is itself stored in `patch_file`. The loop of
`ccli__parse_remaining_positionals` skips a token when `ccli_streq(arg, "-") == 0`, that is
every token but `-`. -/
theorem ccli__parse_remaining_positionals_skips_tokens :
    ccli_parse_opts ccli_default_config (some patc_commands) patc_options
        [['p'], ['-', '-'], ['a', '.', 't', 'x', 't']]
      = .error (.missing_required (some ['p', 'a', 't', 'c', 'h', '_', 'f', 'i', 'l', 'e']),
          patc_options)
    ∧ ccli_parse_opts ccli_default_config (some patc_commands) patc_options [['p'], ['-']]
      = .ok (none, [{ patc_patch_file with matched := true, data := .string ['-'] },
                    patc_nowrite])
    ∧ ccli__remaining_loop ccli_default_config patc_options
        [['-', '-'], ['a', '.', 't', 'x', 't']] = .ok patc_options := by
  decide

theorem ccli__match_loop_too_many (cfg : ccli_config) (cmds : Option (List ccli_command))
    (sub : Option Str) (k : Nat) (options : List ccli_option) (arg : Str) (rest : List Str)
    (n : Nat) (ht : ccli__is_terminator arg = true)
    (hn : ccli__pos_args_len options cmds sub = some n) (hm : rest.length > n) :
    ccli__match_loop cfg cmds sub k false options (arg :: rest)
      = .error (.too_many_positionals n rest.length, options) := by
  rw [ccli__match_loop]
  simp [ht, ccli__parse_remaining_positionals, hn, hm]

/-- C16: when the match loop meets a terminator and more tokens follow it than
`ccli__pos_args_len` counts positional descriptors relevant to the active command (`n` of
them), the call ends with the too many positional arguments exit, expected `n`, got the
number of tokens after the terminator, and the table is as it was when the terminator was
met. For an invocation whose first token is the terminator, not the name of a command, this
is the outcome of `ccli_parse_opts`. -/
theorem ccli_parse_opts_too_many_positionals (cfg : ccli_config)
    (cmds : Option (List ccli_command)) (sub : Option Str) (k : Nat)
    (options : List ccli_option) (prog arg : Str) (rest : List Str) (n : Nat)
    (ht : ccli__is_terminator arg = true)
    (hn : ccli__pos_args_len options cmds sub = some n) (hm : rest.length > n) :
    ccli__match_loop cfg cmds sub k false options (arg :: rest)
      = .error (.too_many_positionals n rest.length, options)
    ∧ (sub = none → ccli__validate_options options = .ok () →
        (∀ l, cmds = some l → l ≠ [] ∧ ∀ c ∈ l, c.command ≠ arg) →
        ccli_parse_opts cfg cmds options (prog :: arg :: rest)
          = .error (.too_many_positionals n rest.length, options)) := by
  refine ⟨ccli__match_loop_too_many cfg cmds sub k options arg rest n ht hn hm, ?_⟩
  intro hsub hvalid hcmd
  subst hsub
  have hrun : ccli__run_command cmds (prog :: arg :: rest) = .ok 1 := by
    apply ccli__run_command_no_command
    intro l hl
    refine ⟨(hcmd l hl).1, ?_⟩
    intro c hc e
    simp only [List.head?_cons, Option.some.injEq] at e
    exact (hcmd l hl).2 c hc e.symm
  have hhelp : ccli__find_help_from (arg :: rest) = false := by
    rw [ccli__find_help_from]
    simp [ht]
  exact ccli_parse_opts_no_command_error cfg cmds options prog (arg :: rest) _ hvalid hrun
    hhelp (ccli__match_loop_too_many cfg cmds none 1 options arg rest n ht hn hm)

/-- Instance of C16 on Scenario D: two positional options, three tokens after `--`. -/
theorem ccli_parse_opts_too_many_positionals_witness :
    ccli_parse_opts ccli_default_config none [patc_patch_file, example_output]
        [['p'], ['-', '-'], ['a'], ['b'], ['c']]
      = .error (.too_many_positionals 2 3, [patc_patch_file, example_output]) :=
  (ccli_parse_opts_too_many_positionals ccli_default_config none none 1
    [patc_patch_file, example_output] ['p'] ['-', '-'] [['a'], ['b'], ['c']] 2
    (by decide) (by decide) (by decide)).2 rfl (by decide) (by intro l hl; cases hl)

/-- C17: no token follows the terminator and one positional option in scope is unmatched, yet
`ccli_parse_opts` returns normally when that option is not required, and ends with the
missing required argument exit when it is; the too few positional arguments exit is not
taken, the test `argc_idx != argc` of line 788 coming after a loop that ends with
`argc_idx == argc`. -/
theorem ccli__parse_remaining_positionals_no_too_few :
    ccli_parse_opts ccli_default_config none [example_output] [['p'], ['-', '-']]
      = .ok (none, [example_output])
    ∧ ccli_parse_opts ccli_default_config (some patc_commands) patc_options [['p'], ['-', '-']]
      = .error (.missing_required (some ['p', 'a', 't', 'c', 'h', '_', 'f', 'i', 'l', 'e']),
          patc_options)
    ∧ ccli_parse_opts ccli_default_config none [patc_patch_file, example_output]
        [['p'], ['-', '-'], ['a']]
      = .error (.missing_required (some ['p', 'a', 't', 'c', 'h', '_', 'f', 'i', 'l', 'e']),
          [patc_patch_file, example_output]) := by
  decide

theorem ccli__pos_args_len_eq_filter (cmds : List ccli_command) (k : Nat)
    (hnodup : (cmds.map (fun c => c.command)).Nodup) (hk1 : 1 ≤ k)
    (hk : k < cmds.length + 2) :
    ∀ (options : List ccli_option), (∀ o ∈ options, o.cmd_idx < cmds.length + 2) →
      ccli__pos_args_len options (some cmds) (ccli__subcommand (some cmds) k)
        = some (options.filter (fun o => o.positional && ccli__in_scope o k)).length := by
  intro options
  induction options with
  | nil => intro _; rfl
  | cons o os ih =>
    intro h
    have ih1 := ih (fun x hx => h x (List.mem_cons_of_mem _ hx))
    have hrel := ccli__arg_relevant_eq_in_scope cmds o k hnodup
      (h o (List.mem_cons_self _ _)) hk1 hk
    rw [ccli__pos_args_len]
    by_cases hp : o.positional = true
    · cases hs : ccli__in_scope o k with
      | true =>
        rw [hs] at hrel
        simp [hp, hrel, ih1, hs]
      | false =>
        rw [hs] at hrel
        simp [hp, hrel, ih1, hs]
    · simp [hp, ih1]

theorem ccli__pos_args_len_no_commands :
    ∀ (options : List ccli_option), (∀ o ∈ options, o.cmd_idx < 2) →
      ccli__pos_args_len options none none
        = some (options.filter (fun o => o.positional && ccli__in_scope o 1)).length := by
  intro options
  induction options with
  | nil => intro _; rfl
  | cons o os ih =>
    intro h
    have ih1 := ih (fun x hx => h x (List.mem_cons_of_mem _ hx))
    have ho := h o (List.mem_cons_self _ _)
    have hrel : ccli__arg_relevant o none none = some true := by
      rcases Nat.lt_or_ge o.cmd_idx 1 with h1 | h1
      · have h0 : o.cmd_idx = 0 := by omega
        simp [ccli__arg_relevant, h0]
      · have h1e : o.cmd_idx = 1 := by omega
        simp [ccli__arg_relevant, h1e]
    have hs : ccli__in_scope o 1 = true := by
      rcases Nat.lt_or_ge o.cmd_idx 1 with h1 | h1
      · have h0 : o.cmd_idx = 0 := by omega
        simp [ccli__in_scope, h0]
      · have h1e : o.cmd_idx = 1 := by omega
        simp [ccli__in_scope, h1e]
    rw [ccli__pos_args_len]
    by_cases hp : o.positional = true
    · simp [hp, hrel, ih1, hs]
    · simp [hp, ih1]

/-! ## An option without its value -/

theorem ccli__coerce_named_absent (cfg : ccli_config) (opt : ccli_option)
    (hkind : opt.kind ≠ .ccli_boolean) :
    ccli__coerce_named cfg opt none = .error (.missing_argument opt.long_arg) := by
  simp [ccli__coerce_named, hkind]

theorem ccli__coerce_named_option_shaped (cfg : ccli_config) (opt : ccli_option) (v : Str)
    (hv : ccli__is_option v = true) :
    (opt.kind = .ccli_string →
      ccli__coerce_named cfg opt (some v) = .error (.missing_argument opt.long_arg))
    ∧ (opt.kind = .ccli_number → ccli_try_parse_int cfg v = none →
      ccli__coerce_named cfg opt (some v) = .error (.missing_argument opt.long_arg))
    ∧ (opt.kind = .ccli_number → ∀ n, ccli_try_parse_int cfg v = some n →
      ccli__coerce_named cfg opt (some v) = .ok (.number n, true))
    ∧ (opt.kind = .ccli_unumber →
      ccli__coerce_named cfg opt (some v) = .error (.invalid_unsigned opt.long_arg v)) := by
  refine ⟨?_, ?_, ?_, ?_⟩
  · intro hk
    simp [ccli__coerce_named, hk, hv]
  · intro hk hp
    simp [ccli__coerce_named, hk, hv, hp]
  · intro hk n hp
    simp [ccli__coerce_named, hk, hv, hp]
  · intro hk
    simp [ccli__coerce_named, hk, hv]

/-- C18: a descriptor in scope, not boolean, that is the first one named by the token `arg`.
When no token follows, the call ends with the missing argument exit. When the next token `v`
is option shaped: a string option ends with the missing argument exit; a signed integer option
takes `v` as its value and goes on after it when `v` parses as an integer (`-5`), and ends
with the missing argument exit when it does not; an unsigned integer option ends with the
invalid unsigned value exit. At each of these exits the descriptor is marked matched and its
storage is as it was. -/
theorem ccli__match_loop_missing_value (cfg : ccli_config) (cmds : Option (List ccli_command))
    (sub : Option Str) (k : Nat) (pre post : List ccli_option) (opt : ccli_option) (arg : Str)
    (hscope : ccli__in_scope opt k = true) (hkind : opt.kind ≠ .ccli_boolean)
    (hname : ccli__name_matches arg opt = true)
    (hfirst : ∀ o ∈ pre, ccli__in_scope o k = true → ccli__name_matches arg o = false)
    (heq : ccli_strcontains (some arg) '=' = false) :
    ccli__match_loop cfg cmds sub k false (pre ++ opt :: post) [arg]
      = .error (.missing_argument opt.long_arg, pre ++ { opt with matched := true } :: post)
    ∧ (∀ (v : Str) (rest : List Str), ccli__is_option v = true →
        (opt.kind = .ccli_string →
          ccli__match_loop cfg cmds sub k false (pre ++ opt :: post) (arg :: v :: rest)
            = .error (.missing_argument opt.long_arg,
                pre ++ { opt with matched := true } :: post))
        ∧ (opt.kind = .ccli_number → ccli_try_parse_int cfg v = none →
          ccli__match_loop cfg cmds sub k false (pre ++ opt :: post) (arg :: v :: rest)
            = .error (.missing_argument opt.long_arg,
                pre ++ { opt with matched := true } :: post))
        ∧ (opt.kind = .ccli_number → ∀ n, ccli_try_parse_int cfg v = some n →
          ccli__match_loop cfg cmds sub k false (pre ++ opt :: post) (arg :: v :: rest)
            = ccli__match_loop cfg cmds sub k false
                (pre ++ { opt with matched := true, data := .number n } :: post) rest)
        ∧ (opt.kind = .ccli_unumber →
          ccli__match_loop cfg cmds sub k false (pre ++ opt :: post) (arg :: v :: rest)
            = .error (.invalid_unsigned opt.long_arg v,
                pre ++ { opt with matched := true } :: post))) := by
  obtain ⟨_, _, hterm⟩ := ccli__name_matches_shape arg opt hname
  constructor
  · obtain ⟨_, herr⟩ := ccli__match_arg_named_at cfg k arg none pre post opt hscope hname hfirst
    exact ccli__match_loop_step_error cfg cmds sub k _ arg [] _ hterm heq
      (herr _ (ccli__coerce_named_absent cfg opt hkind))
  · intro v rest hv
    obtain ⟨hok, herr⟩ := ccli__match_arg_named_at cfg k arg (some v) pre post opt hscope hname
      hfirst
    obtain ⟨c1, c2, c3, c4⟩ := ccli__coerce_named_option_shaped cfg opt v hv
    refine ⟨?_, ?_, ?_, ?_⟩
    · intro hk
      exact ccli__match_loop_step_error cfg cmds sub k _ arg (v :: rest) _ hterm heq
        (herr _ (c1 hk))
    · intro hk hp
      exact ccli__match_loop_step_error cfg cmds sub k _ arg (v :: rest) _ hterm heq
        (herr _ (c2 hk hp))
    · intro hk n hp
      rw [ccli__match_loop_step_ok cfg cmds sub k _ _ arg (v :: rest) true hterm heq
        (hok _ true (c3 hk n hp)), ccli__match_loop_skip]
    · intro hk
      exact ccli__match_loop_step_error cfg cmds sub k _ arg (v :: rest) _ hterm heq
        (herr _ (c4 hk))

/-- Instance of C18 on Scenario C: `[-t]` without a value. -/
theorem ccli__match_loop_missing_value_witness :
    ccli__match_loop ccli_default_config none none 1 false ([] ++ example_timeout 0 :: [])
        [['-', 't']]
      = .error (.missing_argument (example_timeout 0).long_arg,
          [] ++ { example_timeout 0 with matched := true } :: []) :=
  (ccli__match_loop_missing_value ccli_default_config none none 1 [] [] (example_timeout 0)
    ['-', 't'] (by decide) (by decide) (by decide) (by intro o ho; cases ho) (by decide)).1

/-- C18, as stated, fails for integer options followed by an option shaped token: `-t -5`
stores -5 in `timeout` and returns normally, and `-c -5` for the unsigned option `count` ends
with the invalid unsigned value exit, not the missing argument exit. -/
theorem ccli_parse_opts_negative_value :
    ccli__is_option ['-', '5'] = true
    ∧ ccli_parse_opts ccli_default_config none [example_timeout 0]
        [['p'], ['-', 't'], ['-', '5']]
      = .ok (none, [{ example_timeout 0 with matched := true, data := .number (-5) }])
    ∧ ccli_parse_opts ccli_default_config none [example_count]
        [['p'], ['-', 'c'], ['-', '5']]
      = .error (.invalid_unsigned (some ['c', 'o', 'u', 'n', 't']) ['-', '5'],
          [{ example_count with matched := true }]) := by
  decide

/-! ## Keys of the equals form -/

theorem ccli__parse_equals_unknown (cfg : ccli_config) (k : Nat) (options : List ccli_option)
    (key v : Str) (hkey : key ≠ []) (hnoeq : '=' ∉ key)
    (hnone : ∀ o ∈ options, ccli__in_scope o k = true → ccli__key_matches key o = false) :
    ccli__parse_equals cfg options (key ++ '=' :: v) k
      = .error (.unknown_argument key, options) := by
  obtain ⟨_, _, h3⟩ := ccli__parse_equals_split cfg options key v k hnoeq
  exact h3 options (ccli__equals_scan_none cfg k key v hkey options hnone)

/-- C19: the key `-type` is neither `-t` nor `--timeout`, and neither is `xt`, yet
`ccli__parse_equals` accepts `-type=5` and `xt=5` and stores 5 in `timeout`: the test of line
858 compares `opt_str[1]` with the short name without looking at `opt_str[0]` or at the length
of the key, which the match loop does through `ccli__short_opt_kind`. -/
theorem ccli__parse_equals_accepts_other_keys :
    ['-', 't', 'y', 'p', 'e'] ≠ ['-', (example_timeout 0).short_arg]
    ∧ some ['t', 'y', 'p', 'e'] ≠ (example_timeout 0).long_arg
    ∧ ccli__parse_equals ccli_default_config [example_timeout 0]
        ['-', 't', 'y', 'p', 'e', '=', '5'] 1
      = .ok [{ example_timeout 0 with matched := true, data := .number 5 }]
    ∧ ccli__parse_equals ccli_default_config [example_timeout 0] ['x', 't', '=', '5'] 1
      = .ok [{ example_timeout 0 with matched := true, data := .number 5 }]
    ∧ ccli_parse_opts ccli_default_config none [example_timeout 0]
        [['p'], ['-', 't', 'y', 'p', 'e', '=', '5']]
      = .ok (none, [{ example_timeout 0 with matched := true, data := .number 5 }])
    ∧ ccli_parse_opts ccli_default_config none [example_timeout 0]
        [['p'], ['-', 't', 'y', 'p', 'e'], ['5']]
      = .error (.multiple_short, [example_timeout 0]) := by
  decide

theorem ccli__equals_scan_boolean (cfg : ccli_config) (k : Nat) (key v : Str)
    (post : List ccli_option) (opt : ccli_option) (hkey : key ≠ [])
    (hscope : ccli__in_scope opt k = true) (hkind : opt.kind = .ccli_boolean)
    (hm : ccli__key_matches key opt = true) :
    ∀ (pre : List ccli_option),
      (∀ o ∈ pre, ccli__in_scope o k = true → ccli__key_matches key o = true →
        ∃ d, ccli__coerce_equals cfg o v = .ok d) →
      ccli__equals_scan cfg k key v (pre ++ opt :: post)
        = .error (.boolean_with_value opt.long_arg,
            pre.map (ccli_equals_written cfg k key v) ++ { opt with matched := true } :: post) := by
  have hlen : (key.length == 0) = false := by
    cases key with
    | nil => exact absurd rfl hkey
    | cons a as => simp
  intro pre
  induction pre with
  | nil =>
    intro _
    rw [List.nil_append, ccli__equals_scan]
    simp [hscope, hlen, hm, ccli__coerce_equals, hkind]
  | cons o os ih =>
    intro h
    have ih1 := ih (fun x hx => h x (List.mem_cons_of_mem _ hx))
    rw [List.cons_append]
    by_cases hs : ccli__in_scope o k = true
    · by_cases hk : ccli__key_matches key o = true
      · obtain ⟨d, hd⟩ := h o (List.mem_cons_self _ _) hs hk
        rw [ccli__equals_scan]
        simp [hs, hlen, hk, hd, ih1, ccli_equals_written]
      · have hk2 : ccli__key_matches key o = false := by simpa using hk
        rw [ccli__equals_scan_pass cfg k key v o _ hkey hk2, ih1]
        simp [ccli__prepend, ccli_equals_written, hs, hk2]
    · have hs2 : ccli__in_scope o k = false := by simpa using hs
      rw [ccli__equals_scan_out_of_scope cfg k key v o _ hs2, ih1]
      simp [ccli__prepend, ccli_equals_written, hs2]

/-- C20: an equals form `key=v`, `key` without `=`, where `key` is `--` and the long name, or
`-` and the short name, of a boolean descriptor in scope, and every descriptor in scope that
precedes it in the table and that the key also matches accepts `v` (in particular when the
key matches none before it): `ccli__parse_equals` ends with the exit of a boolean given a
value, whatever `v` is; the boolean descriptor is marked matched and its storage is as it
was. -/
theorem ccli__parse_equals_boolean (cfg : ccli_config) (k : Nat) (pre post : List ccli_option)
    (opt : ccli_option) (key v : Str)
    (hscope : ccli__in_scope opt k = true) (hkind : opt.kind = .ccli_boolean)
    (hkey : (∃ L, opt.long_arg = some L ∧ key = '-' :: '-' :: L) ∨ key = ['-', opt.short_arg])
    (hnoeq : '=' ∉ key)
    (hpre : ∀ o ∈ pre, ccli__in_scope o k = true → ccli__key_matches key o = true →
      ∃ d, ccli__coerce_equals cfg o v = .ok d) :
    ccli__parse_equals cfg (pre ++ opt :: post) (key ++ '=' :: v) k
      = .error (.boolean_with_value opt.long_arg,
          pre.map (ccli_equals_written cfg k key v) ++ { opt with matched := true } :: post)
    ∧ ((∀ o ∈ pre, ccli__in_scope o k = true → ccli__key_matches key o = false) →
        pre.map (ccli_equals_written cfg k key v) = pre) := by
  obtain ⟨hm, hne⟩ := ccli__key_matches_own opt key hkey
  obtain ⟨_, perr, _⟩ := ccli__parse_equals_split cfg (pre ++ opt :: post) key v k hnoeq
  refine ⟨perr _ (ccli__equals_scan_boolean cfg k key v post opt hne hscope hkind hm pre hpre),
    ?_⟩
  intro hfirst
  have hid : pre.map (ccli_equals_written cfg k key v) = pre.map id := by
    apply List.map_congr_left
    intro o ho
    by_cases hs : ccli__in_scope o k = true
    · simp [ccli_equals_written, hs, hfirst o ho hs]
    · simp [ccli_equals_written, hs]
  rw [hid, List.map_id]

/-- Instance of C20 on the option `nowrite` of `patc.c` under the command `apply`. -/
theorem ccli__parse_equals_boolean_witness :
    ccli__parse_equals ccli_default_config ([] ++ patc_nowrite :: [])
        (['-', '-', 'n', 'o', 'w', 'r', 'i', 't', 'e'] ++ '=' :: ['1']) 2
      = .error (.boolean_with_value patc_nowrite.long_arg,
          ([] : List ccli_option).map (ccli_equals_written ccli_default_config 2
              ['-', '-', 'n', 'o', 'w', 'r', 'i', 't', 'e'] ['1'])
            ++ { patc_nowrite with matched := true } :: []) :=
  (ccli__parse_equals_boolean ccli_default_config 2 [] [] patc_nowrite
    ['-', '-', 'n', 'o', 'w', 'r', 'i', 't', 'e'] ['1'] (by decide) rfl
    (Or.inl ⟨_, rfl, rfl⟩) (by decide) (by intro o ho; cases ho)).1

/-- C20, as stated, fails when a descriptor earlier in the table shares the short name of the
boolean and rejects the value: for `-t=abc` the search reaches the integer option `timeout`
before the boolean `trace` and ends with the invalid number exit. -/
theorem ccli__parse_equals_boolean_shared_short :
    ccli__in_scope example_trace 1 = true
    ∧ example_trace.kind = .ccli_boolean
    ∧ ['-', 't'] = ['-', example_trace.short_arg]
    ∧ ccli__parse_equals ccli_default_config [example_timeout 0, example_trace]
        (['-', 't'] ++ '=' :: ['a', 'b', 'c']) 1
      = .error (.invalid_number (some ['t', 'i', 'm', 'e', 'o', 'u', 't']) ['a', 'b', 'c'],
          [{ example_timeout 0 with matched := true }, example_trace]) := by
  decide

/-! ## `strtol` on the literal of a number -/

theorem c_digit_value_char (d : Nat) (h : d < 36) : c_digit_value (c_digit_char d) = some d := by
  interval_cases d <;> rfl

theorem c_digit_char_plain (d : Nat) (h : d < 36) :
    c_isspace (c_digit_char d) = false ∧ (c_digit_char d == '-') = false
    ∧ (c_digit_char d == '+') = false := by
  interval_cases d <;> decide

theorem c_digit_char_not_x (d : Nat) (h : d < 16) :
    (c_digit_char d == 'x') = false ∧ (c_digit_char d == 'X') = false := by
  interval_cases d <;> decide

theorem strtol_digits_map (base : Nat) (hb : base ≤ 36) (tail : Str) :
    ∀ (ds : List Nat) (acc cnt : Nat), (∀ d ∈ ds, d < base) →
      strtol_digits base (ds.map c_digit_char ++ tail) acc cnt
        = strtol_digits base tail (ds.foldl (fun a d => a * base + d) acc) (cnt + ds.length) := by
  intro ds
  induction ds with
  | nil => intro acc cnt _; rfl
  | cons d ds ih =>
    intro acc cnt h
    have hd : d < base := h d (List.mem_cons_self _ _)
    have hv := c_digit_value_char d (by omega)
    simp only [List.map_cons, List.cons_append, strtol_digits, hv, hd, if_true, List.foldl_cons,
      List.length_cons]
    rw [List.append_eq, ih _ _ (fun x hx => h x (List.mem_cons_of_mem _ hx))]
    congr 1
    omega

theorem c_digits_foldl (base n : Nat) :
    (Nat.digits base n).reverse.foldl (fun a d => a * base + d) 0 = n := by
  rw [List.foldl_reverse]
  have h : ∀ (L : List Nat), List.foldr (fun d a => a * base + d) 0 L = Nat.ofDigits base L := by
    intro L
    induction L with
    | nil => rfl
    | cons x xs ih =>
      simp only [List.foldr_cons, ih, Nat.ofDigits_cons]
      ring
  rw [h, Nat.ofDigits_digits]

theorem c_literal_digits (base n : Nat) (hb : 2 ≤ base) :
    ∃ ds : List Nat, c_literal base n = ds.map c_digit_char ∧ ds ≠ []
      ∧ (∀ d ∈ ds, d < base) ∧ ds.foldl (fun a d => a * base + d) 0 = n
      ∧ (n ≠ 0 → ds.head? ≠ some 0) := by
  by_cases hn : n = 0
  · refine ⟨[0], ?_, by simp, ?_, ?_, ?_⟩
    · simp only [c_literal, hn, if_true]
      rfl
    · intro d hd
      simp only [List.mem_singleton] at hd
      omega
    · simp [hn]
    · intro h; exact absurd hn h
  · refine ⟨(Nat.digits base n).reverse, ?_, ?_, ?_, c_digits_foldl base n, ?_⟩
    · simp [c_literal, hn]
    · simp [Nat.digits_ne_nil_iff_ne_zero, hn]
    · intro d hd
      exact Nat.digits_lt_base (by omega) (List.mem_reverse.mp hd)
    · intro _ h
      have hne : Nat.digits base n ≠ [] := by simp [Nat.digits_ne_nil_iff_ne_zero, hn]
      have hl := Nat.getLast_digit_ne_zero base hn
      rw [List.head?_reverse] at h
      rw [List.getLast?_eq_getLast _ hne] at h
      simp only [Option.some.injEq] at h
      exact hl h

theorem strtol_hex_prefix_digits (base : Nat) (hb : base ≤ 16) :
    ∀ (ds : List Nat), (∀ d ∈ ds, d < base) →
      strtol_hex_prefix base (ds.map c_digit_char) = 0 := by
  intro ds h
  match ds, h with
  | [], _ => rfl
  | [_], _ => rfl
  | [_, _], _ => rfl
  | a :: b :: c :: rest, h =>
    have hb2 : b < 16 := by
      have := h b (by simp)
      omega
    obtain ⟨h1, h2⟩ := c_digit_char_not_x b hb2
    simp [ strtol_hex_prefix, h1, h2]

theorem strtol_hex_prefix_any (base : Nat) (ds : List Nat)
    (h : ∀ d ∈ ds, d < base) (h16 : base = 16 ∨ base ≠ 16) :
    strtol_hex_prefix base (ds.map c_digit_char) = 0 := by
  rcases h16 with e | e
  · exact strtol_hex_prefix_digits base (by omega) ds h
  · exact strtol_hex_prefix_other base _ e

theorem strtol_plain (base : Nat) (hb : base ≤ 36) (ds : List Nat) (hne : ds ≠ [])
    (h : ∀ d ∈ ds, d < base) :
    strtol (ds.map c_digit_char) base =
      if ds.foldl (fun a d => a * base + d) 0 > 9223372036854775807 then
        ⟨LONG_MAX, ds.length, true⟩
      else ⟨((ds.foldl (fun a d => a * base + d) 0 : Nat) : Int), ds.length, false⟩ := by
  have hpre := strtol_hex_prefix_any base ds h (Decidable.em _)
  have hdig := strtol_digits_map base hb [] ds 0 0 h
  rw [List.append_nil] at hdig
  cases ds with
  | nil => exact absurd rfl hne
  | cons d ds =>
    have hd : d < 36 := by
      have := h d (List.mem_cons_self _ _)
      omega
    obtain ⟨p1, p2, p3⟩ := c_digit_char_plain d hd
    simp only [List.map_cons] at hpre hdig
    simp only [strtol, List.map_cons, List.takeWhile_cons, p1, Bool.false_eq_true, if_false,
      List.length_nil, List.drop_zero, strtol_sign, p2, p3, hpre, hdig]
    simp [strtol_digits]

theorem strtol_minus (base : Nat) (hb : base ≤ 36) (ds : List Nat) (hne : ds ≠ [])
    (h : ∀ d ∈ ds, d < base) :
    strtol ('-' :: ds.map c_digit_char) base =
      if ds.foldl (fun a d => a * base + d) 0 > 9223372036854775808 then
        ⟨LONG_MIN, 1 + ds.length, true⟩
      else ⟨-((ds.foldl (fun a d => a * base + d) 0 : Nat) : Int), 1 + ds.length, false⟩ := by
  have hpre := strtol_hex_prefix_any base ds h (Decidable.em _)
  have hdig := strtol_digits_map base hb [] ds 0 0 h
  rw [List.append_nil] at hdig
  have hs : c_isspace '-' = false := by decide
  cases ds with
  | nil => exact absurd rfl hne
  | cons d ds =>
    simp only [List.map_cons] at hpre hdig
    simp only [strtol, List.map_cons, List.takeWhile_cons, hs, Bool.false_eq_true, if_false,
      List.length_nil, List.drop_zero, strtol_sign, beq_self_eq_true, if_true,
      List.drop_succ_cons, hpre, hdig]
    simp [strtol_digits]

theorem strtol_zero_b (rest : Str) : strtol ('0' :: 'b' :: rest) 10 = ⟨0, 1, false⟩ := by
  have h1 : c_isspace '0' = false := by decide
  have h2 : c_digit_value '0' = some 0 := by decide
  have h3 : c_digit_value 'b' = some 11 := by decide
  have h4 := strtol_hex_prefix_other 10 ('0' :: 'b' :: rest) (by decide)
  simp [strtol, List.takeWhile, h1, strtol_sign, h4, strtol_digits, h2, h3]

theorem strtol_hex_literal (ds : List Nat) (hne : ds ≠ []) (h : ∀ d ∈ ds, d < 16) :
    strtol ('0' :: 'x' :: ds.map c_digit_char) 16 =
      if ds.foldl (fun a d => a * 16 + d) 0 > 9223372036854775807 then
        ⟨LONG_MAX, 2 + ds.length, true⟩
      else ⟨((ds.foldl (fun a d => a * 16 + d) 0 : Nat) : Int), 2 + ds.length, false⟩ := by
  have hdig := strtol_digits_map 16 (by decide) [] ds 0 0 h
  rw [List.append_nil] at hdig
  have hs : c_isspace '0' = false := by decide
  cases ds with
  | nil => exact absurd rfl hne
  | cons d ds =>
    have hd : d < 16 := h d (List.mem_cons_self _ _)
    have hv := c_digit_value_char d (by omega)
    have hpre : strtol_hex_prefix 16 ('0' :: 'x' :: (d :: ds).map c_digit_char) = 2 := by
      simp [ strtol_hex_prefix, c_is_digit, hv, hd]
    simp only [List.map_cons] at hpre hdig
    simp only [strtol, List.map_cons, List.takeWhile_cons, hs, Bool.false_eq_true, if_false,
      List.length_nil, List.drop_zero, strtol_sign, hpre, List.drop_succ_cons, hdig]
    simp [strtol_digits, hpre, hdig]

theorem c_digit_char_not_zero (d : Nat) (h : d < 36) (h0 : d ≠ 0) :
    (c_digit_char d != '0') = true := by
  interval_cases d <;> first | exact absurd rfl h0 | decide

theorem ccli__no_base_prefix_literal (n : Nat) (c : Char) (hn : n ≠ 0) :
    ccli__no_base_prefix (c_literal 10 n) c = true := by
  obtain ⟨ds, hl, hne, hlt, _, hhead⟩ := c_literal_digits 10 n (by decide)
  rw [hl]
  cases ds with
  | nil => exact absurd rfl hne
  | cons d ds =>
    have hd0 : d ≠ 0 := by
      intro e
      exact hhead hn (by simp [e])
    have hd : d < 36 := by
      have := hlt d (List.mem_cons_self _ _)
      omega
    simp [ ccli__no_base_prefix, c_digit_char_not_zero d hd hd0]

theorem ccli__no_base_prefix_minus (rest : Str) (c : Char) :
    ccli__no_base_prefix ('-' :: rest) c = true := by
  simp [ ccli__no_base_prefix]

/-- `ccli_try_parse_int` on the decimal literal of a natural number, for every setting of the
switches: the number when it is at most `2^63 - 1`, failure above. -/
theorem ccli_try_parse_int_decimal (cfg : ccli_config) (n : Nat) :
    ccli_try_parse_int cfg (c_literal 10 n)
      = if n ≤ 9223372036854775807 then some (n : Int) else none := by
  obtain ⟨ds, hl, hne, hlt, hval, _⟩ := c_literal_digits 10 n (by decide)
  have hs := strtol_plain 10 (by decide) ds hne hlt
  rw [hval, ← hl] at hs
  have hlen : (c_literal 10 n).length = ds.length := by rw [hl, List.length_map]
  have hpos : ds.length ≠ 0 := by
    intro e; exact hne (List.length_eq_zero.mp e)
  by_cases hn : n ≤ 9223372036854775807
  · have hgt : ¬ n > 9223372036854775807 := by omega
    rw [if_neg hgt] at hs
    have hf : ccli__int_failed_dec (c_literal 10 n) (strtol (c_literal 10 n) 10) = false := by
      simp [ccli__int_failed_dec, hs, hlen, hpos]
    rw [hs] at hf
    simp only [ccli_try_parse_int, hs, hf, if_pos hn]
    cases cfg.disallow_hex <;> cases cfg.disallow_bin <;> simp
  · have hgt : n > 9223372036854775807 := by omega
    rw [if_pos hgt] at hs
    have hn0 : n ≠ 0 := by omega
    have hf : ccli__int_failed_dec (c_literal 10 n) (strtol (c_literal 10 n) 10) = true := by
      simp [ccli__int_failed_dec, hs, hpos]
    rw [hs] at hf
    simp only [ccli_try_parse_int, hs, hf, if_neg hn, ccli__no_base_prefix_literal n _ hn0]
    cases cfg.disallow_hex <;> cases cfg.disallow_bin <;> simp

/-- `ccli_try_parse_int` on a minus sign and the decimal literal of a natural number: its
opposite when the number is at most `2^63`, failure above. -/
theorem ccli_try_parse_int_negative (cfg : ccli_config) (n : Nat) :
    ccli_try_parse_int cfg ('-' :: c_literal 10 n)
      = if n ≤ 9223372036854775808 then some (-(n : Int)) else none := by
  obtain ⟨ds, hl, hne, hlt, hval, _⟩ := c_literal_digits 10 n (by decide)
  have hs := strtol_minus 10 (by decide) ds hne hlt
  rw [hval, ← hl] at hs
  have hlen : (c_literal 10 n).length = ds.length := by rw [hl, List.length_map]
  by_cases hn : n ≤ 9223372036854775808
  · have hgt : ¬ n > 9223372036854775808 := by omega
    rw [if_neg hgt] at hs
    have hf : ccli__int_failed_dec ('-' :: c_literal 10 n) (strtol ('-' :: c_literal 10 n) 10)
        = false := by
      simp [ccli__int_failed_dec, hs, hlen]
      omega
    rw [hs] at hf
    simp only [ccli_try_parse_int, hs, hf, if_pos hn]
    cases cfg.disallow_hex <;> cases cfg.disallow_bin <;> simp
  · have hgt : n > 9223372036854775808 := by omega
    rw [if_pos hgt] at hs
    have hf : ccli__int_failed_dec ('-' :: c_literal 10 n) (strtol ('-' :: c_literal 10 n) 10)
        = true := by
      simp [ccli__int_failed_dec, hs]
    rw [hs] at hf
    simp only [ccli_try_parse_int, hs, hf, if_neg hn, ccli__no_base_prefix_minus]
    cases cfg.disallow_hex <;> cases cfg.disallow_bin <;> simp

theorem ccli__int_failed_alt_value (num : Str) (v len : Nat) (hlen : num.length = len)
    (hpos : len ≠ 0) :
    ccli__int_failed_alt num
        (if v > 9223372036854775807 then ⟨LONG_MAX, len, true⟩ else ⟨(v : Int), len, false⟩)
      = decide (¬ v < 9223372036854775807) := by
  by_cases h1 : v > 9223372036854775807
  · have h2 : ¬ v < 9223372036854775807 := by omega
    simp [ccli__int_failed_alt, h1, h2, hpos]
  · by_cases h2 : v < 9223372036854775807
    · have e1 : ¬ ((v : Int) = LONG_MAX) := by simp only [LONG_MAX]; omega
      have e2 : ¬ ((v : Int) = LONG_MIN) := by simp only [LONG_MIN]; omega
      simp [ccli__int_failed_alt, h1, h2, hpos, hlen, e1, e2]
    · have e1 : (v : Int) = LONG_MAX := by simp only [LONG_MAX]; omega
      simp [ccli__int_failed_alt, h1, h2, hpos, e1]

theorem strtol_value_alt (v len : Nat) (h : v < 9223372036854775807) :
    (if v > 9223372036854775807 then (⟨LONG_MAX, len, true⟩ : strtol_result)
      else ⟨(v : Int), len, false⟩).value = (v : Int) := by
  have h1 : ¬ v > 9223372036854775807 := by omega
  simp [h1]

/-- `ccli_try_parse_int` on `0x` and the hexadecimal literal of a natural number, hexadecimal
enabled: the number when it is below `2^63 - 1`, failure from `2^63 - 1` on. -/
theorem ccli_try_parse_int_hex (cfg : ccli_config) (hx : cfg.disallow_hex = false) (n : Nat) :
    ccli_try_parse_int cfg ('0' :: 'x' :: c_literal 16 n)
      = if n < 9223372036854775807 then some (n : Int) else none := by
  obtain ⟨ds, hl, hne, hlt, hval, _⟩ := c_literal_digits 16 n (by decide)
  have hs := strtol_hex_literal ds hne hlt
  rw [hval, ← hl] at hs
  have hpos : ds.length ≠ 0 := by
    intro e; exact hne (List.length_eq_zero.mp e)
  have hlen : ('0' :: 'x' :: c_literal 16 n).length = 2 + ds.length := by
    rw [hl]; simp; omega
  have hf0 : ccli__int_failed_dec ('0' :: 'x' :: c_literal 16 n) ⟨0, 1, false⟩ = true := by
    simp [ccli__int_failed_dec, hlen]
    omega
  have hpx : ccli__no_base_prefix ('0' :: 'x' :: c_literal 16 n) 'x' = false := by
    have h2 : ¬ ('0' :: 'x' :: c_literal 16 n).length ≤ 2 := by rw [hlen]; omega
    simp only [ ccli__no_base_prefix, h2]
    simp
  have hpb : ccli__no_base_prefix ('0' :: 'x' :: c_literal 16 n) 'b' = true := by
    simp [ ccli__no_base_prefix]
  have hfa := ccli__int_failed_alt_value ('0' :: 'x' :: c_literal 16 n) n (2 + ds.length) hlen
    (by omega)
  rw [← hs] at hfa
  by_cases hn : n < 9223372036854775807
  · have hv := strtol_value_alt n (2 + ds.length) hn
    rw [← hs] at hv
    simp only [ccli_try_parse_int, strtol_zero_x, hf0, hx, hpx, hfa, hv, hn, if_true]
    cases cfg.disallow_bin <;> simp
  · simp only [ccli_try_parse_int, strtol_zero_x, hf0, hx, hpx, hfa, hn, hpb, if_false]
    cases cfg.disallow_bin <;> simp

/-- `ccli_try_parse_int` on `0b` and the binary literal of a natural number, binary enabled:
the number when it is below `2^63 - 1`, failure from `2^63 - 1` on. -/
theorem ccli_try_parse_int_bin (cfg : ccli_config) (hb : cfg.disallow_bin = false) (n : Nat) :
    ccli_try_parse_int cfg ('0' :: 'b' :: c_literal 2 n)
      = if n < 9223372036854775807 then some (n : Int) else none := by
  obtain ⟨ds, hl, hne, hlt, hval, _⟩ := c_literal_digits 2 n (by decide)
  have hs := strtol_plain 2 (by decide) ds hne hlt
  rw [hval, ← hl] at hs
  have hpos : ds.length ≠ 0 := by
    intro e; exact hne (List.length_eq_zero.mp e)
  have hlen2 : (c_literal 2 n).length = ds.length := by rw [hl, List.length_map]
  have hlen : ('0' :: 'b' :: c_literal 2 n).length = 2 + ds.length := by
    rw [hl]; simp; omega
  have hf0 : ccli__int_failed_dec ('0' :: 'b' :: c_literal 2 n) ⟨0, 1, false⟩ = true := by
    simp [ccli__int_failed_dec, hlen]
    omega
  have hpx : ccli__no_base_prefix ('0' :: 'b' :: c_literal 2 n) 'x' = true := by
    simp [ ccli__no_base_prefix]
  have hpb : ccli__no_base_prefix ('0' :: 'b' :: c_literal 2 n) 'b' = false := by
    have h2 : ¬ ('0' :: 'b' :: c_literal 2 n).length ≤ 2 := by rw [hlen]; omega
    simp only [ ccli__no_base_prefix, h2]
    simp
  have hfa := ccli__int_failed_alt_value (c_literal 2 n) n ds.length hlen2 hpos
  rw [← hs] at hfa
  have hdrop : ('0' :: 'b' :: c_literal 2 n).drop 2 = c_literal 2 n := rfl
  by_cases hn : n < 9223372036854775807
  · have hv := strtol_value_alt n ds.length hn
    rw [← hs] at hv
    simp only [ccli_try_parse_int, strtol_zero_b, hf0, hb, hpx, hpb, hdrop, hfa, hv, hn]
    cases cfg.disallow_hex <;> simp
  · simp only [ccli_try_parse_int, strtol_zero_b, hf0, hb, hpx, hpb, hdrop, hfa, hn]
    cases cfg.disallow_hex <;> simp

theorem c_to_uint64_clamped (v len : Nat) (e : Bool) :
    c_to_uint64 (if v > 9223372036854775807 then (⟨LONG_MAX, len, e⟩ : strtol_result)
      else ⟨(v : Int), len, false⟩).value = min v 9223372036854775807 := by
  by_cases h : v > 9223372036854775807
  · have hm : min v 9223372036854775807 = 9223372036854775807 := by omega
    simp only [h, if_true, hm]
    decide
  · have hm : min v 9223372036854775807 = v := by omega
    simp only [h, if_false, hm, c_to_uint64]
    omega

theorem ccli__uint_failed_value (num : Str) (v len : Nat) (hlen : num.length = len)
    (hpos : len ≠ 0) :
    ccli__uint_failed_dec num
        (if v > 9223372036854775807 then ⟨LONG_MAX, len, true⟩ else ⟨(v : Int), len, false⟩)
      = false
    ∧ ccli__uint_failed_alt num
        (if v > 9223372036854775807 then ⟨LONG_MAX, len, true⟩ else ⟨(v : Int), len, false⟩)
      = false := by
  have hc := c_to_uint64_clamped v len true
  have hne : ¬ (min v 9223372036854775807 = UINT64_MAX) := by
    simp only [UINT64_MAX]; omega
  by_cases h : v > 9223372036854775807
  · simp only [h, if_true] at hc
    simp only [h, if_true, ccli__uint_failed_dec, ccli__uint_failed_alt, hc]
    simp [hpos, hlen, hne]
  · simp only [h, if_false] at hc
    simp only [h, if_false, ccli__uint_failed_dec, ccli__uint_failed_alt, hc]
    simp [hpos, hlen, hne]

/-- `ccli_try_parse_uint` on the decimal literal of a natural number, for every setting of
the switches: it always succeeds, with the number when it is at most `2^63 - 1` and with
`2^63 - 1` above. -/
theorem ccli_try_parse_uint_decimal (cfg : ccli_config) (n : Nat) :
    ccli_try_parse_uint cfg (c_literal 10 n) = some (min n 9223372036854775807) := by
  obtain ⟨ds, hl, hne, hlt, hval, _⟩ := c_literal_digits 10 n (by decide)
  have hs := strtol_plain 10 (by decide) ds hne hlt
  rw [hval, ← hl] at hs
  have hlen : (c_literal 10 n).length = ds.length := by rw [hl, List.length_map]
  have hpos : ds.length ≠ 0 := by
    intro e; exact hne (List.length_eq_zero.mp e)
  obtain ⟨hf, _⟩ := ccli__uint_failed_value (c_literal 10 n) n ds.length hlen hpos
  have hc := c_to_uint64_clamped n ds.length true
  rw [← hs] at hf hc
  simp only [ccli_try_parse_uint, hf, hc]
  cases cfg.disallow_hex <;> cases cfg.disallow_bin <;> simp

/-- `ccli_try_parse_uint` on `0x` and the hexadecimal literal of a natural number,
hexadecimal enabled: it always succeeds, with the number when it is at most `2^63 - 1` and
with `2^63 - 1` above. -/
theorem ccli_try_parse_uint_hex (cfg : ccli_config) (hx : cfg.disallow_hex = false) (n : Nat) :
    ccli_try_parse_uint cfg ('0' :: 'x' :: c_literal 16 n)
      = some (min n 9223372036854775807) := by
  obtain ⟨ds, hl, hne, hlt, hval, _⟩ := c_literal_digits 16 n (by decide)
  have hs := strtol_hex_literal ds hne hlt
  rw [hval, ← hl] at hs
  have hlen : ('0' :: 'x' :: c_literal 16 n).length = 2 + ds.length := by
    rw [hl]; simp; omega
  have hf0 : ccli__uint_failed_dec ('0' :: 'x' :: c_literal 16 n) ⟨0, 1, false⟩ = true := by
    have h2 : 1 < ('0' :: 'x' :: c_literal 16 n).length := by rw [hlen]; omega
    simp [ccli__uint_failed_dec, h2]
  have hpx : ccli__no_base_prefix ('0' :: 'x' :: c_literal 16 n) 'x' = false := by
    have h2 : ¬ ('0' :: 'x' :: c_literal 16 n).length ≤ 2 := by
      have hpos : ds.length ≠ 0 := by
        intro e; exact hne (List.length_eq_zero.mp e)
      rw [hlen]; omega
    simp only [ ccli__no_base_prefix, h2]
    simp
  obtain ⟨_, hfa⟩ := ccli__uint_failed_value ('0' :: 'x' :: c_literal 16 n) n (2 + ds.length)
    hlen (by omega)
  have hc := c_to_uint64_clamped n (2 + ds.length) true
  rw [← hs] at hfa hc
  simp only [ccli_try_parse_uint, strtol_zero_x, hf0, hx, hpx, hfa, hc]
  cases cfg.disallow_bin <;> simp

/-- `ccli_try_parse_uint` on a minus sign and the decimal literal of a natural number, for
every setting of the switches: it always succeeds, with the opposite of the number converted
to `uint64_t` (`2^64 - n` for `1 ≤ n ≤ 2^63`). -/
theorem ccli_try_parse_uint_negative (cfg : ccli_config) (n : Nat) :
    ccli_try_parse_uint cfg ('-' :: c_literal 10 n)
      = some (c_to_uint64 (-((min n 9223372036854775808 : Nat) : Int))) := by
  obtain ⟨ds, hl, hne, hlt, hval, _⟩ := c_literal_digits 10 n (by decide)
  have hs := strtol_minus 10 (by decide) ds hne hlt
  rw [hval, ← hl] at hs
  have hlen : ('-' :: c_literal 10 n).length = 1 + ds.length := by
    rw [hl]; simp; omega
  by_cases hn : n > 9223372036854775808
  · have hm : min n 9223372036854775808 = 9223372036854775808 := by omega
    rw [if_pos hn] at hs
    have hv : c_to_uint64 LONG_MIN = 9223372036854775808 := by decide
    have hf : ccli__uint_failed_dec ('-' :: c_literal 10 n)
        ⟨LONG_MIN, 1 + ds.length, true⟩ = false := by
      simp [ccli__uint_failed_dec, hv, hlen, UINT64_MAX]
    have hv2 : c_to_uint64 (-((9223372036854775808 : Nat) : Int)) = 9223372036854775808 := by
      decide
    simp only [ccli_try_parse_uint, hs, hf, hm, hv, hv2]
    cases cfg.disallow_hex <;> cases cfg.disallow_bin <;> simp
  · have hm : min n 9223372036854775808 = n := by omega
    rw [if_neg hn] at hs
    have hf : ccli__uint_failed_dec ('-' :: c_literal 10 n)
        ⟨-(n : Int), 1 + ds.length, false⟩ = false := by
      simp [ccli__uint_failed_dec, hlen]
    simp only [ccli_try_parse_uint, hs, hf, hm]
    cases cfg.disallow_hex <;> cases cfg.disallow_bin <;> simp

/-! ## Tokens that no descriptor accepts -/

theorem ccli__match_arg_unaccepted (cfg : ccli_config) (k : Nat) (arg : Str)
    (next : Option Str)
    (hb : (!ccli__is_long_opt arg && ccli__short_opt_kind arg == .ccli_short_multiple) = false) :
    ∀ (options : List ccli_option),
      (∀ o ∈ options, ccli__in_scope o k = true →
        (ccli__is_positional arg && o.positional && !o.matched) = false
        ∧ ccli__name_matches arg o = false) →
      ccli__match_arg cfg k arg next options = .ok (options, false, false) := by
  intro options
  induction options with
  | nil => intro _; rfl
  | cons o os ih =>
    intro h
    have ih1 := ih (fun x hx => h x (List.mem_cons_of_mem _ hx))
    by_cases hs : ccli__in_scope o k = true
    · obtain ⟨hp, hn⟩ := h o (List.mem_cons_self _ _) hs
      rw [ccli__match_arg_pass cfg k arg next o os hp hn hb, ih1]
      rfl
    · rw [ccli__match_arg_out_of_scope cfg k arg next o os (by simpa using hs), ih1]
      rfl

/-- C21: a token that is not a terminator, has no `=` and is not a bundled short form, and
that no descriptor in scope accepts (for a positional shaped token: none is positional and
unmatched; for an option shaped token: none is named by it) ends the match loop: with the
exit "Excess positional argument" when the token is positional shaped, with the exit "Unknown
argument" otherwise, the table being left as it stood. When the token is `argv[1]`, is not
the name of a command and no help request precedes a terminator, this is the outcome of
`ccli_parse_opts`. -/
theorem ccli__match_loop_unaccepted (cfg : ccli_config) (cmds : Option (List ccli_command))
    (sub : Option Str) (k : Nat) (options : List ccli_option) (arg : Str) (rest : List Str)
    (ht : ccli__is_terminator arg = false) (he : ccli_strcontains (some arg) '=' = false)
    (hb : (!ccli__is_long_opt arg && ccli__short_opt_kind arg == .ccli_short_multiple) = false)
    (hnone : ∀ o ∈ options, ccli__in_scope o k = true →
      (ccli__is_positional arg && o.positional && !o.matched) = false
      ∧ ccli__name_matches arg o = false) :
    ccli__match_loop cfg cmds sub k false options (arg :: rest)
      = .error (if ccli__is_positional arg then .excess_positional arg
          else .unknown_argument arg, options)
    ∧ (k = 1 → ∀ (prog : Str), ccli__validate_options options = .ok () →
        (∀ l, cmds = some l → l ≠ [] ∧ ∀ c ∈ l, c.command ≠ arg) →
        ccli__find_help_from (arg :: rest) = false →
        ccli_parse_opts cfg cmds options (prog :: arg :: rest)
          = .error (if ccli__is_positional arg then .excess_positional arg
              else .unknown_argument arg, options)) := by
  have hloop : ∀ (s : Option Str), ccli__match_loop cfg cmds s k false options (arg :: rest)
      = .error (if ccli__is_positional arg then .excess_positional arg
          else .unknown_argument arg, options) := by
    intro s
    rw [ccli__match_loop_step_unmatched cfg cmds s k options options arg rest false ht he
      (ccli__match_arg_unaccepted cfg k arg rest.head? hb options hnone)]
    cases ccli__is_positional arg <;> rfl
  refine ⟨hloop sub, ?_⟩
  intro hk prog hvalid hcmd hhelp
  subst hk
  have hrun : ccli__run_command cmds (prog :: arg :: rest) = .ok 1 := by
    apply ccli__run_command_no_command
    intro l hl
    obtain ⟨hne, hall⟩ := hcmd l hl
    refine ⟨hne, ?_⟩
    intro c hc e
    simp only [List.head?_cons, Option.some.injEq] at e
    exact hall c hc e.symm
  exact ccli_parse_opts_no_command_error cfg cmds options prog (arg :: rest) _ hvalid hrun hhelp
    (hloop none)

set_option maxRecDepth 100000 in
/-- Instance of C21 on the tables of `patc.c`: `--force` is no option of `patc`, and after
`a.txt` has filled the only positional option a second file is in excess. -/
theorem ccli__match_loop_unaccepted_witness :
    ccli_parse_opts ccli_default_config (some patc_commands) patc_options
        [['p'], ['-', '-', 'f', 'o', 'r', 'c', 'e'], ['a', '.', 't', 'x', 't']]
      = .error (.unknown_argument ['-', '-', 'f', 'o', 'r', 'c', 'e'], patc_options)
    ∧ ccli__match_loop ccli_default_config (some patc_commands) none 1 false
        [{ patc_patch_file with matched := true, data := .string ['a', '.', 't', 'x', 't'] },
          patc_nowrite] [['b', '.', 't', 'x', 't']]
      = .error (.excess_positional ['b', '.', 't', 'x', 't'],
          [{ patc_patch_file with matched := true, data := .string ['a', '.', 't', 'x', 't'] },
            patc_nowrite]) :=
  ⟨((ccli__match_loop_unaccepted ccli_default_config (some patc_commands) none 1 patc_options
      ['-', '-', 'f', 'o', 'r', 'c', 'e'] [['a', '.', 't', 'x', 't']] (by decide) (by decide)
      (by decide) (by decide)).2 rfl ['p'] (by decide) (by intro l hl; cases hl; decide)
      (by decide)).trans (by decide),
   ((ccli__match_loop_unaccepted ccli_default_config (some patc_commands) none 1
      [{ patc_patch_file with matched := true, data := .string ['a', '.', 't', 'x', 't'] },
        patc_nowrite] ['b', '.', 't', 'x', 't'] [] (by decide) (by decide)
      (by decide) (by decide)).1).trans (by decide)⟩

/-! ## Bundled short options -/

theorem ccli__bundled_shape (arg : Str) (hl : ccli__is_long_opt arg = false)
    (hm : ccli__short_opt_kind arg = .ccli_short_multiple) :
    ccli__is_terminator arg = false ∧ ccli__is_positional arg = false
    ∧ (∀ o, ccli__name_matches arg o = false)
    ∧ (!ccli__is_long_opt arg && ccli__short_opt_kind arg == .ccli_short_multiple) = true := by
  refine ⟨?_, ?_, ?_, ?_⟩
  · cases ht : ccli__is_terminator arg with
    | false => rfl
    | true =>
      exfalso
      simp only [ccli__is_terminator, ccli_streq_some, Bool.or_eq_true, decide_eq_true_eq] at ht
      rcases ht with e | e <;> (rw [e] at hm; revert hm; decide)
  · simp [ccli__is_positional, hl, hm]
  · intro o
    simp [ccli__name_matches, hl, hm]
  · simp [hl, hm]

theorem ccli__match_arg_bundled (cfg : ccli_config) (k : Nat) (arg : Str) (next : Option Str)
    (hl : ccli__is_long_opt arg = false)
    (hm : ccli__short_opt_kind arg = .ccli_short_multiple) :
    ∀ (options : List ccli_option), (∃ o ∈ options, ccli__in_scope o k = true) →
      ccli__match_arg cfg k arg next options = .error (.multiple_short, options) := by
  obtain ⟨_, hpos, hname, hb⟩ := ccli__bundled_shape arg hl hm
  intro options
  induction options with
  | nil =>
    intro h
    obtain ⟨o, ho, _⟩ := h
    cases ho
  | cons o os ih =>
    intro h
    by_cases hs : ccli__in_scope o k = true
    · rw [ccli__match_arg]
      simp [hs, hpos, hname o, hl, hm]
    · have hex : ∃ x ∈ os, ccli__in_scope x k = true := by
        obtain ⟨x, hx, hxs⟩ := h
        rcases List.mem_cons.mp hx with e | hx1
        · rw [e] at hxs; exact absurd hxs hs
        · exact ⟨x, hx1, hxs⟩
      rw [ccli__match_arg_out_of_scope cfg k arg next o os (by simpa using hs), ih hex]
      rfl

theorem ccli__match_arg_none_in_scope (cfg : ccli_config) (k : Nat) (arg : Str)
    (next : Option Str) :
    ∀ (options : List ccli_option), (∀ o ∈ options, ccli__in_scope o k = false) →
      ccli__match_arg cfg k arg next options = .ok (options, false, false) := by
  intro options
  induction options with
  | nil => intro _; rfl
  | cons o os ih =>
    intro h
    rw [ccli__match_arg_out_of_scope cfg k arg next o os (h o (List.mem_cons_self _ _)),
      ih (fun x hx => h x (List.mem_cons_of_mem _ hx))]
    rfl

/-- C22: a bundled short form (one dash, then two or more characters, not a long
option) without `=`, met by the match loop while the table holds a descriptor in scope, ends
the call with the exit "Multiple shorthand options at once are not yet supported", whatever the
descriptors are; the table is left as it stood, so the token is matched to no descriptor.
When the token is `argv[1]`, is not the name of a command and no help request precedes a
terminator, this is the outcome of `ccli_parse_opts`. -/
theorem ccli__match_loop_bundled (cfg : ccli_config) (cmds : Option (List ccli_command))
    (sub : Option Str) (k : Nat) (options : List ccli_option) (arg : Str) (rest : List Str)
    (hl : ccli__is_long_opt arg = false)
    (hm : ccli__short_opt_kind arg = .ccli_short_multiple)
    (he : ccli_strcontains (some arg) '=' = false)
    (hex : ∃ o ∈ options, ccli__in_scope o k = true) :
    ccli__match_loop cfg cmds sub k false options (arg :: rest)
      = .error (.multiple_short, options)
    ∧ (k = 1 → ∀ (prog : Str), ccli__validate_options options = .ok () →
        (∀ l, cmds = some l → l ≠ [] ∧ ∀ c ∈ l, c.command ≠ arg) →
        ccli__find_help_from (arg :: rest) = false →
        ccli_parse_opts cfg cmds options (prog :: arg :: rest)
          = .error (.multiple_short, options)) := by
  obtain ⟨ht, _, _, _⟩ := ccli__bundled_shape arg hl hm
  have hloop : ∀ (s : Option Str), ccli__match_loop cfg cmds s k false options (arg :: rest)
      = .error (.multiple_short, options) := fun s =>
    ccli__match_loop_step_error cfg cmds s k options arg rest _ ht he
      (ccli__match_arg_bundled cfg k arg rest.head? hl hm options hex)
  refine ⟨hloop sub, ?_⟩
  intro hk prog hvalid hcmd hhelp
  subst hk
  have hrun : ccli__run_command cmds (prog :: arg :: rest) = .ok 1 := by
    apply ccli__run_command_no_command
    intro l hl1
    obtain ⟨hne, hall⟩ := hcmd l hl1
    refine ⟨hne, ?_⟩
    intro c hc e
    simp only [List.head?_cons, Option.some.injEq] at e
    exact hall c hc e.symm
  exact ccli_parse_opts_no_command_error cfg cmds options prog (arg :: rest) _ hvalid hrun hhelp
    (hloop none)

set_option maxRecDepth 100000 in
/-- Instance of C22 on the tables of `patc.c`: `[prog, -ab]`. -/
theorem ccli__match_loop_bundled_witness :
    ccli_parse_opts ccli_default_config (some patc_commands) patc_options
        [['p'], ['-', 'a', 'b']]
      = .error (.multiple_short, patc_options) :=
  (ccli__match_loop_bundled ccli_default_config (some patc_commands) none 1 patc_options
    ['-', 'a', 'b'] [] (by decide) (by decide) (by decide)
    ⟨patc_patch_file, by decide, by decide⟩).2 rfl ['p'] (by decide)
    (by intro l hl; cases hl; decide) (by decide)

set_option maxRecDepth 100000 in
/-- C22, as stated, fails for a bundled short form with `=`: a token with `=` is handed to
`ccli__parse_equals` before the search that knows bundled forms, so `-ab=5` ends with "Unknown
argument" on the key `-ab`, and `-tx=5` is matched to `timeout`, whose short name is the
second character of the key, and stores 5. Without `=`, the bundled form `-12` after `-t` is
taken as the value of `timeout`, and `-ab` ends with "Unknown argument" when the table holds
no descriptor in scope, the test for bundled forms standing inside the search. -/
theorem ccli_parse_opts_bundled_equals :
    ccli__is_long_opt ['-', 'a', 'b', '=', '5'] = false
    ∧ ccli__short_opt_kind ['-', 'a', 'b', '=', '5'] = .ccli_short_multiple
    ∧ ccli_parse_opts ccli_default_config none [example_timeout 0]
        [['p'], ['-', 'a', 'b', '=', '5']]
      = .error (.unknown_argument ['-', 'a', 'b'], [example_timeout 0])
    ∧ ccli_parse_opts ccli_default_config none [example_timeout 0]
        [['p'], ['-', 't', 'x', '=', '5']]
      = .ok (none, [{ example_timeout 0 with matched := true, data := .number 5 }])
    ∧ ccli_parse_opts ccli_default_config none [example_timeout 0]
        [['p'], ['-', 't'], ['-', '1', '2']]
      = .ok (none, [{ example_timeout 0 with matched := true, data := .number (-12) }])
    ∧ ccli_parse_opts ccli_default_config none [patc_nowrite] [['p'], ['-', 'a', 'b']]
      = .error (.unknown_argument ['-', 'a', 'b'], [patc_nowrite]) := by
  decide
/-! ## The help request -/

theorem ccli__prepend_exit {β : Type} (P : ccli_exit → Prop) (o : ccli_option)
    (r : ccli_result (List ccli_option × β))
    (h : ∀ e t, r = .error (e, t) → P e) :
    ∀ e t, ccli__prepend o r = .error (e, t) → P e := by
  intro e t he
  obtain ⟨t2, h2, _⟩ := ccli__prepend_eq_error o r t e he
  exact h e t2 h2

theorem ccli__coerce_positional_no_help (cfg : ccli_config) (opt : ccli_option) (arg : Str)
    (e : ccli_exit) (h : ccli__coerce_positional cfg opt arg = .error e) :
    e ≠ .help_shown := by
  intro he
  subst he
  unfold ccli__coerce_positional at h
  split at h
  · simp at h
  · split at h <;> simp at h
  · split at h <;> simp at h
  · split at h <;> simp at h

theorem ccli__coerce_equals_no_help (cfg : ccli_config) (opt : ccli_option) (arg : Str)
    (e : ccli_exit) (h : ccli__coerce_equals cfg opt arg = .error e) :
    e ≠ .help_shown := by
  intro he
  subst he
  unfold ccli__coerce_equals at h
  split at h
  · simp at h
  · simp at h
  · split at h <;> simp at h
  · split at h <;> simp at h

theorem ccli__coerce_named_no_help (cfg : ccli_config) (opt : ccli_option)
    (next : Option Str) (e : ccli_exit) (h : ccli__coerce_named cfg opt next = .error e) :
    e ≠ .help_shown := by
  intro he
  subst he
  unfold ccli__coerce_named at h
  split at h
  · simp at h
  · split at h
    · simp at h
    · split at h
      · split at h
        · split at h <;> simp at h
        · split at h <;> simp at h
      · split at h
        · simp at h
        · split at h <;> simp at h
        · split at h <;> simp at h
        · split at h <;> simp at h

theorem ccli__match_arg_no_help (cfg : ccli_config) (k : Nat) (arg : Str) (next : Option Str) :
    ∀ (options : List ccli_option) (e : ccli_exit) (t : List ccli_option),
      ccli__match_arg cfg k arg next options = .error (e, t) → e ≠ .help_shown := by
  intro options
  induction options with
  | nil =>
    intro e t h
    simp [ccli__match_arg] at h
  | cons o os ih =>
    intro e t h
    rw [ccli__match_arg] at h
    split at h
    · exact ccli__prepend_exit _ o _ ih e t h
    · split at h
      · cases hc : ccli__coerce_positional cfg o arg with
        | ok d => rw [hc] at h; simp at h
        | error x =>
          rw [hc] at h
          simp only [Except.error.injEq, Prod.mk.injEq] at h
          rw [← h.1]
          exact ccli__coerce_positional_no_help cfg o arg x hc
      · split at h
        · cases hc : ccli__coerce_named cfg o next with
          | ok d => rw [hc] at h; simp at h
          | error x =>
            rw [hc] at h
            simp only [Except.error.injEq, Prod.mk.injEq] at h
            rw [← h.1]
            exact ccli__coerce_named_no_help cfg o next x hc
        · split at h
          · simp only [Except.error.injEq, Prod.mk.injEq] at h
            rw [← h.1]
            simp
          · exact ccli__prepend_exit _ o _ ih e t h

theorem ccli__equals_scan_no_help (cfg : ccli_config) (k : Nat) (key v : Str) :
    ∀ (options : List ccli_option) (e : ccli_exit) (t : List ccli_option),
      ccli__equals_scan cfg k key v options = .error (e, t) → e ≠ .help_shown := by
  intro options
  induction options with
  | nil =>
    intro e t h
    simp [ccli__equals_scan] at h
  | cons o os ih =>
    intro e t h
    rw [ccli__equals_scan] at h
    split at h
    · exact ccli__prepend_exit _ o _ ih e t h
    · split at h
      · simp only [Except.error.injEq, Prod.mk.injEq] at h
        rw [← h.1]
        simp
      · split at h
        · cases hc : ccli__coerce_equals cfg o v with
          | error x =>
            rw [hc] at h
            simp only [Except.error.injEq, Prod.mk.injEq] at h
            rw [← h.1]
            exact ccli__coerce_equals_no_help cfg o v x hc
          | ok d =>
            rw [hc] at h
            cases hr : ccli__equals_scan cfg k key v os with
            | ok r => rw [hr] at h; simp at h
            | error r =>
              obtain ⟨e2, t2⟩ := r
              rw [hr] at h
              simp only [Except.error.injEq, Prod.mk.injEq] at h
              rw [← h.1]
              exact ih e2 t2 hr
        · exact ccli__prepend_exit _ o _ ih e t h

theorem ccli__parse_equals_no_help (cfg : ccli_config) (options : List ccli_option)
    (arg : Str) (k : Nat) (e : ccli_exit) (t : List ccli_option)
    (h : ccli__parse_equals cfg options arg k = .error (e, t)) : e ≠ .help_shown := by
  unfold ccli__parse_equals at h
  split at h
  · simp only [Except.error.injEq, Prod.mk.injEq] at h
    rw [← h.1]
    simp
  · split at h
    · rename_i x hx
      obtain ⟨e2, t2⟩ := x
      simp only [Except.error.injEq, Prod.mk.injEq] at h
      rw [← h.1]
      exact ccli__equals_scan_no_help cfg k _ _ options e2 t2 hx
    · split at h
      · simp only [Except.error.injEq, Prod.mk.injEq] at h
        rw [← h.1]
        simp
      · simp at h

theorem ccli__fill_positionals_no_help (cfg : ccli_config) (arg : Str) :
    ∀ (options : List ccli_option) (e : ccli_exit) (t : List ccli_option),
      ccli__fill_positionals cfg arg options = .error (e, t) → e ≠ .help_shown := by
  intro options
  induction options with
  | nil =>
    intro e t h
    simp [ccli__fill_positionals] at h
  | cons o os ih =>
    intro e t h
    rw [ccli__fill_positionals] at h
    split at h
    · cases hc : ccli__coerce_positional cfg o arg with
      | error x =>
        rw [hc] at h
        simp only [Except.error.injEq, Prod.mk.injEq] at h
        rw [← h.1]
        exact ccli__coerce_positional_no_help cfg o arg x hc
      | ok d =>
        rw [hc] at h
        exact ccli__prepend_exit _ _ _ ih e t h
    · exact ccli__prepend_exit _ o _ ih e t h

theorem ccli__remaining_loop_no_help (cfg : ccli_config) :
    ∀ (toks : List Str) (options : List ccli_option) (e : ccli_exit) (t : List ccli_option),
      ccli__remaining_loop cfg options toks = .error (e, t) → e ≠ .help_shown := by
  intro toks
  induction toks with
  | nil =>
    intro options e t h
    simp [ccli__remaining_loop] at h
  | cons a as ih =>
    intro options e t h
    rw [ccli__remaining_loop] at h
    split at h
    · exact ih options e t h
    · cases hf : ccli__fill_positionals cfg a options with
      | error x =>
        obtain ⟨e2, t2⟩ := x
        rw [hf] at h
        simp only [Except.error.injEq, Prod.mk.injEq] at h
        rw [← h.1]
        exact ccli__fill_positionals_no_help cfg a options e2 t2 hf
      | ok r =>
        obtain ⟨o1, u⟩ := r
        rw [hf] at h
        exact ih o1 e t h

theorem ccli__parse_remaining_positionals_no_help (cfg : ccli_config)
    (options : List ccli_option) (cmds : Option (List ccli_command)) (sub : Option Str)
    (toks : List Str) (e : ccli_exit) (t : List ccli_option)
    (h : ccli__parse_remaining_positionals cfg options cmds sub toks = .error (e, t)) :
    e ≠ .help_shown := by
  unfold ccli__parse_remaining_positionals at h
  split at h
  · simp only [Except.error.injEq, Prod.mk.injEq] at h
    rw [← h.1]
    simp
  · split at h
    · simp only [Except.error.injEq, Prod.mk.injEq] at h
      rw [← h.1]
      simp
    · exact ccli__remaining_loop_no_help cfg toks options e t h

theorem ccli__check_unmatched_no_help (k : Nat) (options : List ccli_option) (e : ccli_exit)
    (t : List ccli_option) (h : ccli__check_unmatched k options = .error (e, t)) :
    e ≠ .help_shown := by
  unfold ccli__check_unmatched at h
  split at h
  · simp only [Except.error.injEq, Prod.mk.injEq] at h
    rw [← h.1]
    simp
  · simp at h

theorem ccli__match_loop_no_help (cfg : ccli_config) (cmds : Option (List ccli_command))
    (sub : Option Str) (k : Nat) :
    ∀ (toks : List Str) (skip : Bool) (options : List ccli_option) (e : ccli_exit)
      (t : List ccli_option),
      ccli__match_loop cfg cmds sub k skip options toks = .error (e, t) → e ≠ .help_shown := by
  intro toks
  induction toks with
  | nil =>
    intro skip options e t h
    rw [ccli__match_loop_end] at h
    exact ccli__check_unmatched_no_help k options e t h
  | cons a as ih =>
    intro skip options e t h
    cases skip with
    | true =>
      rw [ccli__match_loop_skip] at h
      exact ih false options e t h
    | false =>
      rw [ccli__match_loop] at h
      split at h
      · cases hp : ccli__parse_remaining_positionals cfg options cmds sub (a :: as) with
        | error x =>
          obtain ⟨e2, t2⟩ := x
          rw [hp] at h
          simp only [Except.error.injEq, Prod.mk.injEq] at h
          rw [← h.1]
          exact ccli__parse_remaining_positionals_no_help cfg options cmds sub _ e2 t2 hp
        | ok o1 =>
          rw [hp] at h
          exact ccli__check_unmatched_no_help k o1 e t h
      · split at h
        · cases hp : ccli__parse_equals cfg options a k with
          | error x =>
            obtain ⟨e2, t2⟩ := x
            rw [hp] at h
            simp only [Except.error.injEq, Prod.mk.injEq] at h
            rw [← h.1]
            exact ccli__parse_equals_no_help cfg options a k e2 t2 hp
          | ok o1 =>
            rw [hp] at h
            exact ih false o1 e t h
        · cases hp : ccli__match_arg cfg k a as.head? options with
          | error x =>
            obtain ⟨e2, t2⟩ := x
            rw [hp] at h
            simp only [Except.error.injEq, Prod.mk.injEq] at h
            rw [← h.1]
            exact ccli__match_arg_no_help cfg k a _ options e2 t2 hp
          | ok r =>
            obtain ⟨o1, m, c⟩ := r
            rw [hp] at h
            dsimp only at h
            split at h
            · split at h <;>
                (simp only [Except.error.injEq, Prod.mk.injEq] at h; rw [← h.1]; simp)
            · exact ih c o1 e t h
theorem ccli__find_help_from_iff :
    ∀ (toks : List Str), ccli__find_help_from toks = true ↔
      ∃ i, i < toks.length
        ∧ (toks.getD i [] = ['-', '-', 'h', 'e', 'l', 'p'] ∨ toks.getD i [] = ['-', 'h'])
        ∧ ∀ j, j < i → ccli__is_terminator (toks.getD j []) = false := by
  intro toks
  induction toks with
  | nil => simp [ccli__find_help_from]
  | cons t ts ih =>
    constructor
    · intro h
      rw [ccli__find_help_from] at h
      split at h
      · simp at h
      · rename_i hterm
        split at h
        · rename_i hhelp
          refine ⟨0, by simp, ?_, by intro j hj; omega⟩
          simpa [ccli_streq_some] using hhelp
        · obtain ⟨i, hi, hh, hj⟩ := ih.mp h
          refine ⟨i + 1, by simpa using hi, by simpa using hh, ?_⟩
          intro j hlt
          cases j with
          | zero => simpa using hterm
          | succ j => simpa using hj j (by omega)
    · intro h
      obtain ⟨i, hi, hh, hj⟩ := h
      cases i with
      | zero =>
        simp only [List.getD_cons_zero] at hh
        rcases hh with e | e <;> (subst e; simp [ccli__find_help_from, ccli__is_terminator,
          ccli_streq])
      | succ i =>
        have hterm : ccli__is_terminator t = false := by simpa using hj 0 (by omega)
        rw [ccli__find_help_from]
        simp only [hterm, Bool.false_eq_true, if_false]
        split
        · rfl
        · apply ih.mpr
          refine ⟨i, by simpa using hi, by simpa using hh, ?_⟩
          intro j hlt
          simpa using hj (j + 1) (by omega)

theorem ccli__is_terminator_false (t : Str) :
    ccli__is_terminator t = false ↔ t ≠ ['-'] ∧ t ≠ ['-', '-'] := by
  simp [ccli__is_terminator, ccli_streq_some, and_comm]

theorem ccli__find_help_iff (argv : List Str) :
    ccli__find_help argv = true ↔ ccli_help_requested argv := by
  cases argv with
  | nil => simp [ccli__find_help, ccli__find_help_from, ccli_help_requested]
  | cons p toks =>
    rw [ccli__find_help, List.drop_one, List.tail_cons, ccli__find_help_from_iff]
    constructor
    · intro h
      obtain ⟨i, hi, hh, hj⟩ := h
      refine ⟨i + 1, by simpa using hi, by omega, by simpa using hh, ?_⟩
      intro j hlt h1
      obtain ⟨j1, rfl⟩ : ∃ j1, j = j1 + 1 := ⟨j - 1, by omega⟩
      have := (ccli__is_terminator_false _).mp (hj j1 (by omega))
      simpa using this
    · intro h
      obtain ⟨i, hi, h1, hh, hj⟩ := h
      obtain ⟨i1, rfl⟩ : ∃ i1, i = i1 + 1 := ⟨i - 1, by omega⟩
      refine ⟨i1, by simpa using hi, by simpa using hh, ?_⟩
      intro j hlt
      apply (ccli__is_terminator_false _).mpr
      simpa using hj (j + 1) (by omega) (by omega)

theorem ccli__run_command_returns (cmds : Option (List ccli_command)) (argv : List Str)
    (hcmds : cmds ≠ some []) (hargv : argv ≠ []) :
    ∃ c, ccli__run_command cmds argv = .ok c := by
  cases argv with
  | nil => exact absurd rfl hargv
  | cons p toks =>
    cases toks with
    | nil => exact ⟨1, rfl⟩
    | cons a as =>
      cases cmds with
      | none => exact ⟨1, rfl⟩
      | some l =>
        cases l with
        | nil => exact absurd rfl hcmds
        | cons c cs => exact ⟨_, rfl⟩

/-! ## The text of the help and the help exit -/

theorem ccli__max_long_arg_len_from_spec (cmds : Option (List ccli_command)) (sub : Option Str) :
    ∀ (options : List ccli_option) (m len : Nat),
      ccli__max_long_arg_len_from cmds sub options m = some len →
      m ≤ len ∧ ∀ o ∈ options, ∃ b, ccli__arg_relevant o cmds sub = some b
        ∧ (b = true → ∀ L, o.long_arg = some L → ccli__long_arg_len L o.arg_desc ≤ len) := by
  intro options
  induction options with
  | nil =>
    intro m len h
    simp only [ccli__max_long_arg_len_from, Option.some.injEq] at h
    exact ⟨by omega, by intro o ho; cases ho⟩
  | cons o os ih =>
    intro m len h
    rw [ccli__max_long_arg_len_from] at h
    cases hr : ccli__arg_relevant o cmds sub with
    | none => rw [hr] at h; cases h
    | some b =>
      rw [hr] at h
      cases b with
      | false =>
        obtain ⟨h1, h2⟩ := ih m len h
        refine ⟨h1, ?_⟩
        intro x hx
        rcases List.mem_cons.mp hx with e | hx
        · subst e
          exact ⟨false, hr, by intro hb; cases hb⟩
        · exact h2 x hx
      | true =>
        cases hl : o.long_arg with
        | none =>
          rw [hl] at h
          obtain ⟨h1, h2⟩ := ih m len h
          refine ⟨h1, ?_⟩
          intro x hx
          rcases List.mem_cons.mp hx with e | hx
          · subst e
            exact ⟨true, hr, by intro _ L hL; rw [hl] at hL; cases hL⟩
          · exact h2 x hx
        | some L0 =>
          rw [hl] at h
          dsimp only at h
          by_cases hgt : ccli__long_arg_len L0 o.arg_desc > m
          · rw [if_pos hgt] at h
            obtain ⟨h1, h2⟩ := ih _ len h
            refine ⟨by omega, ?_⟩
            intro x hx
            rcases List.mem_cons.mp hx with e | hx
            · subst e
              refine ⟨true, hr, ?_⟩
              intro _ L hL
              rw [hl] at hL
              cases hL
              exact h1
            · exact h2 x hx
          · rw [if_neg hgt] at h
            obtain ⟨h1, h2⟩ := ih m len h
            refine ⟨h1, ?_⟩
            intro x hx
            rcases List.mem_cons.mp hx with e | hx
            · subst e
              refine ⟨true, hr, ?_⟩
              intro _ L hL
              rw [hl] at hL
              cases hL
              omega
            · exact h2 x hx

theorem ccli__help_usage_ok (cmds : Option (List ccli_command)) (sub : Option Str) :
    ∀ (options : List ccli_option),
      (∀ o ∈ options, ∃ b, ccli__arg_relevant o cmds sub = some b) →
      (∀ o ∈ options, ∃ L, o.long_arg = some L) →
      ccli__help_usage cmds sub options = .ok () := by
  intro options
  induction options with
  | nil => intro _ _; rfl
  | cons o os ih =>
    intro hrel hlong
    have ih1 := ih (fun x hx => hrel x (List.mem_cons_of_mem _ hx))
      (fun x hx => hlong x (List.mem_cons_of_mem _ hx))
    obtain ⟨b, hb⟩ := hrel o (List.mem_cons_self _ _)
    obtain ⟨L, hL⟩ := hlong o (List.mem_cons_self _ _)
    rw [ccli__help_usage]
    cases b <;> simp [hb, hL, ccli__print_str, ih1]

theorem ccli__help_commands_ok (n : Nat) :
    ∀ (l : List ccli_command),
      (∀ c ∈ l, c.command.length ≤ n ∧ ∃ d, c.desc = some d) →
      ccli__help_commands n l = .ok () := by
  intro l
  induction l with
  | nil => intro _; rfl
  | cons c cs ih =>
    intro h
    obtain ⟨h1, d, hd⟩ := h c (List.mem_cons_self _ _)
    have h2 : ¬ (c.command.length > n + 1) := by omega
    have h3 : ¬ (c.command.length = n + 1) := by omega
    rw [ccli__help_commands]
    simp [ccli__pad_and_print, h2, h3, hd, ccli__print_str,
      ih (fun x hx => h x (List.mem_cons_of_mem _ hx))]

theorem ccli__help_options_ok (cmds : Option (List ccli_command)) (sub : Option Str) (n : Nat) :
    ∀ (options : List ccli_option),
      (∀ o ∈ options, ∃ b, ccli__arg_relevant o cmds sub = some b
        ∧ (b = true → ∀ L, o.long_arg = some L → ccli__long_arg_len L o.arg_desc ≤ n)) →
      (∀ o ∈ options, ∃ L, o.long_arg = some L) →
      (∀ o ∈ options, ∃ d, o.desc = some d) →
      ccli__help_options n cmds sub options = .ok () := by
  intro options
  induction options with
  | nil => intro _ _ _; rfl
  | cons o os ih =>
    intro hrel hlong hdesc
    have ih1 := ih (fun x hx => hrel x (List.mem_cons_of_mem _ hx))
      (fun x hx => hlong x (List.mem_cons_of_mem _ hx))
      (fun x hx => hdesc x (List.mem_cons_of_mem _ hx))
    obtain ⟨b, hb, hle⟩ := hrel o (List.mem_cons_self _ _)
    obtain ⟨L, hL⟩ := hlong o (List.mem_cons_self _ _)
    obtain ⟨d, hd⟩ := hdesc o (List.mem_cons_self _ _)
    rw [ccli__help_options]
    by_cases hp : o.positional = true
    · simp [hp, ih1]
    · cases b with
      | false => simp [hp, hb, ih1]
      | true =>
        have hle1 := hle rfl L hL
        cases ha : o.arg_desc with
        | none =>
          rw [ha] at hle1
          simp only [ccli__long_arg_len] at hle1
          have h2 : ¬ (L.length > n + 1) := by omega
          simp [hp, hb, ccli__help_option_line, hL, h2, ha, hd, ccli__print_str, ih1]
        | some a =>
          rw [ha] at hle1
          simp only [ccli__long_arg_len] at hle1
          have h2 : ¬ (L.length > n + 1) := by omega
          have h3 : ¬ (L.length + a.length + 2 > n) := by omega
          have h4 : ¬ (L.length + a.length + 2 = n) := by omega
          simp [hp, hb, ccli__help_option_line, hL, h2, h3, h4, ha, hd, ccli__print_str, ih1]

theorem ccli__help_positionals_ok (cmds : Option (List ccli_command)) (sub : Option Str)
    (n : Nat) :
    ∀ (options : List ccli_option),
      (∀ o ∈ options, ∃ b, ccli__arg_relevant o cmds sub = some b
        ∧ (b = true → ∀ L, o.long_arg = some L → ccli__long_arg_len L o.arg_desc ≤ n)) →
      (∀ o ∈ options, ∃ L, o.long_arg = some L) →
      (∀ o ∈ options, ∃ d, o.desc = some d) →
      ccli__help_positionals n cmds sub options = .ok () := by
  intro options
  induction options with
  | nil => intro _ _ _; rfl
  | cons o os ih =>
    intro hrel hlong hdesc
    have ih1 := ih (fun x hx => hrel x (List.mem_cons_of_mem _ hx))
      (fun x hx => hlong x (List.mem_cons_of_mem _ hx))
      (fun x hx => hdesc x (List.mem_cons_of_mem _ hx))
    obtain ⟨b, hb, hle⟩ := hrel o (List.mem_cons_self _ _)
    obtain ⟨L, hL⟩ := hlong o (List.mem_cons_self _ _)
    obtain ⟨d, hd⟩ := hdesc o (List.mem_cons_self _ _)
    rw [ccli__help_positionals]
    by_cases hp : o.positional = true
    · cases b with
      | false => simp [hp, hb, ih1]
      | true =>
        have hle1 := hle rfl L hL
        have hle2 : L.length ≤ ccli__long_arg_len L o.arg_desc := by
          cases o.arg_desc <;> simp [ccli__long_arg_len]
        have h2 : ¬ (L.length > n + 1) := by omega
        have h3 : ¬ (L.length = n + 1) := by omega
        simp [hp, hb, hL, ccli__pad_and_print, h2, h3, hd, ccli__print_str, ih1]
    · simp [hp, ih1]

theorem ccli__pos_args_len_some (cmds : Option (List ccli_command)) (sub : Option Str) :
    ∀ (options : List ccli_option),
      (∀ o ∈ options, ∃ b, ccli__arg_relevant o cmds sub = some b) →
      ∃ n, ccli__pos_args_len options cmds sub = some n := by
  intro options
  induction options with
  | nil => intro _; exact ⟨0, rfl⟩
  | cons o os ih =>
    intro hrel
    obtain ⟨n, hn⟩ := ih (fun x hx => hrel x (List.mem_cons_of_mem _ hx))
    obtain ⟨b, hb⟩ := hrel o (List.mem_cons_self _ _)
    rw [ccli__pos_args_len]
    by_cases hp : o.positional = true
    · cases b <;> simp [hp, hb, hn]
    · simp [hp, hn]

/-- The text of `ccli_help` is printed when the longest relevant option name is shorter than
`2 ^ 32`, every descriptor has a long name and a description, and, when no command is active,
every command has a description and a name no longer than that longest option name. -/
theorem ccli_help_ok (cmds : Option (List ccli_command)) (sub : Option Str)
    (options : List ccli_option) (len : Nat)
    (hlen : ccli__max_long_arg_len options cmds sub = some len) (hsize : len < 4294967296)
    (hlong : ∀ o ∈ options, ∃ L, o.long_arg = some L)
    (hdesc : ∀ o ∈ options, ∃ d, o.desc = some d)
    (hcmds : sub = none → ∀ l, cmds = some l →
      l ≠ [] ∧ ∀ c ∈ l, c.command.length ≤ len ∧ ∃ d, c.desc = some d) :
    ccli_help cmds sub options = .ok () := by
  obtain ⟨h4, hrel⟩ := ccli__max_long_arg_len_from_spec cmds sub options 4 len hlen
  have hrel1 : ∀ o ∈ options, ∃ b, ccli__arg_relevant o cmds sub = some b :=
    fun o ho => (hrel o ho).imp (fun _ h => h.1)
  have hmod : len % 4294967296 = len := Nat.mod_eq_of_lt hsize
  have hlist : ccli__help_command_list len cmds sub = .ok () := by
    unfold ccli__help_command_list
    by_cases hs : sub = none
    · cases cmds with
      | none => simp [ccli__cmd_len]
      | some l =>
        obtain ⟨hne, hall⟩ := hcmds hs l rfl
        cases l with
        | nil => exact absurd rfl hne
        | cons c cs =>
          simp [ccli__cmd_len, hs, ccli__help_commands_ok len (c :: cs) hall]
    · have : (sub == none) = false := by
        cases sub with
        | none => exact absurd rfl hs
        | some s => rfl
      simp [this]
  obtain ⟨n, hn⟩ := ccli__pos_args_len_some cmds sub options hrel1
  have hhl : ccli__help_help_line len = .ok () := by
    have : ¬ (4 > len + 1) := by omega
    simp [ccli__help_help_line, this]
  rw [ccli_help, hlen]
  simp only [hmod, ccli__help_usage_ok cmds sub options hrel1 hlong, hlist,
    ccli__help_options_ok cmds sub len options hrel hlong hdesc, hhl, hn]
  split
  · exact ccli__help_positionals_ok cmds sub len options hrel hlong hdesc
  · rfl

theorem ccli__validate_from_long :
    ∀ (options : List ccli_option) (i : Nat), ccli__validate_from options i = .ok () →
      ∀ o ∈ options, ∃ L, o.long_arg = some L := by
  intro options
  induction options with
  | nil => intro _ _ o ho; cases ho
  | cons x xs ih =>
    intro i h o ho
    rw [ccli__validate_from] at h
    split at h
    · cases h
    · rename_i hl
      split at h
      · cases h
      · rcases List.mem_cons.mp ho with e | ho
        · subst e
          cases hx : o.long_arg with
          | none => simp [hx] at hl
          | some L => exact ⟨L, rfl⟩
        · exact ih (i + 1) h o ho

theorem ccli__validate_options_long (options : List ccli_option)
    (h : ccli__validate_options options = .ok ()) :
    ∀ o ∈ options, ∃ L, o.long_arg = some L := by
  cases options with
  | nil => intro o ho; cases ho
  | cons x xs => exact ccli__validate_from_long (x :: xs) 0 h

/-- For a table that passes validation (and a command table that is absent or holds a
command), `ccli_parse_opts` reaches the call of `ccli_help` exactly on a help request, before
the match loop and the requirement check and with the table as the caller gave it: its
outcome is then that of `ccli_help`, the exit with status 0 when the text is printed; and no
other exit of `ccli_parse_opts` is the help exit. -/
theorem ccli_parse_opts_help_path (cfg : ccli_config) (cmds : Option (List ccli_command))
    (options : List ccli_option) (argv : List Str)
    (hvalid : ccli__validate_options options = .ok ()) (hcmds : cmds ≠ some []) :
    (ccli_help_requested argv →
      ∃ k, ccli__run_command cmds argv = .ok k
        ∧ (ccli_help cmds (ccli__subcommand cmds k) options = .ok () →
            ccli_parse_opts cfg cmds options argv = .error (.help_shown, options))
        ∧ (∀ e, ccli_help cmds (ccli__subcommand cmds k) options = .error e →
            ccli_parse_opts cfg cmds options argv = .error (e, options)))
    ∧ (∀ t, ccli_parse_opts cfg cmds options argv = .error (.help_shown, t) →
      ccli_help_requested argv) := by
  constructor
  · intro h
    have hne : argv ≠ [] := by
      intro e
      subst e
      obtain ⟨i, hi, _⟩ := h
      simp at hi
    obtain ⟨c, hc⟩ := ccli__run_command_returns cmds argv hcmds hne
    have hlen : (argv.length == 0) = false := by
      cases argv with
      | nil => exact absurd rfl hne
      | cons a as => simp
    refine ⟨c, hc, ?_, ?_⟩
    · intro hh
      simp [ccli_parse_opts, hlen, hvalid, hc, (ccli__find_help_iff argv).mpr h, hh]
    · intro e hh
      simp [ccli_parse_opts, hlen, hvalid, hc, (ccli__find_help_iff argv).mpr h, hh]
  · intro t h
    by_contra hn
    have hf : ccli__find_help argv = false := by
      cases hfh : ccli__find_help argv with
      | false => rfl
      | true => exact absurd ((ccli__find_help_iff argv).mp hfh) hn
    cases argv with
    | nil => simp [ccli_parse_opts] at h
    | cons a as =>
      obtain ⟨c, hc⟩ := ccli__run_command_returns cmds (a :: as) hcmds (by simp)
      simp only [ccli_parse_opts, List.length_cons, Nat.add_one_ne_zero, beq_iff_eq,
        if_false, hvalid, hc, hf, Bool.false_eq_true] at h
      cases hl : ccli__match_loop cfg cmds (ccli__subcommand cmds c) c false options
          (List.drop (1 + if c > 1 then 1 else 0) (a :: as)) with
      | ok o1 => rw [hl] at h; simp at h
      | error x =>
        obtain ⟨e2, t2⟩ := x
        rw [hl] at h
        simp only [Except.error.injEq, Prod.mk.injEq] at h
        exact ccli__match_loop_no_help cfg cmds _ c _ false options e2 t2 hl h.1

/-- For a table that passes validation and tables whose text `ccli_help` can print (see
`ccli_help_ok`), `ccli_parse_opts` takes the help exit if and only if some token `argv[i]`,
`i ≥ 1`, is `--help` or `-h` and no token before it, from `argv[1]` on, is a terminator,
whatever options are required. -/
theorem ccli_parse_opts_help_when_fits (cfg : ccli_config) (cmds : Option (List ccli_command))
    (options : List ccli_option) (argv : List Str) (k len : Nat)
    (hvalid : ccli__validate_options options = .ok ()) (hne : cmds ≠ some [])
    (hrun : ccli__run_command cmds argv = .ok k)
    (hlen : ccli__max_long_arg_len options cmds (ccli__subcommand cmds k) = some len)
    (hsize : len < 4294967296)
    (hdesc : ∀ o ∈ options, ∃ d, o.desc = some d)
    (hfit : ccli__subcommand cmds k = none → ∀ l, cmds = some l →
      ∀ c ∈ l, c.command.length ≤ len ∧ ∃ d, c.desc = some d) :
    ccli_help_requested argv ↔
      ccli_parse_opts cfg cmds options argv = .error (.help_shown, options) := by
  obtain ⟨h1, h2⟩ := ccli_parse_opts_help_path cfg cmds options argv hvalid hne
  constructor
  · intro h
    obtain ⟨k1, hk1, hok, _⟩ := h1 h
    rw [hrun] at hk1
    cases hk1
    apply hok
    apply ccli_help_ok cmds _ options len hlen hsize (ccli__validate_options_long options hvalid)
      hdesc
    intro hs l hl
    exact ⟨fun e => hne (by rw [hl, e]), hfit hs l hl⟩
  · intro h
    exact h2 _ h

set_option maxRecDepth 100000 in
/-- C23: the claim fails on the tables of Scenario B (the commands `apply` and `restore`, the
one option `nowrite` bound to `apply`). `[prog, --help]` is a help request and the table
passes validation, yet the help exit is not reached: no option is relevant while no command
is active, so `ccli__max_long_arg_len` is 4 and the buffer for the names of the commands has
5 bytes; `apply` fills it, taking the place of its terminator, and `%s` reads on behind it;
the 7 characters of `restore` are written behind it. With the command active
(`[prog, apply, --help]`) the list of the commands is not printed and the help exit is taken;
on the tables of `patc.c` the option `patch_file <patchfile>` makes the length 22, and
`[prog, --help]` takes the help exit. -/
theorem ccli_parse_opts_help_leaves_buffer :
    ccli_help_requested [['p'], ['-', '-', 'h', 'e', 'l', 'p']]
    ∧ ccli__validate_options [patc_nowrite] = .ok ()
    ∧ ccli__max_long_arg_len [patc_nowrite] (some scenario_b_commands) none = some 4
    ∧ ccli_parse_opts ccli_default_config (some scenario_b_commands) [patc_nowrite]
        [['p'], ['-', '-', 'h', 'e', 'l', 'p']]
      = .error (.out_of_bounds_read, [patc_nowrite])
    ∧ ccli__help_commands 4 (scenario_b_commands.drop 1) = .error .out_of_bounds_write
    ∧ ccli_parse_opts ccli_default_config (some scenario_b_commands) [patc_nowrite]
        [['p'], ['a', 'p', 'p', 'l', 'y'], ['-', '-', 'h', 'e', 'l', 'p']]
      = .error (.help_shown, [patc_nowrite])
    ∧ ccli__max_long_arg_len patc_options (some patc_commands) none = some 22
    ∧ ccli_parse_opts ccli_default_config (some patc_commands) patc_options
        [['p'], ['-', '-', 'h', 'e', 'l', 'p']]
      = .error (.help_shown, patc_options) := by
  decide

/-! ## An option given twice -/

theorem ccli__validate_from_ok :
    ∀ (l : List ccli_option) (i : Nat), (∀ o ∈ l, ccli_option_invalid o = false) →
      ccli__validate_from l i = .ok () := by
  intro l
  induction l with
  | nil => intro i _; rfl
  | cons o os ih =>
    intro i h
    have ho := h o (List.mem_cons_self _ _)
    simp only [ccli_option_invalid, Bool.or_eq_false_iff] at ho
    rw [ccli__validate_from]
    simp only [ho.1, ho.2, Bool.false_eq_true, if_false]
    exact ih (i + 1) (fun x hx => h x (List.mem_cons_of_mem _ hx))

theorem ccli__validate_options_ok (options : List ccli_option) (hne : options ≠ [])
    (h : ∀ o ∈ options, ccli_option_invalid o = false) :
    ccli__validate_options options = .ok () := by
  cases options with
  | nil => exact absurd rfl hne
  | cons o os => exact ccli__validate_from_ok (o :: os) 0 h

theorem ccli__validate_from_first_invalid (post : List ccli_option) (bad : ccli_option)
    (hbad : ccli_option_invalid bad = true) :
    ∀ (pre : List ccli_option) (i : Nat), (∀ o ∈ pre, ccli_option_invalid o = false) →
      ccli__validate_from (pre ++ bad :: post) i
        = .error (if bad.long_arg = none then .panic_long_required (i + pre.length)
            else .panic_arg_desc_required bad.long_arg) := by
  intro pre
  induction pre with
  | nil =>
    intro i _
    rw [List.nil_append, ccli__validate_from]
    by_cases hl : bad.long_arg = none
    · simp [hl]
    · have h2 : (bad.kind != .ccli_boolean && !bad.positional && bad.arg_desc == none) = true := by
        simpa [ccli_option_invalid, hl] using hbad
      simp [hl, h2]
  | cons o os ih =>
    intro i h
    have ho := h o (List.mem_cons_self _ _)
    simp only [ccli_option_invalid, Bool.or_eq_false_iff] at ho
    rw [List.cons_append, ccli__validate_from]
    simp only [ho.1, ho.2, Bool.false_eq_true, if_false]
    rw [ih (i + 1) (fun x hx => h x (List.mem_cons_of_mem _ hx))]
    simp only [List.length_cons]
    rw [show i + 1 + os.length = i + (os.length + 1) by omega]

theorem ccli_option_invalid_split :
    ∀ (options : List ccli_option), (∃ o ∈ options, ccli_option_invalid o = true) →
      ∃ pre bad post, options = pre ++ bad :: post
        ∧ (∀ o ∈ pre, ccli_option_invalid o = false) ∧ ccli_option_invalid bad = true := by
  intro options
  induction options with
  | nil =>
    intro h
    obtain ⟨o, ho, _⟩ := h
    cases ho
  | cons x xs ih =>
    intro h
    by_cases hx : ccli_option_invalid x = true
    · exact ⟨[], x, xs, rfl, (by intro o ho; cases ho), hx⟩
    · have hex : ∃ o ∈ xs, ccli_option_invalid o = true := by
        obtain ⟨o, ho, hi⟩ := h
        rcases List.mem_cons.mp ho with e | ho1
        · rw [e] at hi; exact absurd hi hx
        · exact ⟨o, ho1, hi⟩
      obtain ⟨pre, bad, post, e, hpre, hbad⟩ := ih hex
      refine ⟨x :: pre, bad, post, by rw [e]; rfl, ?_, hbad⟩
      intro o ho
      rcases List.mem_cons.mp ho with e1 | ho1
      · rw [e1]; simpa using hx
      · exact hpre o ho1

/-- C25: at the table that holds the terminator alone, no descriptor of it lacks anything,
yet `ccli__validate_options` ends with the configuration error "Invalid option at index 0.
Long option is always required!", and so does `ccli_parse_opts`. `ccli__opt_len` returns
`idx - 1` with `idx == 0`, that is `SIZE_MAX`, and the loop of the validation reads the
terminator, whose `long_arg` is `NULL`. -/
theorem ccli__validate_options_terminator_only :
    (∀ o ∈ ([] : List ccli_option), ccli_option_invalid o = false)
    ∧ ccli__opt_len (some []) = 18446744073709551615
    ∧ ccli__validate_options [] = .error (.panic_long_required 0)
    ∧ ccli_parse_opts ccli_default_config none [] [['p']]
      = .error (.panic_long_required 0, []) := by
  decide

/-- C26: in a table that holds a descriptor without long identifier, or one that is not
boolean, not positional and without placeholder description, the first such descriptor in
table order ends `ccli__validate_options` with a configuration error: "Long option is always
required" with its index when its long identifier is absent, "arg_desc is required" with its
long identifier otherwise. `ccli_parse_opts` ends with the same error for every `argv`, the
table untouched: the validation precedes every read of a token. -/
theorem ccli__validate_options_first_invalid (options : List ccli_option)
    (h : ∃ o ∈ options, ccli_option_invalid o = true) :
    ∃ pre bad post, options = pre ++ bad :: post
      ∧ (∀ o ∈ pre, ccli_option_invalid o = false) ∧ ccli_option_invalid bad = true
      ∧ ccli__validate_options options
        = .error (if bad.long_arg = none then .panic_long_required pre.length
            else .panic_arg_desc_required bad.long_arg)
      ∧ ∀ (cfg : ccli_config) (cmds : Option (List ccli_command)) (argv : List Str),
          argv ≠ [] →
          ccli_parse_opts cfg cmds options argv
            = .error (if bad.long_arg = none then .panic_long_required pre.length
                else .panic_arg_desc_required bad.long_arg, options) := by
  obtain ⟨pre, bad, post, e, hpre, hbad⟩ := ccli_option_invalid_split options h
  have hv : ccli__validate_options options
      = .error (if bad.long_arg = none then .panic_long_required pre.length
          else .panic_arg_desc_required bad.long_arg) := by
    have := ccli__validate_from_first_invalid post bad hbad pre 0 hpre
    rw [Nat.zero_add] at this
    rw [e]
    cases pre with
    | nil => exact this
    | cons x xs => exact this
  refine ⟨pre, bad, post, e, hpre, hbad, hv, ?_⟩
  intro cfg cmds argv hargv
  have hlen : (argv.length == 0) = false := by
    cases argv with
    | nil => exact absurd rfl hargv
    | cons a as => simp
  simp only [ccli_parse_opts, hlen, Bool.false_eq_true, if_false, hv]

set_option maxRecDepth 100000 in
/-- Instance of C26: `timeout` declared without placeholder description, after a descriptor
that lacks nothing. -/
theorem ccli__validate_options_first_invalid_witness :
    ∃ pre bad post,
      [patc_patch_file, { example_timeout 0 with arg_desc := none }, patc_nowrite]
        = pre ++ bad :: post
      ∧ (∀ o ∈ pre, ccli_option_invalid o = false) ∧ ccli_option_invalid bad = true
      ∧ ccli__validate_options
          [patc_patch_file, { example_timeout 0 with arg_desc := none }, patc_nowrite]
        = .error (if bad.long_arg = none then .panic_long_required pre.length
            else .panic_arg_desc_required bad.long_arg)
      ∧ ∀ (cfg : ccli_config) (cmds : Option (List ccli_command)) (argv : List Str),
          argv ≠ [] →
          ccli_parse_opts cfg cmds
              [patc_patch_file, { example_timeout 0 with arg_desc := none }, patc_nowrite] argv
            = .error (if bad.long_arg = none then .panic_long_required pre.length
                else .panic_arg_desc_required bad.long_arg,
                [patc_patch_file, { example_timeout 0 with arg_desc := none }, patc_nowrite]) :=
  ccli__validate_options_first_invalid
    [patc_patch_file, { example_timeout 0 with arg_desc := none }, patc_nowrite]
    ⟨{ example_timeout 0 with arg_desc := none }, by decide, by decide⟩
/-! ## One token, one descriptor -/

set_option maxRecDepth 100000 in
/-- C27: three invocations in which one token is written to two descriptors. The equals
form `-t=5` is stored in `timeout` and in `target`, which share the short name `t`; the
equals form `x=1`, whose key has one character, is stored in `input` and in `label`, which
have no short name; the token `-`, a terminator, is stored in both positional options
`patch_file` and `output`. Neither the search of `ccli__parse_equals` nor the search of
`ccli__parse_remaining_positionals` ends at the first descriptor it writes. -/
theorem ccli_parse_opts_token_written_twice :
    ccli_parse_opts ccli_default_config none [example_timeout 0, example_target]
        [['p'], ['-', 't', '=', '5']]
      = .ok (none, [{ example_timeout 0 with matched := true, data := .number 5 },
          { example_target with matched := true, data := .string ['5'] }])
    ∧ ccli_parse_opts ccli_default_config none [example_input, example_label]
        [['p'], ['x', '=', '1']]
      = .ok (none, [{ example_input with matched := true, data := .string ['1'] },
          { example_label with matched := true, data := .string ['1'] }])
    ∧ ccli_parse_opts ccli_default_config none [patc_patch_file, example_output]
        [['p'], ['-']]
      = .ok (none, [{ patc_patch_file with matched := true, data := .string ['-'] },
          { example_output with matched := true, data := .string ['-'] }]) := by
  decide

/-! ## The descriptor a name selects -/

/-- C28: a token without `=` that names a descriptor in scope (its long name after
`--`, or its short letter after `-`) selects the first descriptor in table order that is in
scope and has that name, whether that descriptor is already matched or not: it is marked
matched and written (again), or the call ends with the exit of its value, and the descriptors
before and after it are left as they were. -/
theorem ccli__match_loop_selects_first_named (cfg : ccli_config)
    (cmds : Option (List ccli_command)) (sub : Option Str) (k : Nat)
    (pre post : List ccli_option) (opt : ccli_option) (arg : Str) (rest : List Str)
    (hscope : ccli__in_scope opt k = true) (hname : ccli__name_matches arg opt = true)
    (hfirst : ∀ o ∈ pre, ccli__in_scope o k = true → ccli__name_matches arg o = false)
    (heq : ccli_strcontains (some arg) '=' = false) :
    ccli__match_loop cfg cmds sub k false (pre ++ opt :: post) (arg :: rest) =
      match ccli__coerce_named cfg opt rest.head? with
      | .error e => .error (e, pre ++ { opt with matched := true } :: post)
      | .ok (d, consumed) =>
        ccli__match_loop cfg cmds sub k consumed
          (pre ++ { opt with matched := true, data := d } :: post) rest := by
  obtain ⟨_, _, hterm⟩ := ccli__name_matches_shape arg opt hname
  obtain ⟨hok, herr⟩ := ccli__match_arg_named_at cfg k arg rest.head? pre post opt hscope hname
    hfirst
  cases hc : ccli__coerce_named cfg opt rest.head? with
  | error e =>
    exact ccli__match_loop_step_error cfg cmds sub k _ arg rest _ hterm heq (herr e hc)
  | ok r =>
    obtain ⟨d, c⟩ := r
    exact ccli__match_loop_step_ok cfg cmds sub k _ _ arg rest c hterm heq (hok d c hc)

set_option maxRecDepth 100000 in
/-- Instance of C28: `timeout` is already matched and holds 5; `-t 7` selects it again and
stores 7, and `target`, which is not matched and has the same short name, is left alone. -/
theorem ccli__match_loop_selects_first_named_witness :
    ccli__match_loop ccli_default_config none none 1 false
        ([] ++ { example_timeout 0 with matched := true, data := .number 5 } :: [example_target])
        [['-', 't'], ['7']]
      = .ok [{ example_timeout 0 with matched := true, data := .number 7 }, example_target] :=
  (ccli__match_loop_selects_first_named ccli_default_config none none 1 [] [example_target]
    { example_timeout 0 with matched := true, data := .number 5 } ['-', 't'] [['7']]
    (by decide) (by decide) (by intro o ho; cases ho) (by decide)).trans (by decide)

set_option maxRecDepth 100000 in
/-- C28, as stated, fails when a name is given a second time: in `-t 5 -t abc` the second
`-t` does not select `target`, the first descriptor with the short name `t` that is not yet
matched, but `timeout` again, and the call ends on `abc`, which is no number. -/
theorem ccli_parse_opts_selects_matched_again :
    ccli_parse_opts ccli_default_config none [example_timeout 0, example_target]
        [['p'], ['-', 't'], ['5'], ['-', 't'], ['a', 'b', 'c']]
      = .error (.invalid_number (some ['t', 'i', 'm', 'e', 'o', 'u', 't']) ['a', 'b', 'c'],
          [{ example_timeout 0 with matched := true, data := .number 5 }, example_target]) := by
  decide

/-! ## Descriptors out of scope -/

set_option maxRecDepth 100000 in
/-- C29: on the terminator path, `log` is a positional option bound to the command `apply`;
under the command `restore` the token `-` is stored in it and marks it matched, although
`ccli__pos_args_len` counts no positional option in scope. The search of
`ccli__parse_remaining_positionals` has no scope test. The main loop and the equals form do
leave `log` alone under `restore`. -/
theorem ccli__parse_remaining_positionals_writes_out_of_scope :
    ccli__in_scope example_log 3 = false
    ∧ ccli__arg_relevant example_log (some patc_commands) (some ['r', 'e', 's', 't', 'o', 'r', 'e'])
      = some false
    ∧ ccli_parse_opts ccli_default_config (some patc_commands) [example_log]
        [['p'], ['r', 'e', 's', 't', 'o', 'r', 'e'], ['-']]
      = .ok (some ['r', 'e', 's', 't', 'o', 'r', 'e'],
          [{ example_log with matched := true, data := .string ['-'] }])
    ∧ ccli_parse_opts ccli_default_config (some patc_commands) [example_log]
        [['p'], ['r', 'e', 's', 't', 'o', 'r', 'e'], ['x']]
      = .error (.excess_positional ['x'], [example_log])
    ∧ ccli_parse_opts ccli_default_config (some patc_commands) [example_log]
        [['p'], ['r', 'e', 's', 't', 'o', 'r', 'e'], ['-', '-', 'l', 'o', 'g', '=', 'x']]
      = .error (.unknown_argument ['-', '-', 'l', 'o', 'g'], [example_log]) := by
  decide

/-! ## The count of the terminator path -/

theorem ccli__pos_args_len_map (cmds : Option (List ccli_command)) (sub : Option Str)
    (f : ccli_option → ccli_option)
    (hf : ∀ o, (f o).positional = o.positional ∧ (f o).cmd_idx = o.cmd_idx) :
    ∀ (options : List ccli_option),
      ccli__pos_args_len (options.map f) cmds sub = ccli__pos_args_len options cmds sub := by
  intro options
  induction options with
  | nil => rfl
  | cons o os ih =>
    obtain ⟨h1, h2⟩ := hf o
    simp only [List.map_cons, ccli__pos_args_len, ccli__arg_relevant, h1, h2, ih]

set_option maxRecDepth 100000 in
/-- C30: at `[prog, a, --, b, c]` with the positional options `patch_file` and `output`: `a`
fills `patch_file`, one positional option is left unmatched and two tokens follow the
terminator, yet the call does not end with "Too many positional arguments": it returns, `b`
and `c` stored nowhere. `ccli__pos_args_len` counts the positional options in scope whether
they are matched or not, here 2; three tokens after the terminator are too many. -/
theorem ccli__parse_remaining_positionals_counts_matched :
    ccli_parse_opts ccli_default_config none [patc_patch_file, example_output]
        [['p'], ['a'], ['-', '-'], ['b'], ['c']]
      = .ok (none, [{ patc_patch_file with matched := true, data := .string ['a'] },
          example_output])
    ∧ ccli__pos_args_len [{ patc_patch_file with matched := true, data := .string ['a'] },
        example_output] none none = some 2
    ∧ ccli_parse_opts ccli_default_config none [patc_patch_file, example_output]
        [['p'], ['a'], ['-', '-'], ['b'], ['c'], ['d']]
      = .error (.too_many_positionals 2 3,
          [{ patc_patch_file with matched := true, data := .string ['a'] }, example_output]) := by
  decide
/-! ## Descriptors out of scope: the main loop and the equals form -/

theorem ccli_same_outside_refl (k : Nat) :
    ∀ (l : List ccli_option), ccli_same_outside k l l := by
  intro l
  induction l with
  | nil => exact List.Forall₂.nil
  | cons o os ih => exact List.Forall₂.cons (fun _ => rfl) ih

theorem ccli_same_outside_trans (k : Nat) :
    ∀ (a b c : List ccli_option), ccli_same_outside k a b → ccli_same_outside k b c →
      ccli_same_outside k a c := by
  intro a b c hab
  induction hab generalizing c with
  | nil => intro h; cases h; exact List.Forall₂.nil
  | cons hxy _ ih =>
    intro h
    cases h with
    | cons hyz htl =>
      refine List.Forall₂.cons ?_ (ih _ htl)
      intro hs
      have e := hxy hs
      rw [e] at hyz
      rw [hyz hs]

theorem ccli_same_outside_head (k : Nat) (o o1 : ccli_option) (os : List ccli_option)
    (h : ¬ ccli__in_scope o k = false) : ccli_same_outside k (o :: os) (o1 :: os) :=
  List.Forall₂.cons (fun hs => absurd hs h) (ccli_same_outside_refl k os)

theorem ccli__table_of_prepend {β : Type} (o : ccli_option)
    (r : ccli_result (List ccli_option × β)) :
    ccli__table_of (ccli__prepend o r) = o :: ccli__table_of r := by
  cases r with
  | ok r => rfl
  | error r => rfl

theorem ccli__match_arg_frame (cfg : ccli_config) (k : Nat) (arg : Str) (next : Option Str) :
    ∀ (options : List ccli_option),
      ccli_same_outside k options (ccli__table_of (ccli__match_arg cfg k arg next options)) := by
  intro options
  induction options with
  | nil => exact List.Forall₂.nil
  | cons o os ih =>
    rw [ccli__match_arg]
    split
    · rw [ccli__table_of_prepend]
      exact List.Forall₂.cons (fun _ => rfl) ih
    · rename_i hs
      have hs1 : ¬ ccli__in_scope o k = false := by simpa using hs
      split
      · cases hc : ccli__coerce_positional cfg o arg with
        | error e => exact ccli_same_outside_head k o _ os hs1
        | ok d => exact ccli_same_outside_head k o _ os hs1
      · split
        · cases hc : ccli__coerce_named cfg o next with
          | error e => exact ccli_same_outside_head k o _ os hs1
          | ok d => exact ccli_same_outside_head k o _ os hs1
        · split
          · exact ccli_same_outside_refl k _
          · rw [ccli__table_of_prepend]
            exact List.Forall₂.cons (fun _ => rfl) ih

theorem ccli__equals_scan_frame (cfg : ccli_config) (k : Nat) (key v : Str) :
    ∀ (options : List ccli_option),
      ccli_same_outside k options (ccli__table_of (ccli__equals_scan cfg k key v options)) := by
  intro options
  induction options with
  | nil => exact List.Forall₂.nil
  | cons o os ih =>
    rw [ccli__equals_scan]
    split
    · rw [ccli__table_of_prepend]
      exact List.Forall₂.cons (fun _ => rfl) ih
    · rename_i hs
      have hs1 : ¬ ccli__in_scope o k = false := by simpa using hs
      split
      · exact ccli_same_outside_refl k _
      · split
        · cases hc : ccli__coerce_equals cfg o v with
          | error e => exact ccli_same_outside_head k o _ os hs1
          | ok d =>
            cases hr : ccli__equals_scan cfg k key v os with
            | error r =>
              obtain ⟨e, t⟩ := r
              rw [hr] at ih
              exact List.Forall₂.cons (fun h => absurd h hs1) ih
            | ok r =>
              obtain ⟨t, b⟩ := r
              rw [hr] at ih
              exact List.Forall₂.cons (fun h => absurd h hs1) ih
        · rw [ccli__table_of_prepend]
          exact List.Forall₂.cons (fun _ => rfl) ih

theorem ccli__parse_equals_frame (cfg : ccli_config) (k : Nat) (arg : Str)
    (options : List ccli_option) :
    ccli_same_outside k options (ccli__table_after (ccli__parse_equals cfg options arg k)) := by
  unfold ccli__parse_equals
  split
  · exact ccli_same_outside_refl k _
  · have h := ccli__equals_scan_frame cfg k
      (arg.take (ccli_stridx (some arg) '=').toNat)
      (arg.drop ((ccli_stridx (some arg) '=').toNat + 1)) options
    split
    · rename_i x hx
      obtain ⟨e, t⟩ := x
      rw [hx] at h
      exact h
    · rename_i o1 m hx
      rw [hx] at h
      split
      · exact h
      · exact h

theorem ccli__check_unmatched_table (k : Nat) (options : List ccli_option) :
    ccli__table_after (ccli__check_unmatched k options) = options := by
  unfold ccli__check_unmatched
  split <;> rfl

theorem ccli__match_loop_frame (cfg : ccli_config) (cmds : Option (List ccli_command))
    (sub : Option Str) (k : Nat) :
    ∀ (toks : List Str), (∀ t ∈ toks, ccli__is_terminator t = false) →
      ∀ (skip : Bool) (options : List ccli_option),
        ccli_same_outside k options
          (ccli__table_after (ccli__match_loop cfg cmds sub k skip options toks)) := by
  intro toks
  induction toks with
  | nil =>
    intro _ skip options
    rw [ccli__match_loop_end, ccli__check_unmatched_table]
    exact ccli_same_outside_refl k _
  | cons a as ih =>
    intro h skip options
    have ih1 := ih (fun x hx => h x (List.mem_cons_of_mem _ hx))
    have hterm := h a (List.mem_cons_self _ _)
    cases skip with
    | true =>
      rw [ccli__match_loop_skip]
      exact ih1 false options
    | false =>
      rw [ccli__match_loop]
      simp only [hterm, Bool.false_eq_true, if_false]
      split
      · have hf := ccli__parse_equals_frame cfg k a options
        cases hp : ccli__parse_equals cfg options a k with
        | error x =>
          obtain ⟨e, t⟩ := x
          rw [hp] at hf
          exact hf
        | ok o1 =>
          rw [hp] at hf
          exact ccli_same_outside_trans k _ _ _ hf (ih1 false o1)
      · have hf := ccli__match_arg_frame cfg k a as.head? options
        cases hp : ccli__match_arg cfg k a as.head? options with
        | error x =>
          obtain ⟨e, t⟩ := x
          rw [hp] at hf
          exact hf
        | ok r =>
          obtain ⟨o1, m, c⟩ := r
          rw [hp] at hf
          dsimp only
          split
          · split <;> exact hf
          · exact ccli_same_outside_trans k _ _ _ hf (ih1 c o1)

/-! ## The shape of a token -/

theorem ccli__is_long_opt_iff (t : Str) :
    ccli__is_long_opt t = true ↔ ∃ rest, rest ≠ [] ∧ t = '-' :: '-' :: rest := by
  constructor
  · intro h
    match t, h with
    | [], h => simp [ccli__is_long_opt] at h
    | [_], h => simp [ccli__is_long_opt] at h
    | [_, _], h => simp [ccli__is_long_opt] at h
    | a :: b :: c :: r, h =>
      simp [ccli__is_long_opt] at h
      obtain ⟨h1, h2⟩ := h
      subst h1
      subst h2
      exact ⟨c :: r, by simp, rfl⟩
  · intro h
    obtain ⟨rest, hr, e⟩ := h
    subst e
    cases rest with
    | nil => exact absurd rfl hr
    | cons c r => simp [ccli__is_long_opt]

/-- C31: `ccli__is_long_opt` holds exactly of the tokens that begin with two dashes and have
three characters or more. For a token that is not long, `ccli__short_opt_kind` is `single`
exactly when the token is a dash followed by one character other than a dash, `multiple`
exactly when it is a dash followed by two characters or more, and `none` in every other case.
The local `is_positional` of the main loop holds exactly when the token is neither long nor
short, that is when it has none of these three shapes. -/
theorem ccli__short_opt_kind_shapes (t : Str) :
    (ccli__is_long_opt t = true ↔ ∃ rest, rest ≠ [] ∧ t = '-' :: '-' :: rest)
    ∧ (ccli__is_long_opt t = false →
        (ccli__short_opt_kind t = .ccli_short_single ↔ ∃ c, c ≠ '-' ∧ t = ['-', c])
        ∧ (ccli__short_opt_kind t = .ccli_short_multiple ↔ ∃ c d rest, t = '-' :: c :: d :: rest)
        ∧ (ccli__short_opt_kind t = .ccli_short_none ↔
            (¬ ∃ c, c ≠ '-' ∧ t = ['-', c]) ∧ ¬ ∃ c d rest, t = '-' :: c :: d :: rest))
    ∧ (ccli__is_positional t = true ↔
        ccli__is_long_opt t = false ∧ ccli__short_opt_kind t = .ccli_short_none)
    ∧ (ccli__is_positional t = true ↔
        (¬ ∃ rest, rest ≠ [] ∧ t = '-' :: '-' :: rest) ∧ (¬ ∃ c, c ≠ '-' ∧ t = ['-', c])
        ∧ ¬ ∃ c d rest, c ≠ '-' ∧ t = '-' :: c :: d :: rest) := by
  have hlong := ccli__is_long_opt_iff t
  have hshort : ccli__is_long_opt t = false →
      (ccli__short_opt_kind t = .ccli_short_single ↔ ∃ c, c ≠ '-' ∧ t = ['-', c])
      ∧ (ccli__short_opt_kind t = .ccli_short_multiple ↔ ∃ c d rest, t = '-' :: c :: d :: rest)
      ∧ (ccli__short_opt_kind t = .ccli_short_none ↔
          (¬ ∃ c, c ≠ '-' ∧ t = ['-', c]) ∧ ¬ ∃ c d rest, t = '-' :: c :: d :: rest) := by
    intro hl
    match t, hl with
    | [], _ => simp [ccli__short_opt_kind]
    | [a], _ => simp [ccli__short_opt_kind]
    | [a, b], _ =>
      by_cases ha : a = '-'
      · subst ha
        by_cases hb : b = '-'
        · subst hb
          simp [ccli__short_opt_kind]
        · simp [ccli__short_opt_kind, hb]
      · have ha2 : ¬ '-' = a := fun e => ha e.symm
        simp [ccli__short_opt_kind, ha, ha2]
    | a :: b :: c :: r, hl =>
      have h3 : ¬ (r.length + 1 + 1 + 1 < 2) := by omega
      by_cases ha : a = '-'
      · subst ha
        simp [ccli__short_opt_kind, h3]
      · have ha2 : ¬ '-' = a := fun e => ha e.symm
        simp [ccli__short_opt_kind, ha, ha2, h3]
  have hpos : ccli__is_positional t = true ↔
      ccli__is_long_opt t = false ∧ ccli__short_opt_kind t = .ccli_short_none := by
    simp [ccli__is_positional]
  refine ⟨hlong, hshort, hpos, ?_⟩
  rw [hpos]
  constructor
  · intro h
    obtain ⟨hl, hk⟩ := h
    obtain ⟨_, _, h3⟩ := hshort hl
    have hn := h3.mp hk
    refine ⟨?_, hn.1, ?_⟩
    · intro hex
      rw [hlong.mpr hex] at hl
      exact absurd hl (by simp)
    · intro hex
      obtain ⟨c, d, rest, _, e⟩ := hex
      exact hn.2 ⟨c, d, rest, e⟩
  · intro h
    obtain ⟨h1, h2, h3⟩ := h
    have hl : ccli__is_long_opt t = false := by
      cases hc : ccli__is_long_opt t with
      | false => rfl
      | true => exact absurd (hlong.mp hc) h1
    refine ⟨hl, ?_⟩
    obtain ⟨_, _, h4⟩ := hshort hl
    apply h4.mpr
    refine ⟨h2, ?_⟩
    intro hex
    obtain ⟨c, d, rest, e⟩ := hex
    by_cases hc : c = '-'
    · subst hc
      exact h1 ⟨d :: rest, by simp, e⟩
    · exact h3 ⟨c, d, rest, hc, e⟩

/-- Instance of C31: `-ab` is not long, so it is a bundled short form. -/
theorem ccli__short_opt_kind_shapes_witness :
    ccli__short_opt_kind ['-', 'a', 'b'] = .ccli_short_multiple :=
  ((ccli__short_opt_kind_shapes ['-', 'a', 'b']).2.1 (by decide)).2.1.mpr ⟨'a', 'b', [], rfl⟩

/-! ## The tokens that parse as a number -/

theorem strtol_digits_count (base : Nat) :
    ∀ (s : Str) (acc cnt : Nat),
      (strtol_digits base s acc cnt).2 = cnt + (s.takeWhile (c_is_digit base)).length := by
  intro s
  induction s with
  | nil => intro acc cnt; simp [strtol_digits]
  | cons c cs ih =>
    intro acc cnt
    cases hv : c_digit_value c with
    | none => simp [strtol_digits, c_is_digit, hv, List.takeWhile]
    | some d =>
      by_cases hd : d < base
      · simp only [strtol_digits, hv, hd, if_true, ih]
        simp [List.takeWhile, c_is_digit, hv, hd]
        omega
      · simp [strtol_digits, c_is_digit, hv, hd, List.takeWhile]

theorem c_takeWhile_length_le (p : Char → Bool) :
    ∀ (s : Str), (s.takeWhile p).length ≤ s.length := by
  intro s
  induction s with
  | nil => simp
  | cons c cs ih =>
    by_cases h : p c = true
    · simp [List.takeWhile, h]
      exact ih
    · simp [List.takeWhile, h]

theorem c_takeWhile_all (p : Char → Bool) :
    ∀ (s : Str), (s.takeWhile p).length = s.length → s.all p = true := by
  intro s
  induction s with
  | nil => simp
  | cons c cs ih =>
    intro h
    by_cases hp : p c = true
    · simp only [List.takeWhile, hp, List.length_cons, Nat.add_right_cancel_iff] at h
      simp [hp]
      simpa using ih h
    · simp [List.takeWhile, hp] at h

theorem c_drop_takeWhile (p : Char → Bool) :
    ∀ (s : Str), s.drop (s.takeWhile p).length = s.dropWhile p := by
  intro s
  induction s with
  | nil => simp
  | cons c cs ih =>
    by_cases hp : p c = true
    · simp [List.takeWhile, List.dropWhile, hp, ih]
    · simp [List.takeWhile, List.dropWhile, hp]

theorem strtol_end_ofs (s : Str) (base : Nat) :
    (strtol s base).end_ofs =
      if (strtol_digits base
          ((s.drop (s.takeWhile c_isspace).length).drop
              (strtol_sign (s.drop (s.takeWhile c_isspace).length)).2
            |>.drop ( strtol_hex_prefix base
              ((s.drop (s.takeWhile c_isspace).length).drop
                (strtol_sign (s.drop (s.takeWhile c_isspace).length)).2))) 0 0).2 = 0 then 0
      else (s.takeWhile c_isspace).length
        + (strtol_sign (s.drop (s.takeWhile c_isspace).length)).2
        + strtol_hex_prefix base
            ((s.drop (s.takeWhile c_isspace).length).drop
              (strtol_sign (s.drop (s.takeWhile c_isspace).length)).2)
        + (strtol_digits base
          ((s.drop (s.takeWhile c_isspace).length).drop
              (strtol_sign (s.drop (s.takeWhile c_isspace).length)).2
            |>.drop ( strtol_hex_prefix base
              ((s.drop (s.takeWhile c_isspace).length).drop
                (strtol_sign (s.drop (s.takeWhile c_isspace).length)).2))) 0 0).2 := by
  simp only [strtol]
  split
  · rename_i h
    simp only [beq_iff_eq] at h
    rw [if_pos h]
  · rename_i h
    simp only [beq_iff_eq] at h
    rw [if_neg h]
    split <;> split <;> rfl

theorem strtol_sign_le (s : Str) : (strtol_sign s).2 ≤ s.length := by
  cases s with
  | nil => simp [strtol_sign]
  | cons c cs =>
    simp only [strtol_sign]
    split
    · simp
    · split <;> simp

theorem strtol_hex_prefix_le (base : Nat) (s : Str) : strtol_hex_prefix base s ≤ s.length := by
  match s with
  | [] => simp [ strtol_hex_prefix]
  | [_] => simp [ strtol_hex_prefix]
  | [_, _] => simp [ strtol_hex_prefix]
  | z :: x :: d :: r =>
    simp only [ strtol_hex_prefix]
    split <;> simp

/-- When `strtol` converts something and `*endptr` is the end of the string, the string is
white space, a sign or none, in base 16 the prefix or none, and then digits only. -/
theorem strtol_consumed_all (s : Str) (base : Nat) (h0 : (strtol s base).end_ofs ≠ 0)
    (hall : ¬ (strtol s base).end_ofs < s.length) :
    c_digits_only base
      (((s.dropWhile c_isspace).drop (strtol_sign (s.dropWhile c_isspace)).2).drop
        ( strtol_hex_prefix base
          ((s.dropWhile c_isspace).drop (strtol_sign (s.dropWhile c_isspace)).2))) = true := by
  rw [strtol_end_ofs] at h0 hall
  rw [c_drop_takeWhile] at h0 hall
  rw [strtol_digits_count] at h0 hall
  have hws := c_takeWhile_length_le c_isspace s
  have hs1 : (s.dropWhile c_isspace).length = s.length - (s.takeWhile c_isspace).length := by
    rw [← c_drop_takeWhile, List.length_drop]
  have hsg := strtol_sign_le (s.dropWhile c_isspace)
  have hpre := strtol_hex_prefix_le base
    ((s.dropWhile c_isspace).drop (strtol_sign (s.dropWhile c_isspace)).2)
  have htw := c_takeWhile_length_le (c_is_digit base)
    (((s.dropWhile c_isspace).drop (strtol_sign (s.dropWhile c_isspace)).2).drop
      ( strtol_hex_prefix base
        ((s.dropWhile c_isspace).drop (strtol_sign (s.dropWhile c_isspace)).2)))
  have hl2 := List.length_drop (strtol_sign (s.dropWhile c_isspace)).2 (s.dropWhile c_isspace)
  have hl3 := List.length_drop
    ( strtol_hex_prefix base
      ((s.dropWhile c_isspace).drop (strtol_sign (s.dropWhile c_isspace)).2))
    ((s.dropWhile c_isspace).drop (strtol_sign (s.dropWhile c_isspace)).2)
  generalize hD : ((s.dropWhile c_isspace).drop (strtol_sign (s.dropWhile c_isspace)).2).drop
      ( strtol_hex_prefix base
        ((s.dropWhile c_isspace).drop (strtol_sign (s.dropWhile c_isspace)).2)) = D
    at h0 hall htw hl3 ⊢
  by_cases hz : 0 + (D.takeWhile (c_is_digit base)).length = 0
  · simp [hz] at h0
  · simp only [hz, if_false] at hall
    have hlen : (D.takeWhile (c_is_digit base)).length = D.length := by omega
    have hne : D ≠ [] := by
      intro e
      rw [e] at hz
      simp at hz
    have hallD := c_takeWhile_all (c_is_digit base) D hlen
    cases D with
    | nil => exact absurd rfl hne
    | cons d ds => simpa [c_digits_only] using hallD

theorem ccli__int_failed_dec_false (num : Str) (r : strtol_result)
    (h : ccli__int_failed_dec num r = false) : r.end_ofs ≠ 0 ∧ ¬ r.end_ofs < num.length := by
  unfold ccli__int_failed_dec at h
  split at h
  · simp at h
  · rename_i h0
    split at h
    · simp at h
    · split at h
      · simp at h
      · rename_i _ h2
        exact ⟨by simpa using h0, h2⟩

theorem ccli__int_failed_alt_false (num : Str) (r : strtol_result)
    (h : ccli__int_failed_alt num r = false) : r.end_ofs ≠ 0 ∧ ¬ r.end_ofs < num.length := by
  unfold ccli__int_failed_alt at h
  split at h
  · simp at h
  · rename_i h0
    split at h
    · simp at h
    · split at h
      · simp at h
      · rename_i _ h2
        exact ⟨by simpa using h0, h2⟩

theorem ccli__no_base_prefix_false (num : Str) (c : Char)
    (h : ccli__no_base_prefix num c = false) : ∃ d r, num = '0' :: c :: d :: r := by
  match num, h with
  | [], h => simp [ ccli__no_base_prefix] at h
  | [_], h => simp [ ccli__no_base_prefix] at h
  | [_, _], h => simp [ ccli__no_base_prefix] at h
  | a :: b :: d :: r, h =>
    simp [ ccli__no_base_prefix] at h
    obtain ⟨h1, h2⟩ := h
    exact ⟨d, r, by rw [h1, h2]⟩

theorem ccli_decimal_shape_of_digits (s : Str)
    (h : c_digits_only 10 (s.drop (strtol_sign s).2) = true) : ccli_decimal_shape s = true := by
  cases s with
  | nil => simp [c_digits_only] at h
  | cons c r =>
    by_cases h1 : c = '-'
    · subst h1
      simpa [strtol_sign, ccli_decimal_shape] using h
    · by_cases h2 : c = '+'
      · subst h2
        simpa [strtol_sign, ccli_decimal_shape] using h
      · have h3 : (strtol_sign (c :: r)).2 = 0 := by simp [strtol_sign, h1, h2]
        rw [h3, List.drop_zero] at h
        unfold ccli_decimal_shape
        split
        · rename_i e
          simp only [List.cons.injEq] at e
          exact absurd e.1 h1
        · rename_i e
          simp only [List.cons.injEq] at e
          exact absurd e.1 h2
        · exact h

theorem ccli_decimal_shape_of_strtol (num : Str)
    (h : ccli__int_failed_dec num (strtol num 10) = false) :
    ccli_decimal_shape (num.dropWhile c_isspace) = true := by
  obtain ⟨h0, hall⟩ := ccli__int_failed_dec_false num _ h
  have hd := strtol_consumed_all num 10 h0 hall
  rw [strtol_hex_prefix_other 10 _ (by decide), List.drop_zero] at hd
  exact ccli_decimal_shape_of_digits _ hd

theorem ccli_hex_shape_of_strtol (num : Str) (hp : ccli__no_base_prefix num 'x' = false)
    (h : ccli__int_failed_alt num (strtol num 16) = false) : ccli_hex_shape num = true := by
  obtain ⟨d, r, e⟩ := ccli__no_base_prefix_false num 'x' hp
  subst e
  obtain ⟨h0, hall⟩ := ccli__int_failed_alt_false _ _ h
  have hd := strtol_consumed_all _ 16 h0 hall
  have hw : ('0' :: 'x' :: d :: r).dropWhile c_isspace = '0' :: 'x' :: d :: r := by
    rw [List.dropWhile_cons_of_neg (by decide)]
  rw [hw] at hd
  have hs : (strtol_sign ('0' :: 'x' :: d :: r)).2 = 0 := by simp [strtol_sign]
  rw [hs, List.drop_zero] at hd
  by_cases hdg : c_is_digit 16 d = true
  · have hpre : strtol_hex_prefix 16 ('0' :: 'x' :: d :: r) = 2 := by
      simp [ strtol_hex_prefix, hdg]
    rw [hpre] at hd
    simpa [ccli_hex_shape] using hd
  · have hpre : strtol_hex_prefix 16 ('0' :: 'x' :: d :: r) = 0 := by
      simp [ strtol_hex_prefix, hdg]
    rw [hpre, List.drop_zero] at hd
    have hx : c_is_digit 16 'x' = false := by decide
    simp [c_digits_only, hx] at hd

theorem ccli_bin_shape_of_strtol (num : Str) (hp : ccli__no_base_prefix num 'b' = false)
    (hb : ∀ c r, num = '0' :: 'b' :: c :: r → c_isspace c = false ∧ c ≠ '-' ∧ c ≠ '+')
    (h : ccli__int_failed_alt (num.drop 2) (strtol (num.drop 2) 2) = false) :
    ccli_bin_shape num = true := by
  obtain ⟨d, r, e⟩ := ccli__no_base_prefix_false num 'b' hp
  subst e
  obtain ⟨hsp, hm, hpl⟩ := hb d r rfl
  obtain ⟨h0, hall⟩ := ccli__int_failed_alt_false _ _ h
  have hd := strtol_consumed_all _ 2 h0 hall
  simp only [List.drop_succ_cons, List.drop_zero] at hd
  have hw : (d :: r).dropWhile c_isspace = d :: r := by
    rw [List.dropWhile_cons_of_neg (by simp [hsp])]
  rw [hw] at hd
  have hs : (strtol_sign (d :: r)).2 = 0 := by simp [strtol_sign, hm, hpl]
  rw [hs, List.drop_zero, strtol_hex_prefix_other 2 _ (by decide), List.drop_zero] at hd
  simpa [ccli_bin_shape] using hd

/-- C32: with both alternate bases enabled, and leaving aside the tokens in which `0b` is
followed by white space or by a sign, `ccli_try_parse_int` succeeds only on a token that is,
in its entirety, white space or none followed by an optionally signed string of decimal
digits, or `0x` followed by one or more hexadecimal digits, or `0b` followed by one or more
binary digits. When it fails, the coercion of a signed integer option ends with the exit
"Invalid numerical sequence", which names the option and the token. -/
theorem ccli_try_parse_int_shapes (num : Str)
    (hb : ∀ c r, num = '0' :: 'b' :: c :: r → c_isspace c = false ∧ c ≠ '-' ∧ c ≠ '+') :
    (∀ n, ccli_try_parse_int ccli_default_config num = some n →
      ccli_decimal_shape (num.dropWhile c_isspace) = true ∨ ccli_hex_shape num = true
        ∨ ccli_bin_shape num = true)
    ∧ (ccli_try_parse_int ccli_default_config num = none →
        ∀ opt : ccli_option, opt.kind = .ccli_number →
          ccli__coerce_positional ccli_default_config opt num
            = .error (.invalid_number opt.long_arg num)) := by
  constructor
  · intro n h
    by_cases hf : ccli__int_failed_dec num (strtol num 10) = false
    · exact Or.inl (ccli_decimal_shape_of_strtol num hf)
    · have hf1 : ccli__int_failed_dec num (strtol num 10) = true := by simpa using hf
      by_cases hx : ccli__no_base_prefix num 'x' = false
      · by_cases hfx : ccli__int_failed_alt num (strtol num 16) = false
        · exact Or.inr (Or.inl (ccli_hex_shape_of_strtol num hx hfx))
        · have hfx1 : ccli__int_failed_alt num (strtol num 16) = true := by simpa using hfx
          obtain ⟨d, r, e⟩ := ccli__no_base_prefix_false num 'x' hx
          have hnb : ccli__no_base_prefix num 'b' = true := by
            rw [e]
            simp [ ccli__no_base_prefix]
          simp [ccli_try_parse_int, ccli_default_config, hf1, hx, hfx1, hnb] at h
      · have hx1 : ccli__no_base_prefix num 'x' = true := by simpa using hx
        by_cases hbp : ccli__no_base_prefix num 'b' = false
        · by_cases hfb : ccli__int_failed_alt (num.drop 2) (strtol (num.drop 2) 2) = false
          · exact Or.inr (Or.inr (ccli_bin_shape_of_strtol num hbp hb hfb))
          · have hfb1 : ccli__int_failed_alt (num.drop 2) (strtol (num.drop 2) 2) = true := by
              simpa using hfb
            simp [ccli_try_parse_int, ccli_default_config, hf1, hx1, hbp, hfb1] at h
        · have hbp1 : ccli__no_base_prefix num 'b' = true := by simpa using hbp
          simp [ccli_try_parse_int, ccli_default_config, hf1, hx1, hbp1] at h
  · intro h opt hk
    simp [ccli__coerce_positional, hk, h]

set_option maxRecDepth 100000 in
/-- Instance of C32: `0x2a` parses, and it is `0x` followed by hexadecimal digits. -/
theorem ccli_try_parse_int_shapes_witness :
    ccli_decimal_shape (['0', 'x', '2', 'a'].dropWhile c_isspace) = true
      ∨ ccli_hex_shape ['0', 'x', '2', 'a'] = true ∨ ccli_bin_shape ['0', 'x', '2', 'a'] = true :=
  (ccli_try_parse_int_shapes ['0', 'x', '2', 'a'] (by intro c r e; cases e)).1 42 (by decide)

set_option maxRecDepth 100000 in
/-- C32, as stated, fails on a token with leading white space, which `strtol` passes over:
` 42` parses as 42. It also fails when a sign or white space follows `0b`, the text after the
two characters being handed to `strtol` as it is: `0b-101` parses as -5, while `0x-2a` does
not parse. -/
theorem ccli_try_parse_int_leading_space :
    ccli_try_parse_int ccli_default_config [' ', '4', '2'] = some 42
    ∧ ccli_decimal_shape [' ', '4', '2'] = false
    ∧ ccli_try_parse_int ccli_default_config ['0', 'b', '-', '1', '0', '1'] = some (-5)
    ∧ ccli_bin_shape ['0', 'b', '-', '1', '0', '1'] = false
    ∧ ccli_try_parse_int ccli_default_config ['0', 'x', '-', '2', 'a'] = none := by
  decide

/-! ## A second call on the same table -/

set_option maxRecDepth 100000 in
/-- C33: with the tables of `patc.c`, the call on `[prog, a.txt]` returns and leaves
`patch_file` marked matched. On that table, `[prog]` returns, while on the table as declared
it ends with the exit "Missing required argument" for `patch_file`; and on that table
`[prog, b.txt]` ends with the exit "Excess positional argument", while on the table as
declared it returns with `b.txt` stored. -/
theorem ccli_parse_opts_second_call :
    ∃ (options after_first : List ccli_option) (argv1 argv2 argv3 : List Str),
      ccli__validate_options options = .ok ()
      ∧ ccli_parse_opts ccli_default_config (some patc_commands) options argv1
        = .ok (none, after_first)
      ∧ (∃ o ∈ options, o.required = true ∧ o.matched = false)
      ∧ ccli_parse_opts ccli_default_config (some patc_commands) after_first argv2
        = .ok (none, after_first)
      ∧ ccli_parse_opts ccli_default_config (some patc_commands) options argv2
        = .error (.missing_required (some ['p', 'a', 't', 'c', 'h', '_', 'f', 'i', 'l', 'e']),
            options)
      ∧ ccli_parse_opts ccli_default_config (some patc_commands) after_first argv3
        = .error (.excess_positional ['b', '.', 't', 'x', 't'], after_first)
      ∧ ccli_parse_opts ccli_default_config (some patc_commands) options argv3
        = .ok (none, [{ patc_patch_file with
                          matched := true, data := .string ['b', '.', 't', 'x', 't'] },
                      patc_nowrite]) :=
  ⟨patc_options,
    [{ patc_patch_file with matched := true, data := .string ['a', '.', 't', 'x', 't'] },
      patc_nowrite],
    [['p'], ['a', '.', 't', 'x', 't']], [['p']], [['p'], ['b', '.', 't', 'x', 't']],
    by decide, by decide, ⟨patc_patch_file, by decide, by decide, by decide⟩, by decide,
    by decide, by decide, by decide⟩

/-! ## The length test and the size of the buffer -/

set_option maxRecDepth 1000000 in
/-- C34: a token of `CCLI_MAX_STR_LEN` characters passes the length test of the match engine,
`strlen(arg) > CCLI_MAX_STR_LEN`, as a positional token and as the value after a name, and is
copied with `strcpy`; with its terminating NUL it takes `CCLI_MAX_STR_LEN + 1` bytes, one more
than the buffer `patch_file` of the client and the buffer `iface` of the usage example hold. -/
theorem ccli__coerce_positional_full_buffer :
    ccli__coerce_positional ccli_default_config patc_patch_file (List.replicate 1024 'a')
      = .ok (.string (List.replicate 1024 'a'))
    ∧ ccli__coerce_named ccli_default_config example_interface (some (List.replicate 1024 'a'))
      = .ok (.string (List.replicate 1024 'a'), true)
    ∧ ccli_parse_opts ccli_default_config (some patc_commands) patc_options
        [['p'], List.replicate 1024 'a']
      = .ok (none, [{ patc_patch_file with
                        matched := true, data := .string (List.replicate 1024 'a') },
                    patc_nowrite])
    ∧ c_strcpy_fits patc_patch_file_size (List.replicate 1024 'a') = false
    ∧ c_strcpy_fits patc_patch_file_size (List.replicate 1023 'a') = true := by
  decide

/-! ## The length of a table -/

theorem ccli__len_loop_run (n : Nat) :
    ∀ (d k fuel : Nat), n - k = d → k < n → d + 1 < fuel →
      ccli__len_loop (List.replicate n false ++ [true]) fuel false k
        = some ((n + 1 + 18446744073709551616 - 1) % 18446744073709551616) := by
  intro d
  induction d with
  | zero => intro k fuel h hk _; omega
  | succ d ih =>
    intro k fuel h hk hf
    have hg : (List.replicate n false ++ [true]).get? k = some false := by
      rw [List.get?_eq_getElem?, List.getElem?_append_left (by simpa using hk)]
      simp [List.getElem?_replicate, hk]
    cases fuel with
    | zero => omega
    | succ fuel =>
      rw [ccli__len_loop]
      simp only [Bool.false_eq_true, if_false]
      rw [hg]
      by_cases hk1 : k + 1 < n
      · exact ih (k + 1) fuel (by omega) hk1 (by omega)
      · have hk2 : k + 1 = n := by omega
        have hg2 : (List.replicate n false ++ [true]).get? (k + 1) = some true := by
          rw [List.get?_eq_getElem?, List.getElem?_append_right (by simp; omega)]
          simp [hk2]
        cases fuel with
        | zero => omega
        | succ fuel =>
          cases fuel with
          | zero => omega
          | succ fuel =>
            simp only [ccli__len_loop, Bool.false_eq_true, if_false, hg2, if_true]
            rw [hk2]

theorem ccli__len_of_array_eq (n : Nat) (hn : n < 18446744073709551616) :
    ccli__len_of_array (List.replicate n false ++ [true])
      = some (if n = 0 then 18446744073709551615 else n) := by
  cases n with
  | zero => simp [ccli__len_of_array, ccli__len_loop]
  | succ m =>
    have hg : (List.replicate (m + 1) false ++ [true]).get? 0 = some false := by
      simp [List.replicate_succ]
    simp only [ccli__len_of_array, hg]
    rw [ccli__len_loop_run (m + 1) (m + 1) 0 _ (by omega) (by omega) (by simp)]
    rw [if_neg (by omega)]
    have e : m + 1 + 1 + 18446744073709551616 - 1 = (m + 1) + 18446744073709551616 := by omega
    rw [e, Nat.add_mod_right, Nat.mod_eq_of_lt hn]

theorem ccli__opt_len_eq_array (options : List ccli_option)
    (hn : options.length < 18446744073709551616) :
    some (ccli__opt_len (some options))
      = ccli__len_of_array (List.replicate options.length false ++ [true]) := by
  rw [ccli__len_of_array_eq _ hn]
  cases options with
  | nil => rfl
  | cons o os => simp [ccli__opt_len]

theorem ccli__cmd_len_eq_array (commands : List ccli_command)
    (hn : commands.length < 18446744073709551616) :
    some (ccli__cmd_len (some commands))
      = ccli__len_of_array (List.replicate commands.length false ++ [true]) := by
  rw [ccli__len_of_array_eq _ hn]
  cases commands with
  | nil => rfl
  | cons o os => simp [ccli__cmd_len]

set_option maxRecDepth 100000 in
/-- C35: for the table that consists of the terminator alone, the loop of `ccli__opt_len` and
of `ccli__cmd_len` is not entered and the value returned is `idx - 1` with `idx == 0`, that is
`SIZE_MAX`, not 0. For a table of one or more descriptors the value is their number, and for
`NULL` it is 0. -/
theorem ccli__opt_len_terminator_only :
    ccli__len_of_array [true] = some 18446744073709551615
    ∧ ccli__opt_len (some []) = 18446744073709551615
    ∧ ccli__cmd_len (some []) = 18446744073709551615
    ∧ ccli__len_of_array [false, false, true] = some 2
    ∧ ccli__opt_len (some patc_options) = 2
    ∧ ccli__cmd_len (some patc_commands) = 3
    ∧ ccli__opt_len none = 0 ∧ ccli__cmd_len none = 0 := by
  decide

/-! ## The client: substitution -/

theorem apply_patc_scan_copy (to_match to_replace : Str) :
    ∀ (input out : Str), (∀ c ∈ input, some c ≠ to_match.head?) →
      apply_patc_scan to_match to_replace input none out = .ok (out ++ input) := by
  intro input
  induction input with
  | nil => intro out _; simp [apply_patc_scan]
  | cons c cs ih =>
    intro out h
    have hc := h c (List.mem_cons_self _ _)
    rw [apply_patc_scan]
    simp only [bne_iff_ne, ne_eq, hc, not_false_eq_true, if_true]
    rw [ih (out ++ [c]) (fun x hx => h x (List.mem_cons_of_mem _ hx))]
    simp

theorem apply_patc_copy (to_match to_replace input out : Str) (hne : to_match ≠ [])
    (hlen : to_match.length ≤ input.length)
    (h : ∀ c ∈ input, some c ≠ to_match.head?) :
    apply_patc to_match to_replace input out = .ok (out ++ input) := by
  have h1 : (to_match.length == 0) = false := by
    cases to_match with
    | nil => exact absurd rfl hne
    | cons a as => simp
  have h2 : ¬ to_match.length > input.length := by omega
  simp only [apply_patc, h1, h2, Bool.false_eq_true, if_false]
  exact apply_patc_scan_copy to_match to_replace input out h

theorem apply_patc_early_return (to_match to_replace input out : Str)
    (h : to_match = [] ∨ to_match.length > input.length) :
    apply_patc to_match to_replace input out = .ok out := by
  rcases h with h | h
  · subst h
    simp [apply_patc]
  · simp [apply_patc, h]

/-- C36: for the input `abab` and the patch that replaces `ab` by `X`, `apply_patc` appends
`Xab`, not `XX`: after a match the byte `in->items[i]` that follows it is appended without
any test, so an occurrence that begins there is passed over. When the match ends the input,
as for the input `ab`, that byte lies after the last byte of the input; and `match_content`
compares bytes after the end of the input when the input ends with a beginning of `to_match`,
as for the input `xa`. An occurrence that is followed by a byte that starts no occurrence is
replaced: `xaby` gives `xXy`. -/
theorem apply_patc_adjacent_occurrences :
    apply_patc ['a', 'b'] ['X'] ['a', 'b', 'a', 'b'] [] = .ok ['X', 'a', 'b']
    ∧ apply_patc ['a', 'b'] ['X'] ['a', 'b'] [] = .error .read_outside_input
    ∧ apply_patc ['a', 'b'] ['X'] ['x', 'a'] [] = .error .read_outside_input
    ∧ apply_patc ['a', 'b'] ['X'] ['x', 'a', 'b', 'y'] [] = .ok ['x', 'X', 'y'] := by
  decide

/-- C37: for the input `abc` and a `to_match` of four bytes, and for an empty `to_match`,
`apply_patc` returns at once and appends nothing, so `out` is empty and not a copy of the
input; the next patch of the same file then starts from an empty `front` and appends nothing
either, although its `to_match` occurs in the file. A `to_match` that is not empty, not
longer than the input and absent from it does give a copy. -/
theorem apply_patc_returns_without_copy :
    apply_patc ['a', 'b', 'c', 'd'] ['X'] ['a', 'b', 'c'] [] = .ok []
    ∧ apply_patc [] ['X'] ['a', 'b', 'c'] [] = .ok []
    ∧ run_patch_same_file [(['a', 'b', 'c', 'd'], ['X']), (['b'], ['Y'])] ['a', 'b', 'c'] = .ok []
    ∧ apply_patc ['z', 'z'] ['X'] ['a', 'b', 'c'] [] = .ok ['a', 'b', 'c']
    ∧ run_patch_same_file [(['z', 'z'], ['X']), (['b'], ['Y'])] ['a', 'b', 'c']
      = .ok ['a', 'Y', 'c'] := by
  decide

/-! ## The client: blocks of the patch file -/

set_option maxRecDepth 100000 in
/-- C38: in `??\nfoo\n??\n` with the cursor after the opening line, `parse_block` returns the
block of offset 3 and length 2, the text `fo`, not `foo`: at a newline `last_newline` is set
to `p->cursor - 1`, the address of the character before the newline, and the length is
`last_newline - block.data`. With two lines the block is `foo\nba`. When a blank line
precedes the delimiter line, `last_newline` is the address before the block and the length is
`(size_t)-1`, more than the input holds. The block is empty when the delimiter line follows
at once, and the cursor is left after the delimiter line. -/
theorem parse_block_drops_last_character :
    parse_block ⟨['?', '?', '\n', 'f', 'o', 'o', '\n', '?', '?', '\n'], 3⟩ '?'
      = .ok (⟨3, 2⟩, ⟨['?', '?', '\n', 'f', 'o', 'o', '\n', '?', '?', '\n'], 10⟩)
    ∧ parse_block ⟨['?', '?', '\n', 'f', 'o', 'o', '\n', 'b', 'a', 'r', '\n', '?', '?', '\n'], 3⟩ '?'
      = .ok (⟨3, 6⟩,
          ⟨['?', '?', '\n', 'f', 'o', 'o', '\n', 'b', 'a', 'r', '\n', '?', '?', '\n'], 14⟩)
    ∧ parse_block ⟨['?', '?', '\n', '\n', '?', '?', '\n'], 3⟩ '?'
      = .ok (⟨3, 18446744073709551615⟩, ⟨['?', '?', '\n', '\n', '?', '?', '\n'], 7⟩)
    ∧ parse_block ⟨['?', '?', '\n', '?', '?', '\n'], 3⟩ '?'
      = .ok (⟨3, 0⟩, ⟨['?', '?', '\n', '?', '?', '\n'], 6⟩)
    ∧ parse_file (fun _ v => v)
        ⟨['@', 'f', '\n', '?', '?', '\n', 'f', 'o', 'o', '\n', '?', '?', '\n',
          '!', '!', '\n', 'b', 'a', 'r', '\n', '!', '!', '\n'], 0⟩
      = .ok [⟨⟨1, 1⟩, ⟨6, 2⟩, ⟨16, 2⟩⟩] := by
  decide

/-! ## The client: `main` -/

theorem patc_main_no_subcommand (nob_read_entire_file : Str → Option Str)
    (nob_sv_trim : Str → Nob_String_View → Nob_String_View) (argv : List Str)
    (options1 : List ccli_option) (content : Str) (ps : List patc)
    (hparse : ccli_parse_opts ccli_default_config (some patc_commands) patc_options argv
      = .ok (none, options1))
    (hread : nob_read_entire_file (patc_patch_file_value options1) = some content)
    (hfile : parse_file nob_sv_trim ⟨content, 0⟩ = .ok ps) :
    patc_main nob_read_entire_file nob_sv_trim argv = .faulted .null_pointer_read := by
  simp only [patc_main, hparse, hread, hfile]

theorem parse_file_empty (nob_sv_trim : Str → Nob_String_View → Nob_String_View) :
    parse_file nob_sv_trim ⟨[], 0⟩ = .ok [] := by
  rfl

set_option maxRecDepth 100000 in
/-- C39: for `[patc, a.patc]`, where `a.patc` is a file that can be read and is empty,
`ccli_parse_opts` returns `NULL`, no command being given, the patch file is read and parsed,
and `main` then calls `strcmp(cmd, "apply")` with `cmd == NULL`: it does not terminate
normally. With the command `apply` it runs the patches and returns 0. -/
theorem patc_main_null_subcommand
    (nob_sv_trim : Str → Nob_String_View → Nob_String_View) :
    ccli_parse_opts ccli_default_config (some patc_commands) patc_options
        [['p', 'a', 't', 'c'], ['a', '.', 'p', 'a', 't', 'c']]
      = .ok (none, [{ patc_patch_file with
                        matched := true, data := .string ['a', '.', 'p', 'a', 't', 'c'] },
                    patc_nowrite])
    ∧ patc_main (fun _ => some []) nob_sv_trim
        [['p', 'a', 't', 'c'], ['a', '.', 'p', 'a', 't', 'c']]
      = .faulted .null_pointer_read
    ∧ patc_main (fun _ => some []) nob_sv_trim
        [['p', 'a', 't', 'c'], ['a', 'p', 'p', 'l', 'y'], ['a', '.', 'p', 'a', 't', 'c']]
      = .returned 0 (.run_patch []) := by
  refine ⟨by decide, ?_, ?_⟩
  · exact patc_main_no_subcommand (fun _ => some []) nob_sv_trim _
      [{ patc_patch_file with matched := true, data := .string ['a', '.', 'p', 'a', 't', 'c'] },
        patc_nowrite] [] [] (by decide) rfl (parse_file_empty nob_sv_trim)
  · have hp : ccli_parse_opts ccli_default_config (some patc_commands) patc_options
        [['p', 'a', 't', 'c'], ['a', 'p', 'p', 'l', 'y'], ['a', '.', 'p', 'a', 't', 'c']]
        = .ok (some ['a', 'p', 'p', 'l', 'y'],
            [{ patc_patch_file with
                matched := true, data := .string ['a', '.', 'p', 'a', 't', 'c'] },
              patc_nowrite]) := by decide
    simp [patc_main, hp, parse_file_empty]

/-! ## The client: every block moves the cursor on -/

theorem parser_expect_advance_cursor (p p1 : parser) (c : Char)
    (h : parser_expect_advance p c = .ok p1) :
    p1.input = p.input ∧ p1.cursor = p.cursor + 1 := by
  unfold parser_expect_advance at h
  split at h
  · simp at h
  · split at h
    · simp at h
    · simp only [Except.ok.injEq] at h
      rw [← h]
      exact ⟨rfl, rfl⟩

theorem parser_expect_eof_or_advance_cursor (p p1 : parser) (c : Char)
    (h : parser_expect_eof_or_advance p c = .ok p1) :
    p1.input = p.input ∧ p.cursor ≤ p1.cursor := by
  unfold parser_expect_eof_or_advance at h
  split at h
  · simp only [Except.ok.injEq] at h
    rw [← h]
    exact ⟨rfl, Nat.le_refl _⟩
  · obtain ⟨h1, h2⟩ := parser_expect_advance_cursor p p1 c h
    exact ⟨h1, by omega⟩

theorem parser_skip_white_cursor (p : parser) :
    (parser_skip_white p).input = p.input ∧ p.cursor ≤ (parser_skip_white p).cursor := by
  simp [parser_skip_white]

theorem parser_parse_until_cursor (p p1 : parser) (c : Char) (v : Nob_String_View)
    (h : parser_parse_until p c = .ok (v, p1)) :
    p1.input = p.input ∧ p.cursor ≤ p1.cursor := by
  unfold parser_parse_until at h
  split at h
  · simp only [Except.ok.injEq, Prod.mk.injEq] at h
    rw [← h.2]
    exact ⟨rfl, by simp only; omega⟩
  · simp at h

theorem parse_block_end_cursor (start ofs : Nat) (ln : Option Int) :
    (parse_block_end start ofs ln).2 = ofs + 3 := by
  unfold parse_block_end
  split <;> rfl

theorem parse_block_scan_cursor (delim : Char) (start : Nat) :
    ∀ (l : List Char) (ofs : Nat) (st : parse_block_state) (ln : Option Int)
      (b : Nob_String_View) (ofs1 : Nat),
      parse_block_scan delim start l ofs st ln = .ok (b, ofs1) → ofs ≤ ofs1 := by
  intro l
  induction l with
  | nil =>
    intro ofs st ln b ofs1 h
    simp [parse_block_scan] at h
  | cons c cs ih =>
    intro ofs st ln b ofs1 h
    have hend : ∀ (x : Nob_String_View × Nat),
        (Except.ok (parse_block_end start ofs ln) : patc_result (Nob_String_View × Nat))
          = .ok x → ofs ≤ x.2 := by
      intro x hx
      simp only [Except.ok.injEq] at hx
      rw [← hx, parse_block_end_cursor]
      omega
    cases st with
    | skipping_white =>
      unfold parse_block_scan at h
      split at h
      · have := ih _ _ _ _ _ h
        omega
      · split at h
        · simp at h
        · split at h
          · exact hend _ h
          · have := ih _ _ _ _ _ h
            omega
    | line_start =>
      unfold parse_block_scan at h
      split at h
      · have := ih _ _ _ _ _ h
        omega
      · split at h
        · simp at h
        · split at h
          · exact hend _ h
          · have := ih _ _ _ _ _ h
            omega
    | inside_line =>
      rw [parse_block_scan] at h
      split at h
      · have := ih _ _ _ _ _ h
        omega
      · have := ih _ _ _ _ _ h
        omega

theorem parse_block_cursor (p p1 : parser) (delim : Char) (b : Nob_String_View)
    (h : parse_block p delim = .ok (b, p1)) :
    p1.input = p.input ∧ p.cursor ≤ p1.cursor := by
  unfold parse_block at h
  split at h
  · simp at h
  · rename_i blk ofs hs
    simp only [Except.ok.injEq, Prod.mk.injEq] at h
    rw [← h.2]
    exact ⟨rfl, parse_block_scan_cursor delim _ _ _ _ _ _ _ hs⟩

theorem parse_file_block_cursor (nob_sv_trim : Str → Nob_String_View → Nob_String_View)
    (p p1 : parser) (patch : patc) (h : parse_file_block nob_sv_trim p = .ok (patch, p1)) :
    p1.input = p.input ∧ p.cursor < p1.cursor := by
  unfold parse_file_block at h
  cases h1 : parser_expect_advance p '@' with
  | error f => rw [h1] at h; simp [bind, Except.bind] at h
  | ok q1 =>
    rw [h1] at h
    simp only [bind, Except.bind] at h
    obtain ⟨i1, c1⟩ := parser_expect_advance_cursor _ _ _ h1
    cases h2 : parser_parse_until q1 '\n' with
    | error f => rw [h2] at h; simp at h
    | ok r2 =>
      obtain ⟨name, q2⟩ := r2
      rw [h2] at h
      simp only at h
      obtain ⟨i2, c2⟩ := parser_parse_until_cursor _ _ _ _ h2
      cases h3 : parser_expect_advance q2 '?' with
      | error f => rw [h3] at h; simp at h
      | ok q3 =>
        rw [h3] at h
        simp only at h
        obtain ⟨i3, c3⟩ := parser_expect_advance_cursor _ _ _ h3
        cases h4 : parser_expect_advance q3 '?' with
        | error f => rw [h4] at h; simp at h
        | ok q4 =>
          rw [h4] at h
          simp only at h
          obtain ⟨i4, c4⟩ := parser_expect_advance_cursor _ _ _ h4
          cases h5 : parser_expect_advance q4 '\n' with
          | error f => rw [h5] at h; simp at h
          | ok q5 =>
            rw [h5] at h
            simp only at h
            obtain ⟨i5, c5⟩ := parser_expect_advance_cursor _ _ _ h5
            cases h6 : parse_block q5 '?' with
            | error f => rw [h6] at h; simp at h
            | ok r6 =>
              obtain ⟨tm, q6⟩ := r6
              rw [h6] at h
              simp only at h
              obtain ⟨i6, c6⟩ := parse_block_cursor _ _ _ _ h6
              obtain ⟨i7, c7⟩ := parser_skip_white_cursor q6
              cases h8 : parser_expect_advance (parser_skip_white q6) '!' with
              | error f => rw [h8] at h; simp at h
              | ok q8 =>
                rw [h8] at h
                simp only at h
                obtain ⟨i8, c8⟩ := parser_expect_advance_cursor _ _ _ h8
                cases h9 : parser_expect_advance q8 '!' with
                | error f => rw [h9] at h; simp at h
                | ok q9 =>
                  rw [h9] at h
                  simp only at h
                  obtain ⟨i9, c9⟩ := parser_expect_advance_cursor _ _ _ h9
                  cases h10 : parser_expect_advance q9 '\n' with
                  | error f => rw [h10] at h; simp at h
                  | ok q10 =>
                    rw [h10] at h
                    simp only at h
                    obtain ⟨i10, c10⟩ := parser_expect_advance_cursor _ _ _ h10
                    cases h11 : parse_block q10 '!' with
                    | error f => rw [h11] at h; simp at h
                    | ok r11 =>
                      obtain ⟨tr, q11⟩ := r11
                      rw [h11] at h
                      simp only at h
                      obtain ⟨i11, c11⟩ := parse_block_cursor _ _ _ _ h11
                      cases h12 : parser_expect_eof_or_advance q11 '\n' with
                      | error f => rw [h12] at h; simp at h
                      | ok q12 =>
                        rw [h12] at h
                        simp only [pure, Except.pure, Except.ok.injEq, Prod.mk.injEq] at h
                        obtain ⟨i12, c12⟩ := parser_expect_eof_or_advance_cursor _ _ _ h12
                        obtain ⟨i13, c13⟩ := parser_skip_white_cursor q12
                        rw [← h.2]
                        refine ⟨?_, by omega⟩
                        rw [i13, i12, i11, i10, i9, i8, i7, i6, i5, i4, i3, i2, i1]

theorem parser_expect_advance_fault (p : parser) (c : Char) :
    parser_expect_advance p c ≠ .error .fuel_exhausted := by
  unfold parser_expect_advance
  split
  · simp
  · split <;> simp

theorem parse_block_scan_fault (delim : Char) (start : Nat) :
    ∀ (l : List Char) (ofs : Nat) (st : parse_block_state) (ln : Option Int),
      parse_block_scan delim start l ofs st ln ≠ .error .fuel_exhausted := by
  intro l
  induction l with
  | nil =>
    intro ofs st ln
    simp [parse_block_scan]
  | cons c cs ih =>
    intro ofs st ln
    cases st with
    | skipping_white =>
      unfold parse_block_scan
      split
      · exact ih _ _ _
      · split
        · simp
        · split
          · simp
          · exact ih _ _ _
    | line_start =>
      unfold parse_block_scan
      split
      · exact ih _ _ _
      · split
        · simp
        · split
          · simp
          · exact ih _ _ _
    | inside_line =>
      rw [parse_block_scan]
      split
      · exact ih _ _ _
      · exact ih _ _ _

theorem parse_block_fault (p : parser) (delim : Char) :
    parse_block p delim ≠ .error .fuel_exhausted := by
  unfold parse_block
  split
  · rename_i f hs
    intro e
    simp only [Except.error.injEq] at e
    rw [e] at hs
    exact parse_block_scan_fault delim _ _ _ _ _ hs
  · simp

theorem parse_file_block_fault (nob_sv_trim : Str → Nob_String_View → Nob_String_View)
    (p : parser) : parse_file_block nob_sv_trim p ≠ .error .fuel_exhausted := by
  intro h
  unfold parse_file_block at h
  cases h1 : parser_expect_advance p '@' with
  | error f =>
    rw [h1] at h
    simp only [bind, Except.bind, Except.error.injEq] at h
    rw [h] at h1
    exact parser_expect_advance_fault _ _ h1
  | ok q1 =>
    rw [h1] at h
    simp only [bind, Except.bind] at h
    cases h2 : parser_parse_until q1 '\n' with
    | error f =>
      rw [h2] at h
      simp only [Except.error.injEq] at h
      rw [h] at h2
      unfold parser_parse_until at h2
      split at h2 <;> simp at h2
    | ok r2 =>
      obtain ⟨name, q2⟩ := r2
      rw [h2] at h
      simp only at h
      cases h3 : parser_expect_advance q2 '?' with
      | error f =>
        rw [h3] at h
        simp only [Except.error.injEq] at h
        rw [h] at h3
        exact parser_expect_advance_fault _ _ h3
      | ok q3 =>
        rw [h3] at h
        simp only at h
        cases h4 : parser_expect_advance q3 '?' with
        | error f =>
          rw [h4] at h
          simp only [Except.error.injEq] at h
          rw [h] at h4
          exact parser_expect_advance_fault _ _ h4
        | ok q4 =>
          rw [h4] at h
          simp only at h
          cases h5 : parser_expect_advance q4 '\n' with
          | error f =>
            rw [h5] at h
            simp only [Except.error.injEq] at h
            rw [h] at h5
            exact parser_expect_advance_fault _ _ h5
          | ok q5 =>
            rw [h5] at h
            simp only at h
            cases h6 : parse_block q5 '?' with
            | error f =>
              rw [h6] at h
              simp only [Except.error.injEq] at h
              rw [h] at h6
              exact parse_block_fault _ _ h6
            | ok r6 =>
              obtain ⟨tm, q6⟩ := r6
              rw [h6] at h
              simp only at h
              cases h8 : parser_expect_advance (parser_skip_white q6) '!' with
              | error f =>
                rw [h8] at h
                simp only [Except.error.injEq] at h
                rw [h] at h8
                exact parser_expect_advance_fault _ _ h8
              | ok q8 =>
                rw [h8] at h
                simp only at h
                cases h9 : parser_expect_advance q8 '!' with
                | error f =>
                  rw [h9] at h
                  simp only [Except.error.injEq] at h
                  rw [h] at h9
                  exact parser_expect_advance_fault _ _ h9
                | ok q9 =>
                  rw [h9] at h
                  simp only at h
                  cases h10 : parser_expect_advance q9 '\n' with
                  | error f =>
                    rw [h10] at h
                    simp only [Except.error.injEq] at h
                    rw [h] at h10
                    exact parser_expect_advance_fault _ _ h10
                  | ok q10 =>
                    rw [h10] at h
                    simp only at h
                    cases h11 : parse_block q10 '!' with
                    | error f =>
                      rw [h11] at h
                      simp only [Except.error.injEq] at h
                      rw [h] at h11
                      exact parse_block_fault _ _ h11
                    | ok r11 =>
                      obtain ⟨tr, q11⟩ := r11
                      rw [h11] at h
                      simp only at h
                      cases h12 : parser_expect_eof_or_advance q11 '\n' with
                      | error f =>
                        rw [h12] at h
                        simp only [Except.error.injEq] at h
                        rw [h] at h12
                        unfold parser_expect_eof_or_advance at h12
                        split at h12
                        · simp at h12
                        · exact parser_expect_advance_fault _ _ h12
                      | ok q12 =>
                        rw [h12] at h
                        simp [pure, Except.pure] at h

/-- The bound on the iterations of the loop of `parse_file` is never reached: when the fuel
exceeds the number of bytes after the cursor, the loop ends by itself. -/
theorem parse_file_loop_fuel (nob_sv_trim : Str → Nob_String_View → Nob_String_View) :
    ∀ (fuel : Nat) (p : parser) (ps : List patc), p.input.length - p.cursor < fuel →
      parse_file_loop nob_sv_trim fuel p ps ≠ .error .fuel_exhausted := by
  intro fuel
  induction fuel with
  | zero => intro p ps h; omega
  | succ fuel ih =>
    intro p ps h
    rw [parse_file_loop]
    split
    · rename_i hlt
      cases hb : parse_file_block nob_sv_trim p with
      | error f =>
        simp only
        intro e
        simp only [Except.error.injEq] at e
        rw [e] at hb
        exact parse_file_block_fault nob_sv_trim p hb
      | ok r =>
        obtain ⟨patch, p1⟩ := r
        obtain ⟨hi, hc⟩ := parse_file_block_cursor nob_sv_trim p p1 patch hb
        exact ih p1 _ (by rw [hi]; omega)
    · cases he : parser_expect_eof p with
      | error f =>
        simp only
        intro e
        simp only [Except.error.injEq] at e
        rw [e] at he
        unfold parser_expect_eof at he
        split at he <;> simp at he
      | ok u => simp

theorem parse_file_fuel (nob_sv_trim : Str → Nob_String_View → Nob_String_View) (p : parser) :
    parse_file nob_sv_trim p ≠ .error .fuel_exhausted :=
  parse_file_loop_fuel nob_sv_trim _ p [] (by omega)
